import Mathlib

/-!
# Text synchronisation of the language server

A shallow embedding of `internal/lsp/text_synchronization.go`: the translation
of `didChange` content changes into the new file text (`changedText`,
`applyIncrementalChanges`), the modification pipeline (`didModifyFiles`,
`processModifications`) with its debounced batches of on-disk changes, and the
goroutines these functions start.

Code that lives in other packages (the session, the column mapper, the
diagnosis pass, the client) is taken as a parameter, collected in `Env`.
-/

namespace Lsp

/-! ## Data model -/

/-- Go `[]byte` and the bytes of a Go `string`. -/
abbrev Bytes := List (Fin 256)

/-- The type `span.URI`. -/
abbrev URI := String

/-- Go `error` values built in this file, and errors handed back by collaborators. -/
inductive GoError where
  /-- The value `fmt.Errorf("%w: msg", jsonrpc2.ErrInternal)`. -/
  | internal (msg : String)
  /-- The value `fmt.Errorf("%w: msg (%v)", jsonrpc2.ErrInternal, cause)`. -/
  | internalCause (msg : String) (cause : GoError)
  /-- The value `errors.New(msg)`. -/
  | new (msg : String)
  /-- An error value returned by code outside this file. -/
  | ext (tag : String)
  deriving DecidableEq, Repr

/-- What a Go function call yields: its results, a returned `error`, or a run-time panic. -/
inductive Outcome (α : Type) where
  | ok (a : α)
  | err (e : GoError)
  | panic (why : String)
  deriving DecidableEq, Repr

/-- The type `protocol.Position`: zero-based line and UTF-16 character offset. -/
structure Position where
  line : Nat
  character : Nat
  deriving DecidableEq, Repr

/-- The type `protocol.Range`. -/
structure Range where
  start : Position
  end_ : Position
  deriving DecidableEq, Repr

/-- The type `protocol.TextDocumentContentChangeEvent`; `range` is a pointer in
Go, `none` is the nil pointer. -/
structure TextDocumentContentChangeEvent where
  range : Option Range
  rangeLength : Nat
  text : Bytes
  deriving DecidableEq, Repr

/-- Modelled from the spec: the span returned by `protocol.ColumnMapper.RangeSpan`
(package `span`, outside these sources), reduced to what
`applyIncrementalChanges` reads from it: whether it carries byte offsets
(`HasOffset`) and the offsets of its two ends (`Start().Offset()`,
`End().Offset()`). -/
structure Span where
  hasOffset : Bool
  start : Nat
  end_ : Nat
  deriving DecidableEq, Repr

/-- The type `source.FileAction`. -/
inductive FileAction where
  | UnknownFileAction
  | Open
  | Change
  | Close
  | Save
  | Create
  | Delete
  deriving DecidableEq, Repr

/-- The type `source.FileModification`; `text` is `none` for a nil slice. -/
structure FileModification where
  uri : URI
  action : FileAction
  onDisk : Bool
  version : Int
  text : Option Bytes
  languageID : String
  deriving DecidableEq, Repr

/-- The type `ModificationSource`. -/
inductive ModificationSource where
  | FromDidOpen
  | FromDidChange
  | FromDidChangeWatchedFiles
  | FromDidSave
  | FromDidClose
  | FromRegenerateCgo
  | FromInitialWorkspaceLoad
  deriving DecidableEq, Repr

/-- The method `ModificationSource.String`. -/
def ModificationSource.String : ModificationSource → String
  | .FromDidOpen => "opened files"
  | .FromDidChange => "changed files"
  | .FromDidChangeWatchedFiles => "files changed on disk"
  | .FromDidSave => "saved files"
  | .FromDidClose => "close files"
  | .FromRegenerateCgo => "regenerate cgo"
  | .FromInitialWorkspaceLoad => "initial workspace load"

/-- The function `DiagnosticWorkTitle`. -/
def DiagnosticWorkTitle (cause : ModificationSource) : String :=
  "diagnosing " ++ cause.String

/-! ## Collaborators outside this file -/

/-- Modelled from the spec: a Snapshot (§3), an immutable view of the workspace
files with its generation id; the type lives in package `source`, outside these
sources. -/
structure Snapshot where
  view : String
  generation : Nat
  files : List (URI × Bytes)
  deriving DecidableEq, Repr

/-- Modelled from the spec: a View (§3) with the pointer to its current
Snapshot; the type lives in package `source`, outside these sources. -/
structure View where
  root : String
  snapshot : Snapshot
  deriving DecidableEq, Repr

/-- The two options read through `s.session.Options()`. -/
structure Options where
  verboseWorkDoneProgress : Bool
  experimentalWatchedFileDelay : Int
  deriving DecidableEq, Repr

/-- Modelled from the spec: the Session (§3), owner of the Views; the type lives
in package `source`, outside these sources. -/
structure Session where
  views : List View
  options : Options
  deriving DecidableEq, Repr

/-- The handle returned by `Session.GetFile`, reduced to the result of its `Read`. -/
structure FileHandle where
  read : Except GoError Bytes

/-- The type `protocol.WorkspaceFolder`. -/
structure WorkspaceFolder where
  uri : String
  name : String
  deriving DecidableEq, Repr

/-- The code this file calls in other packages and in other files of the package. -/
structure Env where
  /-- The constant `serverShutDown` of the server's state type. -/
  serverShutDown : Nat
  /-- The method `Session.GetFile`. -/
  getFile : Session → URI → Except GoError FileHandle
  /-- The call `protocol.NewColumnMapper(uri, content).RangeSpan(r)`. -/
  rangeSpan : URI → Bytes → Range → Except GoError Span
  /-- The method `Session.ExpandModificationsToDirectories`. -/
  expandModificationsToDirectories : Session → List FileModification → List FileModification
  /-- The method `Session.DidModifyFiles`: the new snapshots and the session
  holding them, or an error. -/
  sessionDidModifyFiles : Session → List FileModification → Except GoError (List Snapshot × Session)
  /-- The method `Server.updateWatchedDirectories`, reduced to the error it returns. -/
  updateWatchedDirectories : Session → Option GoError
  /-- The method `span.URI.IsFile`. -/
  isFile : URI → Bool
  /-- The method `span.URI.Filename`. -/
  filename : URI → String
  /-- The method `Session.ViewOf`. -/
  viewOf : Session → URI → Except GoError View
  /-- The function `source.IsGenerated`. -/
  isGenerated : Snapshot → URI → Bool
  /-- The method `s.client.ShowMessage`, reduced to the error it returns. -/
  showMessage : String → Option GoError
  /-- The function `filepath.Dir`. -/
  dir : String → String
  /-- The function `filepath.Base`. -/
  base : String → String
  /-- The function `protocol.URIFromPath`, as a string. -/
  uriFromPath : String → String
  /-- The method `Server.addFolders`: the session with the folders added, or an error. -/
  addFolders : Session → List WorkspaceFolder → Except GoError Session

/-! ## Server state, channels and goroutines -/

/-- A channel of type `chan struct{}`, named by its index in the channel table. -/
abbrev Chan := Nat

/-- The mutexes of the server. -/
inductive Mutex where
  | fileChangeMu
  | stateMu
  | changedFilesMu
  deriving DecidableEq, Repr

/-- The type `pendingModificationSet`. -/
structure PendingModificationSet where
  diagnoseDone : Chan
  changes : List FileModification
  deriving DecidableEq, Repr

/-- One statement of the body of a goroutine started in this file. -/
inductive Instr where
  /-- The receive `<-c`; on a `chan struct{}` nobody sends on, it returns once `c` is closed. -/
  | recv (c : Chan)
  /-- The call `close(c)`. -/
  | close (c : Chan)
  /-- The call `work.End(ctx, msg)` of the progress started under `title`. -/
  | workEnd (title msg : String)
  /-- The call `s.diagnoseSnapshots(snapshots, onDisk)`. -/
  | diagnoseSnapshots (snapshots : List Snapshot) (onDisk : Bool)
  /-- The call `release()` of the function returned with `snapshots`. -/
  | release (snapshots : List Snapshot)
  /-- The debounced function of `didModifyFiles` up to `s.fileChangeMu.Unlock()`:
  it waits for the debouncer's answer on `okc`, and on `true` processes all
  pending on-disk changes. -/
  | flush (okc : Nat) (onDisk : Bool)
  deriving DecidableEq, Repr

/-- A goroutine: the statements it has still to run. -/
abbrev Goroutine := List Instr

/-- What the code does that is visible outside the server state, in the order it happens. -/
inductive Event where
  | lock (m : Mutex)
  | unlock (m : Mutex)
  | make (c : Chan)
  | close (c : Chan)
  | progressStart (title msg : String)
  | progressEnd (title msg : String)
  /-- Entry of `didModifyFiles` with its arguments. -/
  | didModifyFiles (modifications : List FileModification) (cause : ModificationSource)
  /-- Entry of `processModifications` with its arguments. -/
  | processModifications (modifications : List FileModification) (onDisk : Bool) (diagnoseDone : Chan)
  | expandModificationsToDirectories (modifications : List FileModification)
  | sessionDidModifyFiles (modifications : List FileModification)
  | updateWatchedDirectories
  | diagnoseSnapshots (snapshots : List Snapshot) (onDisk : Bool)
  | release (snapshots : List Snapshot)
  /-- The call `s.watchedFileDebouncer.debounce("", 0, time.After(delay))` returning `okc`. -/
  | debounce (delay : Int) (okc : Nat)
  /-- The statement `go g`. -/
  | go (g : Goroutine)
  /-- The call `event.Error(ctx, msg, err)`. -/
  | eventError (msg : String) (e : GoError)
  /-- The call `s.session.GetFile(ctx, uri)`. -/
  | getFile (uri : URI)
  /-- The call `fh.Read()` on the handle of `uri`. -/
  | read (uri : URI)
  /-- The call `s.session.ViewOf(uri)`. -/
  | viewOf (uri : URI)
  /-- The call `s.client.ShowMessage` with a warning carrying `msg`. -/
  | showMessage (msg : String)
  /-- The debouncer answered `ok` on the channel `okc`. -/
  | okAnswer (okc : Nat) (ok : Bool)
  /-- The call `s.addFolders(ctx, folders)`. -/
  | addFolders (folders : List WorkspaceFolder)
  deriving DecidableEq, Repr

/-- The fields of `Server` this file reads and writes. -/
structure Server where
  state : Nat
  session : Session
  pendingOnDiskChanges : List PendingModificationSet
  changedFiles : List URI
  deriving DecidableEq, Repr

/-- The server together with the run-time state around it: the channels made so
far (`true` once closed), the number of `debounce` calls so far, the goroutines
started so far, a panic if one happened, and the log of events. -/
structure World where
  server : Server
  chans : List Bool
  okcs : Nat
  goroutines : List Goroutine
  panicked : Option String
  log : List Event
  deriving DecidableEq, Repr

/-- Append an event to the log. -/
def World.emit (w : World) (e : Event) : World :=
  { w with log := w.log ++ [e] }

/-- The statement `go g`. -/
def World.spawn (w : World) (g : Goroutine) : World :=
  { w with goroutines := w.goroutines ++ [g], log := w.log ++ [Event.go g] }

/-- The expression `make(chan struct{})`: a new, open channel. -/
def makeChan (w : World) : Chan × World :=
  (w.chans.length, { w with chans := w.chans ++ [false], log := w.log ++ [Event.make w.chans.length] })

/-- Whether channel `c` has been closed. -/
def World.isClosed (w : World) (c : Chan) : Bool :=
  w.chans.getD c false

/-- The call `close(c)`: it panics on a channel that is closed already and on a
channel that was never made (nil). -/
def closeChan (c : Chan) (w : World) : Outcome Unit × World :=
  match w.chans[c]? with
  | some false => (.ok (), { w with chans := w.chans.set c true, log := w.log ++ [Event.close c] })
  | some true => (.panic "close of closed channel", w)
  | none => (.panic "close of nil channel", w)

/-! ## A column mapper -/

/-- Modelled from the spec: the function `utf8.DecodeRune` of the Go library, the
rune at the head of `b` and its width in bytes; invalid input gives
`(0xFFFD, 1)`, empty input `(0xFFFD, 0)`. -/
def decodeRune : Bytes → Nat × Nat
  | [] => (0xFFFD, 0)
  | b0 :: rest =>
    let isCont := fun (b : Fin 256) => 0x80 ≤ b.val ∧ b.val ≤ 0xBF
    if b0.val < 0x80 then (b0.val, 1)
    else if 0xC2 ≤ b0.val ∧ b0.val ≤ 0xDF then
      match rest with
      | b1 :: _ =>
        if isCont b1 then ((b0.val % 0x20) * 0x40 + b1.val % 0x40, 2) else (0xFFFD, 1)
      | _ => (0xFFFD, 1)
    else if 0xE0 ≤ b0.val ∧ b0.val ≤ 0xEF then
      match rest with
      | b1 :: b2 :: _ =>
        let lo := if b0.val = 0xE0 then 0xA0 else 0x80
        let hi := if b0.val = 0xED then 0x9F else 0xBF
        if lo ≤ b1.val ∧ b1.val ≤ hi ∧ isCont b2 then
          ((b0.val % 0x10) * 0x1000 + (b1.val % 0x40) * 0x40 + b2.val % 0x40, 3)
        else (0xFFFD, 1)
      | _ => (0xFFFD, 1)
    else if 0xF0 ≤ b0.val ∧ b0.val ≤ 0xF4 then
      match rest with
      | b1 :: b2 :: b3 :: _ =>
        let lo := if b0.val = 0xF0 then 0x90 else 0x80
        let hi := if b0.val = 0xF4 then 0x8F else 0xBF
        if lo ≤ b1.val ∧ b1.val ≤ hi ∧ isCont b2 ∧ isCont b3 then
          ((b0.val % 0x08) * 0x40000 + (b1.val % 0x40) * 0x1000 + (b2.val % 0x40) * 0x40
            + b3.val % 0x40, 4)
        else (0xFFFD, 1)
      | _ => (0xFFFD, 1)
    else (0xFFFD, 1)

/-- Modelled from the spec: the line table of a file (`token.File`, set by
`SetLinesForContent`), the offsets at which a line starts: offset 0 and the
offset after each newline that is followed by a byte. -/
def lineStartsFrom : Nat → Bool → Bytes → List Nat
  | _, _, [] => []
  | offset, startsLine, b :: bs =>
    (if startsLine then [offset] else []) ++ lineStartsFrom (offset + 1) (b.val == 10) bs

/-- Modelled from the spec: the function `span.FromUTF16Column` of package
`span`, as the number of bytes to move forward from the start of a line to
reach the column that lies `units` UTF-16 code units after it; a column past
the end of the line stays at the end of the line. -/
def utf16Advance : Nat → Bytes → Except GoError Nat
  | 0, _ => .ok 0
  | _ + 1, [] => .error (.ext "FromUTF16Column: chr goes beyond the content")
  | units + 1, b :: bs =>
    let rw := decodeRune (b :: bs)
    if rw.1 = 10 then .ok 0
    else if 0x10000 ≤ rw.1 then
      match units with
      | 0 => .ok 0
      | units' + 1 => (utf16Advance units' ((b :: bs).drop rw.2)).map (fun n => n + rw.2)
    else (utf16Advance units ((b :: bs).drop rw.2)).map (fun n => n + rw.2)

/-- Modelled from the spec: the function `span.ToOffset` of package `span` at
column 1, the byte offset at which the zero-based line `line` starts; the line
after the last one starts at the end of the content. -/
def lineOffset (content : Bytes) (line : Nat) : Except GoError Nat :=
  let starts := lineStartsFrom 0 true content
  if starts.length < line then .error (.ext "line is beyond end of file")
  else if line = starts.length then .ok content.length
  else .ok (starts.getD line 0)

/-- Modelled from the spec: the method `protocol.ColumnMapper.Point` (package
`protocol`, outside these sources), the byte offset of a line / UTF-16
character position in `content`. -/
def columnMapperPoint (content : Bytes) (p : Position) : Except GoError Nat :=
  match lineOffset content p.line with
  | .error e => .error e
  | .ok offset =>
    if p.character = 0 then .ok offset
    else if content.length ≤ offset then
      .error (.ext "FromUTF16Column: offset greater than length of content")
    else
      match utf16Advance p.character (content.drop offset) with
      | .error e => .error e
      | .ok n => .ok (offset + n)

/-- Modelled from the spec: the method `protocol.ColumnMapper.RangeSpan` of a
mapper built over `content` (the position-to-offset mapping of §4.5; package
`protocol`, outside these sources). -/
def columnMapperRangeSpan (_uri : URI) (content : Bytes) (r : Range) : Except GoError Span :=
  match columnMapperPoint content r.start with
  | .error e => .error e
  | .ok start =>
    match columnMapperPoint content r.end_ with
    | .error e => .error e
    | .ok end_ => .ok { hasOffset := true, start := start, end_ := end_ }

/-! ## Text of a `didChange` notification -/

/-- The body of the loop of `applyIncrementalChanges`: one change applied to `content`. -/
def applyChange (env : Env) (uri : URI) (content : Bytes)
    (change : TextDocumentContentChangeEvent) : Outcome Bytes :=
  -- m := protocol.NewColumnMapper(uri, content) is built over the current content
  match change.range with
  | none => .err (.internal "unexpected nil range for change")
  | some r =>
    match env.rangeSpan uri content r with
    | .error e => .err e
    | .ok spn =>
      if !spn.hasOffset then
        .err (.internal "invalid range for content change")
      else if spn.end_ < spn.start then
        .err (.internal "invalid range for content change")
      else if content.length < spn.start then
        .panic "slice bounds out of range"
      else if content.length < spn.end_ then
        .panic "slice bounds out of range"
      else
        .ok (content.take spn.start ++ change.text ++ content.drop spn.end_)

/-- The loop `for _, change := range changes` of `applyIncrementalChanges`. -/
def applyChanges (env : Env) (uri : URI) : Bytes → List TextDocumentContentChangeEvent → Outcome Bytes
  | content, [] => .ok content
  | content, change :: rest =>
    match applyChange env uri content change with
    | .ok content' => applyChanges env uri content' rest
    | .err e => .err e
    | .panic p => .panic p

/-- The method `Server.applyIncrementalChanges`. -/
def applyIncrementalChanges (env : Env) (uri : URI)
    (changes : List TextDocumentContentChangeEvent) (w : World) : Outcome Bytes × World :=
  let w := w.emit (.getFile uri)
  match env.getFile w.server.session uri with
  | .error e => (.err e, w)
  | .ok fh =>
    let w := w.emit (.read uri)
    match fh.read with
    | .error e => (.err (.internalCause "file not found" e), w)
    | .ok content => (applyChanges env uri content changes, w)

/-- The method `Server.changedText`. -/
def changedText (env : Env) (uri : URI)
    (changes : List TextDocumentContentChangeEvent) (w : World) : Outcome Bytes × World :=
  match changes with
  | [] => (.err (.internal "no content changes provided"), w)
  | [c] =>
    if c.range = none ∧ c.rangeLength = 0 then (.ok c.text, w)
    else applyIncrementalChanges env uri changes w
  | _ :: _ :: _ => applyIncrementalChanges env uri changes w

/-- Modelled from the spec: the method `bytes.Buffer.Bytes` of the Go library on
a new buffer to which the bytes `content` were written, `none` for the nil
slice: a buffer to which no byte was written holds no slice. -/
def bufferBytes (content : Bytes) : Option Bytes :=
  if content = [] then none else some content

/-- The slice that `changedText` returns with the bytes `text`, `none` for the
nil slice. The whole-document branch returns `[]byte(changes[0].Text)`, which
is never nil; `applyIncrementalChanges` returns the `buf.Bytes()` of the last
run of its loop, which is nil when the edits leave no byte. -/
def changedTextSlice (changes : List TextDocumentContentChangeEvent) (text : Bytes) :
    Option Bytes :=
  match changes with
  | [c] => if c.range = none ∧ c.rangeLength = 0 then some text else bufferBytes text
  | _ => bufferBytes text

/-! ## The modification pipeline -/

/-- The method `Server.processModifications`. -/
def processModifications (env : Env) (modifications : List FileModification) (onDisk : Bool)
    (diagnoseDone : Chan) (w : World) : Outcome Unit × World :=
  let w := w.emit (.processModifications modifications onDisk diagnoseDone)
  let w := w.emit (.lock .stateMu)
  if env.serverShutDown ≤ w.server.state then
    let w := w.emit (.unlock .stateMu)
    match closeChan diagnoseDone w with
    | (.ok (), w) => (.err (.new "server is shut down"), w)
    | (.err e, w) => (.err e, w)
    | (.panic p, w) => (.panic p, w)
  else
    let w := w.emit (.unlock .stateMu)
    let w := w.emit (.expandModificationsToDirectories modifications)
    let modifications := env.expandModificationsToDirectories w.server.session modifications
    let w := w.emit (.sessionDidModifyFiles modifications)
    match env.sessionDidModifyFiles w.server.session modifications with
    | .error e =>
      match closeChan diagnoseDone w with
      | (.ok (), w) => (.err e, w)
      | (.err e', w) => (.err e', w)
      | (.panic p, w) => (.panic p, w)
    | .ok (snapshots, session) =>
      let w := { w with server := { w.server with session := session } }
      -- go func() { s.diagnoseSnapshots(snapshots, onDisk); release(); close(diagnoseDone) }()
      let w := w.spawn [.diagnoseSnapshots snapshots onDisk, .release snapshots, .close diagnoseDone]
      let w := w.emit .updateWatchedDirectories
      match env.updateWatchedDirectories w.server.session with
      | some e => (.err e, w)
      | none => (.ok (), w)

/-- The call `s.watchedFileDebouncer.debounce("", 0, time.After(delay))`: the
name of the channel on which the debouncer will answer. -/
def debounce (delay : Int) (w : World) : Nat × World :=
  (w.okcs, { w with okcs := w.okcs + 1, log := w.log ++ [Event.debounce delay w.okcs] })

/-- The method `Server.didModifyFiles`. The deferred calls run at the end, the
last one registered first. -/
def didModifyFiles (env : Env) (modifications : List FileModification)
    (cause : ModificationSource) (w : World) : Outcome Unit × World :=
  let w := w.emit (.didModifyFiles modifications cause)
  let (diagnoseDone, w) := makeChan w
  let verbose := w.server.session.options.verboseWorkDoneProgress
  let w := if verbose then
      w.emit (.progressStart (DiagnosticWorkTitle cause) "Calculating file diagnostics...")
    else w
  let onDisk := decide (cause = .FromDidChangeWatchedFiles)
  let delay := w.server.session.options.experimentalWatchedFileDelay
  let w := w.emit (.lock .fileChangeMu)
  let (r, w) :=
    if !onDisk || delay == 0 then
      -- No delay: process the modifications immediately.
      processModifications env modifications onDisk diagnoseDone w
    else
      let pending : PendingModificationSet := { diagnoseDone := diagnoseDone, changes := modifications }
      let w := { w with server := { w.server with
        pendingOnDiskChanges := w.server.pendingOnDiskChanges ++ [pending] } }
      let (okc, w) := debounce delay w
      let w := w.spawn [.flush okc onDisk]
      (.ok (), w)
  let w := w.emit (.unlock .fileChangeMu)
  let w := if verbose then
      w.spawn [.recv diagnoseDone, .workEnd (DiagnosticWorkTitle cause) "Done."]
    else w
  (r, w)

/-- The loop of the debounced function over `s.pendingOnDiskChanges`, giving
`allChanges` and `dones`. -/
def collectPending (pendings : List PendingModificationSet) : List FileModification × List Chan :=
  pendings.foldl (fun acc pending => (acc.1 ++ pending.changes, acc.2 ++ [pending.diagnoseDone])) ([], [])

/-- The debounced function of `didModifyFiles` from `s.fileChangeMu.Lock()` to
`s.fileChangeMu.Unlock()`, run once the debouncer answered `true`. It yields
`allDone` and `dones`, which the rest of the function uses. -/
def flushPending (env : Env) (onDisk : Bool) (w : World) : Outcome (Chan × List Chan) × World :=
  let w := w.emit (.lock .fileChangeMu)
  let (allChanges, dones) := collectPending w.server.pendingOnDiskChanges
  let (allDone, w) := makeChan w
  match processModifications env allChanges onDisk allDone w with
  | (.panic p, w) => (.panic p, w)
  | (r, w) =>
    let w := match r with
      | .err e => w.emit (.eventError "processing delayed file changes" e)
      | _ => w
    let w := { w with server := { w.server with pendingOnDiskChanges := [] } }
    let w := w.emit (.unlock .fileChangeMu)
    (.ok (allDone, dones), w)

/-- The method `Server.warnAboutModifyingGeneratedFiles`. -/
def warnAboutModifyingGeneratedFiles (env : Env) (uri : URI) (w : World) : Outcome Unit × World :=
  let w := w.emit (.lock .changedFilesMu)
  let ok := decide (uri ∈ w.server.changedFiles)
  let w := if !ok then
      { w with server := { w.server with changedFiles := w.server.changedFiles ++ [uri] } }
    else w
  let w := w.emit (.unlock .changedFilesMu)
  -- This file has already been edited before.
  if ok then (.ok (), w)
  else
    let w := w.emit (.viewOf uri)
    match env.viewOf w.server.session uri with
    | .error e => (.err e, w)
    | .ok view =>
      let snapshot := view.snapshot
      let isGenerated := env.isGenerated snapshot uri
      let w := w.emit (.release [snapshot])
      if !isGenerated then (.ok (), w)
      else
        let msg := "Do not edit this file! " ++ env.filename uri ++ " is a generated file."
        let w := w.emit (.showMessage msg)
        match env.showMessage msg with
        | some e => (.err e, w)
        | none => (.ok (), w)

/-- The method `Server.didChange` from the point where the slice `text` is
known (`none` for the nil slice). -/
def didChangeSubmit (env : Env) (uri : URI) (version : Int) (text : Option Bytes) (w : World) :
    Outcome Unit × World :=
  let c : FileModification :=
    { uri := uri, action := .Change, onDisk := false, version := version,
      text := text, languageID := "" }
  match didModifyFiles env [c] .FromDidChange w with
  | (.err e, w) => (.err e, w)
  | (.panic p, w) => (.panic p, w)
  | (.ok (), w) => warnAboutModifyingGeneratedFiles env uri w

/-- The method `Server.didChange`. -/
def didChange (env : Env) (uri : URI) (version : Int)
    (contentChanges : List TextDocumentContentChangeEvent) (w : World) : Outcome Unit × World :=
  if !env.isFile uri then (.ok (), w)
  else
    match changedText env uri contentChanges w with
    | (.err e, w) => (.err e, w)
    | (.panic p, w) => (.panic p, w)
    | (.ok text, w) => didChangeSubmit env uri version (changedTextSlice contentChanges text) w

/-! ## The other notification handlers -/

/-- The method `Server.didOpen`, for the URI, version, text and language id of
`params.TextDocument`. -/
def didOpen (env : Env) (uri : URI) (version : Int) (text : Bytes) (languageID : String)
    (w : World) : Outcome Unit × World :=
  if !env.isFile uri then (.ok (), w)
  else
    let m : FileModification :=
      { uri := uri, action := .Open, onDisk := false, version := version,
        text := some text, languageID := languageID }
    -- There may not be any matching view in the current session. If that's
    -- the case, try creating a new view based on the opened file path.
    let w := w.emit (.viewOf uri)
    match env.viewOf w.server.session uri with
    | .error _ =>
      let dir := env.dir (env.filename uri)
      let folders : List WorkspaceFolder := [{ uri := env.uriFromPath dir, name := env.base dir }]
      let w := w.emit (.addFolders folders)
      match env.addFolders w.server.session folders with
      | .error e => (.err e, w)
      | .ok session =>
        let w := { w with server := { w.server with session := session } }
        didModifyFiles env [m] .FromDidOpen w
    | .ok _ => didModifyFiles env [m] .FromDidOpen w

/-- The method `Server.didSave`; `text` is `params.Text`, a pointer in Go. -/
def didSave (env : Env) (uri : URI) (text : Option Bytes) (w : World) : Outcome Unit × World :=
  if !env.isFile uri then (.ok (), w)
  else
    let c : FileModification :=
      { uri := uri, action := .Save, onDisk := false, version := 0, text := none,
        languageID := "" }
    let c := match text with
      | some t => { c with text := some t }
      | none => c
    didModifyFiles env [c] .FromDidSave w

/-- The method `Server.didClose`. -/
def didClose (env : Env) (uri : URI) (w : World) : Outcome Unit × World :=
  if !env.isFile uri then (.ok (), w)
  else
    didModifyFiles env
      [{ uri := uri, action := .Close, onDisk := false, version := -1, text := none,
         languageID := "" }] .FromDidClose w

/-- The type `protocol.FileChangeType`, a number. -/
abbrev FileChangeType := Nat

/-- Modelled from the spec: the constant `protocol.Created` (change type
Created of §6; its value in the protocol is 1). -/
def FileChangeType.Created : FileChangeType := 1

/-- Modelled from the spec: the constant `protocol.Changed` (change type
Changed of §6; its value in the protocol is 2). -/
def FileChangeType.Changed : FileChangeType := 2

/-- Modelled from the spec: the constant `protocol.Deleted` (change type
Deleted of §6; its value in the protocol is 3). -/
def FileChangeType.Deleted : FileChangeType := 3

/-- The type `protocol.FileEvent`. -/
structure FileEvent where
  uri : URI
  type : FileChangeType
  deriving DecidableEq, Repr

/-- The function `changeTypeToFileAction`. -/
def changeTypeToFileAction (ct : FileChangeType) : FileAction :=
  if ct = FileChangeType.Changed then .Change
  else if ct = FileChangeType.Created then .Create
  else if ct = FileChangeType.Deleted then .Delete
  else .UnknownFileAction

/-- The loop of `didChangeWatchedFiles` over `params.Changes`, from the
modifications gathered so far. -/
def watchedModifications (env : Env) (modifications : List FileModification)
    (changes : List FileEvent) : List FileModification :=
  changes.foldl (fun modifications change =>
    if !env.isFile change.uri then modifications
    else
      let action := changeTypeToFileAction change.type
      modifications ++ [{ uri := change.uri, action := action, onDisk := true, version := 0,
                          text := none, languageID := "" }]) modifications

/-- The method `Server.didChangeWatchedFiles`. -/
def didChangeWatchedFiles (env : Env) (changes : List FileEvent) (w : World) :
    Outcome Unit × World :=
  let modifications := watchedModifications env [] changes
  didModifyFiles env modifications .FromDidChangeWatchedFiles w

/-! ## Goroutines -/

/-- Run statement `ins` of a goroutine whose later statements are `rest`;
`none` when the statement blocks. `answer` is what the debouncer sends on
`okc` when the statement is the debounced function. -/
def runInstr (env : Env) (ins : Instr) (answer : Bool) (rest : Goroutine) (w : World) :
    Option (Goroutine × World) :=
  match ins with
  | .recv c => if w.isClosed c then some (rest, w) else none
  | .close c =>
    match closeChan c w with
    | (.ok (), w) => some (rest, w)
    | (.err _, w) => some (rest, w)
    | (.panic p, w) => some ([], { w with panicked := some p })
  | .workEnd title msg => some (rest, w.emit (.progressEnd title msg))
  | .diagnoseSnapshots snapshots onDisk => some (rest, w.emit (.diagnoseSnapshots snapshots onDisk))
  | .release snapshots => some (rest, w.emit (.release snapshots))
  | .flush okc onDisk =>
    let w := w.emit (.okAnswer okc answer)
    if !answer then some ([], w)
    else
      match flushPending env onDisk w with
      | (.ok (allDone, dones), w) =>
        -- <-allDone; for _, done := range dones { close(done) }
        some (Instr.recv allDone :: dones.map Instr.close ++ rest, w)
      | (.err _, w) => some ([], w)
      | (.panic p, w) => some ([], { w with panicked := some p })

/-- One step of goroutine number `i`, if it can run. Nothing runs after a panic. -/
def stepGoroutine (env : Env) (i : Nat) (answer : Bool) (w : World) : Option World :=
  if w.panicked.isSome then none
  else
    match w.goroutines[i]? with
    | some (ins :: rest) =>
      match runInstr env ins answer rest w with
      | some (g, w') => some { w' with goroutines := w'.goroutines.set i g }
      | none => none
    | _ => none

/-- A step of the whole system: a goroutine runs one statement, a notification
handler calls `didModifyFiles`, or code outside this file changes the server
state, the session or the set of edited files. -/
inductive Step (env : Env) : World → World → Prop where
  | goroutine (i : Nat) (answer : Bool) (w w' : World) :
      stepGoroutine env i answer w = some w' → Step env w w'
  | submit (modifications : List FileModification) (cause : ModificationSource) (w : World) :
      w.panicked = none →
      Step env w
        (match didModifyFiles env modifications cause w with
          | (.panic p, w') => { w' with panicked := some p }
          | (_, w') => w')
  | outside (w : World) (state : Nat) (session : Session) (changedFiles : List URI) :
      Step env w { w with server := { w.server with
        state := state, session := session, changedFiles := changedFiles } }

/-- Zero or more steps. -/
inductive Reachable (env : Env) : World → World → Prop where
  | refl (w : World) : Reachable env w w
  | tail (w w' w'' : World) : Reachable env w w' → Step env w' w'' → Reachable env w w''

/-- The world of a server that has started nothing yet. -/
def World.init (server : Server) : World :=
  { server := { server with pendingOnDiskChanges := [] }, chans := [], okcs := 0,
    goroutines := [], panicked := none, log := [] }

/-! ## Specification-side definitions -/

/-- The byte offsets to which the range of edit `e` resolves against `content`,
through a column mapper built over `content`. -/
def resolveOffsets (env : Env) (uri : URI) (content : Bytes)
    (e : TextDocumentContentChangeEvent) : Option (Nat × Nat) :=
  match e.range with
  | none => none
  | some r =>
    match env.rangeSpan uri content r with
    | .ok spn => if spn.hasOffset then some (spn.start, spn.end_) else none
    | .error _ => none

/-- One step of the fold of §4.5, in the spec's words: edit `e` replaces the
bytes between its start and end offsets, resolved against the content produced
by the preceding edits; `none` when the range does not resolve to offsets
`start ≤ end` inside that content. -/
def spliceEdit (env : Env) (uri : URI) (acc : Option Bytes)
    (e : TextDocumentContentChangeEvent) : Option Bytes :=
  match acc with
  | none => none
  | some content =>
    match resolveOffsets env uri content e with
    | none => none
    | some (start, end_) =>
      if start ≤ end_ ∧ end_ ≤ content.length then
        some (content.take start ++ e.text ++ content.drop end_)
      else none

/-- The left fold `C_0 = C`, `C_i = C_{i-1}[:start_i] ++ text_i ++ C_{i-1}[end_i:]` of §4.5. -/
def leftFoldEdits (env : Env) (uri : URI) (content : Bytes)
    (edits : List TextDocumentContentChangeEvent) : Option Bytes :=
  edits.foldl (spliceEdit env uri) (some content)

/-- Whether an event is an entry of `processModifications`. -/
def Event.isProcessModifications : Event → Bool
  | .processModifications _ _ _ => true
  | _ => false

/-- Whether an event applies modifications: an entry of `processModifications`,
or a call of `Session.ExpandModificationsToDirectories` or
`Session.DidModifyFiles`. -/
def Event.isApplication : Event → Bool
  | .processModifications _ _ _ => true
  | .expandModificationsToDirectories _ => true
  | .sessionDidModifyFiles _ => true
  | _ => false

/-- Whether an event is a call into the pipeline or the session: an entry of
`didModifyFiles`, or an event that applies modifications. -/
def Event.isSubmission : Event → Bool
  | .didModifyFiles _ _ => true
  | ev => ev.isApplication

/-- The on-disk batches `batches` submitted one after the other, each by a call
of `didModifyFiles` with source `FromDidChangeWatchedFiles`. -/
def submitAll (env : Env) (batches : List (List FileModification)) (w : World) : World :=
  batches.foldl (fun w batch => (didModifyFiles env batch .FromDidChangeWatchedFiles w).2) w

/-- The whole-document replacement change carrying `text`: no range, no range length. -/
def fullReplacement (text : Bytes) : TextDocumentContentChangeEvent :=
  { range := none, rangeLength := 0, text := text }

/-- The offsets a column mapper built over a content returns lie inside that content. -/
def Env.offsetsInContent (env : Env) : Prop :=
  ∀ (uri : URI) (content : Bytes) (r : Range) (spn : Span),
    env.rangeSpan uri content r = .ok spn → spn.hasOffset = true →
      spn.start ≤ content.length ∧ spn.end_ ≤ content.length

/-- The channels statement `ins` closes. -/
def Instr.closes : Instr → List Chan
  | .close c => [c]
  | _ => []

/-- The channels a goroutine has still to close, in order. -/
def Goroutine.closes (g : Goroutine) : List Chan :=
  g.flatMap Instr.closes

/-- Every channel some code has still to close: those in the `close` statements
of the goroutines, and the completion signals of the pending on-disk batches,
which the debounced function will close. -/
def World.closers (w : World) : List Chan :=
  w.goroutines.flatMap Goroutine.closes
    ++ w.server.pendingOnDiskChanges.map (fun p => p.diagnoseDone)

/-- A world in which nothing panicked and every channel that is still to be
closed is open and has exactly one closer. Every world reached from a start
world is of this kind (`wellFormed_reachable`). -/
def WellFormed (w : World) : Prop :=
  w.panicked = none ∧ w.closers.Nodup ∧ ∀ c ∈ w.closers, w.chans[c]? = some false

instance (w : World) : Decidable (WellFormed w) := by
  unfold WellFormed
  infer_instance

/-- The body of the goroutine started by `processModifications`, for the
snapshots it diagnoses and the completion signal it closes. -/
def diagnoseGoroutine (snapshots : List Snapshot) (onDisk : Bool) (done : Chan) : Goroutine :=
  [.diagnoseSnapshots snapshots onDisk, .release snapshots, .close done]

/-- What a step does to the channels, the goroutines and the pending batches,
with everything else left out: goroutine `k` runs a statement that closes
nothing (`pop`), closes an open channel (`close`), gives up the debounced
function on the answer `false` (`drop`) or runs it (`flush`); a handler
submits a batch (`submit`); or nothing of these changes (`outside`). -/
inductive Effect : World → World → Prop where
  | pop (w w' : World) (k : Nat) (ins : Instr) (rest : Goroutine) :
      w.goroutines[k]? = some (ins :: rest) → Instr.closes ins = [] →
      (∀ okc onDisk, ins ≠ .flush okc onDisk) →
      (∀ c, ins = .recv c → w.isClosed c = true) →
      w'.goroutines = w.goroutines.set k rest → w'.chans = w.chans →
      w'.server.pendingOnDiskChanges = w.server.pendingOnDiskChanges →
      w'.panicked = w.panicked → Effect w w'
  | close (w w' : World) (k : Nat) (c : Chan) (rest : Goroutine) :
      w.goroutines[k]? = some (.close c :: rest) → w.chans[c]? = some false →
      w'.goroutines = w.goroutines.set k rest → w'.chans = w.chans.set c true →
      w'.server.pendingOnDiskChanges = w.server.pendingOnDiskChanges →
      w'.panicked = w.panicked → Effect w w'
  | drop (w w' : World) (k : Nat) (okc : Nat) (onDisk : Bool) (rest : Goroutine) :
      w.goroutines[k]? = some (.flush okc onDisk :: rest) →
      w'.goroutines = w.goroutines.set k [] → w'.chans = w.chans →
      w'.server.pendingOnDiskChanges = w.server.pendingOnDiskChanges →
      w'.panicked = w.panicked → Effect w w'
  | flush (w w' : World) (k : Nat) (okc : Nat) (onDisk : Bool) (rest : Goroutine) (b : Bool)
      (G : List Goroutine) :
      w.goroutines[k]? = some (.flush okc onDisk :: rest) →
      w'.chans = w.chans ++ [b] →
      w'.goroutines = (w.goroutines ++ G).set k
        (Instr.recv w.chans.length ::
          (w.server.pendingOnDiskChanges.map (fun p => p.diagnoseDone)).map Instr.close ++ rest) →
      ((b = true ∧ G = []) ∨
        (b = false ∧ ∃ snapshots, G = [diagnoseGoroutine snapshots onDisk w.chans.length])) →
      w'.server.pendingOnDiskChanges = [] →
      w'.panicked = w.panicked → Effect w w'
  | submit (w w' : World) (b : Bool) (G : List Goroutine) (P : List PendingModificationSet) :
      w'.chans = w.chans ++ [b] → w'.goroutines = w.goroutines ++ G →
      w'.server.pendingOnDiskChanges = w.server.pendingOnDiskChanges ++ P →
      G.flatMap Goroutine.closes ++ P.map (fun p => p.diagnoseDone)
        = (if b then [] else [w.chans.length]) →
      w'.panicked = w.panicked → Effect w w'
  | outside (w w' : World) :
      w'.goroutines = w.goroutines → w'.chans = w.chans →
      w'.server.pendingOnDiskChanges = w.server.pendingOnDiskChanges →
      w'.panicked = w.panicked → Effect w w'

/-- Where goroutine `i`, which ran the debounced function and made `allDone`
for the batches with signals `dones`, stands: either it still waits on
`allDone` with every `close(done)` ahead of it, or `allDone` is closed and it
has closed the first `n` signals and has the others ahead of it (or has
closed them all). -/
def FlushPhase (allDone : Chan) (dones : List Chan) (i : Nat) (rest : Goroutine) (w : World) :
    Prop :=
  w.goroutines[i]? = some (Instr.recv allDone :: (dones.map Instr.close ++ rest)) ∨
  (w.isClosed allDone = true ∧ ∃ n : Nat,
    (∀ (m : Nat) (d : Chan), m < n → dones[m]? = some d → w.isClosed d = true) ∧
    (w.goroutines[i]? = some ((dones.drop n).map Instr.close ++ rest) ∨ dones.length ≤ n))

/-- Where goroutine `j`, started by `processModifications` to diagnose and then
close `allDone`, stands: it has run its first `n` statements, and `allDone` is
closed once it has run all three. -/
def DiagPhase (allDone : Chan) (j : Nat) (snapshots : List Snapshot) (onDisk : Bool)
    (w : World) : Prop :=
  ∃ n : Nat, w.goroutines[j]? = some ((diagnoseGoroutine snapshots onDisk allDone).drop n) ∧
    (3 ≤ n → w.isClosed allDone = true)

/-- Statement `ins` with the progress title left out. -/
def Instr.withoutLabel : Instr → Instr
  | .workEnd _ msg => .workEnd "" msg
  | ins => ins

/-- Event `ev` with the progress title left out, and with the source left out
of the record of an entry of `didModifyFiles`. -/
def Event.withoutLabel : Event → Event
  | .progressStart _ msg => .progressStart "" msg
  | .progressEnd _ msg => .progressEnd "" msg
  | .didModifyFiles modifications _ => .didModifyFiles modifications .FromDidOpen
  | .go g => .go (g.map Instr.withoutLabel)
  | ev => ev

/-- World `w` with the progress titles left out of its goroutines and its log:
what is left is everything the server did apart from labelling. -/
def World.withoutLabel (w : World) : World :=
  { w with
    goroutines := w.goroutines.map (fun g => g.map Instr.withoutLabel)
    log := w.log.map Event.withoutLabel }

/-! ## A concrete server for the examples -/

/-- The bytes of `"abc\ndef\n"`. -/
def abcdef : Bytes := [97, 98, 99, 10, 100, 101, 102, 10]

/-- The bytes of `"xyz\ndef\n"`. -/
def xyzdef : Bytes := [120, 121, 122, 10, 100, 101, 102, 10]

/-- An environment in which every file reads `"abc\ndef\n"`, positions are
mapped by `columnMapperRangeSpan`, the session accepts every batch and keeps
its views, and the server counts as shut down from state 3 on. -/
def exampleEnv : Env where
  serverShutDown := 3
  getFile := fun _ _ => .ok { read := .ok abcdef }
  rangeSpan := columnMapperRangeSpan
  expandModificationsToDirectories := fun _ ms => ms
  sessionDidModifyFiles := fun session _ => .ok (session.views.map (fun v => v.snapshot), session)
  updateWatchedDirectories := fun _ => none
  isFile := fun uri => decide (uri.data.take 7 = "file://".data)
  filename := fun uri => String.mk (uri.data.drop 7)
  viewOf := fun session _ =>
    match session.views with
    | v :: _ => .ok v
    | [] => .error (.ext "no views in session")
  isGenerated := fun _ _ => false
  showMessage := fun _ => none
  dir := fun path => String.mk (path.data.reverse.dropWhile (fun c => c != '/')).reverse
  base := fun path => String.mk (path.data.reverse.takeWhile (fun c => c != '/')).reverse
  uriFromPath := fun path => "file://" ++ path
  addFolders := fun session folders =>
    .ok { session with views := session.views ++ folders.map (fun f =>
      { root := f.uri, snapshot := { view := f.uri, generation := 1, files := [] } }) }

/-- A running server (state 2) with one view, no debounce delay. -/
def exampleServer : Server where
  state := 2
  session :=
    { views := [{ root := "/w", snapshot := { view := "/w", generation := 1, files := [] } }],
      options := { verboseWorkDoneProgress := false, experimentalWatchedFileDelay := 0 } }
  pendingOnDiskChanges := []
  changedFiles := []

/-- The world of `exampleServer` at start. -/
def exampleWorld : World := World.init exampleServer

/-- The edit replacing line 0, characters 0..3 by `"xyz"`. -/
def editAbc : TextDocumentContentChangeEvent :=
  { range := some { start := { line := 0, character := 0 }, end_ := { line := 0, character := 3 } },
    rangeLength := 0, text := [120, 121, 122] }

/-- An edit with an inverted range: from line 0, character 3 back to character 1. -/
def editInverted : TextDocumentContentChangeEvent :=
  { range := some { start := { line := 0, character := 3 }, end_ := { line := 0, character := 1 } },
    rangeLength := 0, text := [113] }

/-- The example server with a watched-file delay of 100ms (in nanoseconds). -/
def debounceWorld : World :=
  World.init { exampleServer with
    session := { exampleServer.session with
      options := { verboseWorkDoneProgress := false, experimentalWatchedFileDelay := 100000000 } } }

/-- An on-disk modification of `uri` with the given action. -/
def onDiskModification (uri : URI) (action : FileAction) : FileModification :=
  { uri := uri, action := action, onDisk := true, version := 0, text := none, languageID := "" }

/-- A first on-disk batch: `a.go` created, `b.go` changed. -/
def batchA : List FileModification :=
  [onDiskModification "file:///a.go" .Create, onDiskModification "file:///b.go" .Change]

/-- A second on-disk batch: `a.go` deleted. -/
def batchB : List FileModification :=
  [onDiskModification "file:///a.go" .Delete]

/-- The example server after shutdown (state 3), with one open channel made by a caller. -/
def shutDownWorld : World :=
  { World.init { exampleServer with state := 3 } with chans := [false], log := [Event.make 0] }

/-- The world after the two on-disk batches `batchA` and `batchB` were
submitted to the server with a delay of 100ms: both are pending, and two
goroutines wait for the debouncer's answer. -/
def pendingWorld : World :=
  submitAll exampleEnv [batchA, batchB] debounceWorld

/-- The world after the debouncer answered `true` to the second goroutine of
`pendingWorld` and that goroutine ran the debounced function. -/
def flushedWorld : World :=
  match stepGoroutine exampleEnv 1 true pendingWorld with
  | some w => w
  | none => pendingWorld

/-- The example server after shutdown (state 3) with a watched-file delay of 100ms. -/
def shutDownDebounceWorld : World :=
  World.init { exampleServer with
    state := 3
    session := { exampleServer.session with
      options := { verboseWorkDoneProgress := false, experimentalWatchedFileDelay := 100000000 } } }

/-- The modification that `didChangeWatchedFiles` builds for one change. -/
def watchedModification (change : FileEvent) : FileModification :=
  { uri := change.uri, action := changeTypeToFileAction change.type, onDisk := true,
    version := 0, text := none, languageID := "" }

/-- A `didChangeWatchedFiles` notification with a file created and a change to
a document that is not a file. -/
def mixedChanges : List FileEvent :=
  [{ uri := "file:///a.go", type := FileChangeType.Created },
   { uri := "untitled:b", type := FileChangeType.Changed }]

/-- Whether an event is an entry of `didModifyFiles`. -/
def Event.isDidModifyFiles : Event → Bool
  | .didModifyFiles _ _ => true
  | _ => false

/-- The entries of `didModifyFiles` logged between world `w` and a later world
`w'`: the lists of modifications submitted in between, with their sources. -/
def entriesSince (w w' : World) : List Event :=
  (w'.log.drop w.log.length).filter Event.isDidModifyFiles

/-- The workspace folder that `didOpen` adds for a file outside every view: the
directory of the file. -/
def folderOf (env : Env) (uri : URI) : WorkspaceFolder :=
  { uri := env.uriFromPath (env.dir (env.filename uri)),
    name := env.base (env.dir (env.filename uri)) }

/-- The calls of `warnAboutModifyingGeneratedFiles` for the URIs `uris`, one
after the other. -/
def warnAll (env : Env) (uris : List URI) (w : World) : World :=
  uris.foldl (fun w uri => (warnAboutModifyingGeneratedFiles env uri w).2) w

/-- Whether an event is a call of `ShowMessage`. -/
def Event.isShowMessage : Event → Bool
  | .showMessage _ => true
  | _ => false

/-- An environment like `exampleEnv` in which every file is generated. -/
def generatedEnv : Env :=
  { exampleEnv with isGenerated := fun _ _ => true }

/-- What the log records of the closes between two worlds: the log grew, and for
every channel the number of new `close` events is what takes its closed flag
from the earlier world to the later one. -/
def LoggedCloses (w w' : World) : Prop :=
  ∃ evs : List Event, w'.log = w.log ++ evs ∧
    ∀ c : Chan, evs.count (Event.close c) + (if w.chans[c]? = some true then 1 else 0)
      = (if w'.chans[c]? = some true then 1 else 0)

/-- The events of the three statements of the diagnosis goroutine, in order. -/
def diagnoseEvents (snapshots : List Snapshot) (onDisk : Bool) (done : Chan) : List Event :=
  [.diagnoseSnapshots snapshots onDisk, .release snapshots, .close done]

/-- Where goroutine `j`, started by `processModifications` when the log was
`base`, stands, with what the log holds of it: it has run its first `n`
statements, each once and in order; their events are in the log since `base`,
in that order; the log since `base` holds a `close` of `done` exactly when all
three have run; and `done` is closed exactly then. -/
def DiagTrace (done : Chan) (j : Nat) (snapshots : List Snapshot) (onDisk : Bool)
    (base : List Event) (w : World) : Prop :=
  ∃ (n : Nat) (evs : List Event),
    w.goroutines[j]? = some ((diagnoseGoroutine snapshots onDisk done).drop n) ∧
    w.log = base ++ evs ∧
    ((diagnoseEvents snapshots onDisk done).take n).Sublist evs ∧
    evs.count (Event.close done) = (if 3 ≤ n then 1 else 0) ∧
    (w.isClosed done = true ↔ 3 ≤ n)

/-- The example world in which the completion signal `0` has been made and is open. -/
def signalWorld : World :=
  { exampleWorld with chans := [false], log := [Event.make 0] }

/-- An environment like `exampleEnv` in which `Session.DidModifyFiles` fails. -/
def failingEnv : Env :=
  { exampleEnv with sessionDidModifyFiles := fun _ _ => .error (.ext "no such file") }

/-! ## The test runner and its separate-process backend -/

/-- The fields of `Runner` that `getRemoteSocket` reads and writes. -/
structure Runner where
  GoplsPath : String
  TempDir : String
  socketDir : String
  deriving DecidableEq, Repr

/-- What `getRemoteSocket` and `separateProcessServer` call outside the
repository. -/
structure RunnerEnv where
  /-- The call `ioutil.TempDir(dir, pattern)`, given the directories made so far:
  the name of the new directory, or an error. -/
  tempDir : List String → String → String → Except GoError String
  /-- The function `filepath.Join` on two elements. -/
  join : String → String → String
  /-- The value of `os.Environ()`. -/
  environ : List String
  /-- The error of `lsprpc.NewForwarder(address, nil)`, if any. -/
  newForwarder : String → Option GoError

/-- The command built by `exec.Command(name, args...)`, with its `Env` field. -/
structure Cmd where
  name : String
  args : List String
  env : List String
  deriving DecidableEq, Repr

/-- What `getRemoteSocket` and `separateProcessServer` do that is visible
outside the `Runner`, in the order it happens. -/
inductive RunnerEvent where
  /-- The call `r.mu.Lock()`. -/
  | lock
  /-- The deferred call `r.mu.Unlock()`. -/
  | unlock
  /-- The call `ioutil.TempDir(dir, pattern)`. -/
  | tempDir (dir pattern : String)
  /-- The statement `go func() { cmd.Run() ... }()`, which starts the process of `cmd`. -/
  | goRun (cmd : Cmd)
  /-- The call `t.Fatal` or `t.Fatalf` with its format and error argument. -/
  | fatal (msg : String) (err : Option GoError)
  /-- The call `lsprpc.NewForwarder(address, nil)`. -/
  | newForwarder (address : String)
  deriving DecidableEq, Repr

/-- The `Runner` with the directories made so far and the log of events. -/
structure RunnerWorld where
  runner : Runner
  dirs : List String
  log : List RunnerEvent
  deriving DecidableEq, Repr

/-- Append an event to the log of the runner. -/
def RunnerWorld.emit (w : RunnerWorld) (e : RunnerEvent) : RunnerWorld :=
  { w with log := w.log ++ [e] }

/-- What a call made by a test yields: its result, the end of the test by
`t.Fatal`, or a run-time panic. -/
inductive TestOutcome (α : Type) where
  | ok (a : α)
  | fatal
  | panic (why : String)
  deriving DecidableEq, Repr

/-- The constant `runTestAsGoplsEnvvar`. -/
def runTestAsGoplsEnvvar : String := "_GOPLS_TEST_BINARY_RUN_AS_GOPLS"

/-- The constant `daemonFile` of `getRemoteSocket`. -/
def daemonFile : String := "gopls-test-daemon"

/-- The method `Runner.getRemoteSocket`. The deferred `r.mu.Unlock()` runs at
the end, also when `t.Fatal` ends the test. On an error `ioutil.TempDir`
returns the empty name, which the assignment stores in `r.socketDir`. -/
def getRemoteSocket (os : RunnerEnv) (w : RunnerWorld) : TestOutcome String × RunnerWorld :=
  let w := w.emit .lock
  if w.runner.socketDir ≠ "" then
    (.ok (os.join w.runner.socketDir daemonFile), w.emit .unlock)
  else if w.runner.GoplsPath = "" then
    let w := w.emit (.fatal
      "cannot run tests with a separate process unless a path to a gopls binary is configured"
      none)
    (.fatal, w.emit .unlock)
  else
    let w := w.emit (.tempDir w.runner.TempDir "gopls-regtest-socket")
    match os.tempDir w.dirs w.runner.TempDir "gopls-regtest-socket" with
    | .error e =>
      let w := { w with runner := { w.runner with socketDir := "" } }
      let w := w.emit (.fatal "creating tempdir: %v" (some e))
      (.fatal, w.emit .unlock)
    | .ok dir =>
      let w := { w with runner := { w.runner with socketDir := dir }, dirs := w.dirs ++ [dir] }
      let socket := os.join w.runner.socketDir daemonFile
      let args := ["serve", "-listen", "unix;" ++ socket, "-listen.timeout", "10s"]
      let cmd : Cmd :=
        { name := w.runner.GoplsPath, args := args,
          env := os.environ ++ [runTestAsGoplsEnvvar ++ "=true"] }
      let w := w.emit (.goRun cmd)
      (.ok socket, w.emit .unlock)

/-- The function `newForwarder`: the address handed to `lsprpc.NewForwarder`,
which stands for the forwarder made. -/
def newForwarder (os : RunnerEnv) (network address : String) (w : RunnerWorld) :
    TestOutcome String × RunnerWorld :=
  let w := w.emit (.newForwarder (network ++ ";" ++ address))
  match os.newForwarder (network ++ ";" ++ address) with
  | some _ => (.panic "internal error: unable to create forwarder: %v", w)
  | none => (.ok (network ++ ";" ++ address), w)

/-- The method `Runner.separateProcessServer`. -/
def separateProcessServer (os : RunnerEnv) (w : RunnerWorld) : TestOutcome String × RunnerWorld :=
  match getRemoteSocket os w with
  | (.ok socket, w) => newForwarder os "unix" socket w
  | (.fatal, w) => (.fatal, w)
  | (.panic p, w) => (.panic p, w)

/-- Whether an event starts a process. -/
def RunnerEvent.isGoRun : RunnerEvent → Bool
  | .goRun _ => true
  | _ => false

/-- The number of processes a log has started. -/
def spawned (log : List RunnerEvent) : Nat :=
  (log.filter RunnerEvent.isGoRun).length

/-- The world after `n` calls of `getRemoteSocket`, one after the other. -/
def remoteSocketCalls (os : RunnerEnv) : Nat → RunnerWorld → RunnerWorld
  | 0, w => w
  | n + 1, w => remoteSocketCalls os n (getRemoteSocket os w).2

/-- An operating system in which `ioutil.TempDir` makes `dir/pattern`. -/
def exampleRunnerEnv : RunnerEnv where
  tempDir := fun _ dir pattern => .ok (dir ++ "/" ++ pattern)
  join := fun dir file => dir ++ "/" ++ file
  environ := ["HOME=/root"]
  newForwarder := fun _ => none

/-- A runner with a configured gopls binary that has made no socket yet. -/
def exampleRunnerWorld : RunnerWorld :=
  { runner := { GoplsPath := "/bin/gopls", TempDir := "/tmp", socketDir := "" },
    dirs := [], log := [] }

/-! ## Publication of diagnostics -/

/-- Modelled from the spec: the diagnostics of one URI computed for the snapshot
with the given generation id (§4.3); what they report is left out. -/
structure Diagnostics where
  uri : URI
  generation : Nat
  deriving DecidableEq, Repr

/-- Modelled from the spec: what the diagnosis of `snapshots` hands to the
consumer on completion (§4.3), the diagnostics of each file of each snapshot,
tagged with the generation id of that snapshot. -/
def deliveries (snapshots : List Snapshot) : List Diagnostics :=
  snapshots.flatMap (fun s => s.files.map (fun f => { uri := f.1, generation := s.generation }))

/-- Modelled from the spec: the consumer of §4.3, which on receiving diagnostics
discards any whose generation is older than one it already applied for the
same URI, and applies the others. `applied` is what it applied so far, in
order. -/
def receive (applied : List Diagnostics) (d : Diagnostics) : List Diagnostics :=
  if applied.any (fun a => decide (a.uri = d.uri ∧ d.generation < a.generation)) then applied
  else applied ++ [d]

/-- Modelled from the spec: what the consumer applies on one event of the log;
only a completed `diagnoseSnapshots` hands it diagnostics (§4.3). -/
def publishEvent (applied : List Diagnostics) : Event → List Diagnostics
  | .diagnoseSnapshots snapshots _ => (deliveries snapshots).foldl receive applied
  | _ => applied

/-- Modelled from the spec: the diagnostics published over a log, in order. -/
def published (log : List Event) : List Diagnostics :=
  log.foldl publishEvent []

/-- An environment like `exampleEnv` in which `Session.DidModifyFiles` gives each
view a new snapshot, one generation higher, holding the modified files. -/
def bumpingEnv : Env :=
  { exampleEnv with
    sessionDidModifyFiles := fun session modifications =>
      .ok (session.views.map (fun v =>
            { v.snapshot with
              generation := v.snapshot.generation + 1
              files := modifications.map (fun m => (m.uri, m.text.getD [])) }),
          { session with
            views := session.views.map (fun v =>
              { v with snapshot :=
                { v.snapshot with
                  generation := v.snapshot.generation + 1
                  files := modifications.map (fun m => (m.uri, m.text.getD [])) } }) }) }

/-- A change of `a.go` to `text`. -/
def changeOfA (text : Bytes) : FileModification :=
  { uri := "file:///a.go", action := .Change, onDisk := false, version := 2,
    text := some text, languageID := "" }

/-- The example world after a first change of `a.go` was submitted. -/
def changedOnceWorld : World :=
  (didModifyFiles bumpingEnv [changeOfA abcdef] .FromDidChange exampleWorld).2

/-- The example world after a second change of `a.go` was submitted. -/
def changedTwiceWorld : World :=
  (didModifyFiles bumpingEnv [changeOfA xyzdef] .FromDidChange changedOnceWorld).2

/-- The world in which the diagnosis of the second change has run. -/
def newerDiagnosedWorld : World :=
  match stepGoroutine bumpingEnv 1 false changedTwiceWorld with
  | some w => w
  | none => changedTwiceWorld

/-- The world in which the diagnosis of the first change has run after that of
the second. -/
def staleDiagnosedWorld : World :=
  match stepGoroutine bumpingEnv 0 false newerDiagnosedWorld with
  | some w => w
  | none => newerDiagnosedWorld

/-- No applied diagnostics are older than later ones for the same URI. -/
def InOrder (applied : List Diagnostics) : Prop :=
  applied.Pairwise (fun earlier later =>
    earlier.uri = later.uri → earlier.generation ≤ later.generation)

/-- The edit deleting all of `"abc\ndef\n"`: from line 0, character 0 to line 2,
character 0, replaced by no text. -/
def editDeleteAll : TextDocumentContentChangeEvent :=
  { range := some { start := { line := 0, character := 0 }, end_ := { line := 2, character := 0 } },
    rangeLength := 0, text := [] }

/-! ## Theorems: the text of a `didChange` notification -/

theorem foldl_spliceEdit_none (env : Env) (uri : URI)
    (edits : List TextDocumentContentChangeEvent) :
    edits.foldl (spliceEdit env uri) none = none := by
  induction edits with
  | nil => rfl
  | cons e es ih => simpa [List.foldl, spliceEdit] using ih

/-- The loop body returns a text exactly when the fold step of the spec does, and the same one. -/
theorem applyChange_ok_iff (env : Env) (uri : URI) (content content' : Bytes)
    (e : TextDocumentContentChangeEvent) :
    applyChange env uri content e = .ok content' ↔
      spliceEdit env uri (some content) e = some content' := by
  unfold applyChange spliceEdit resolveOffsets
  cases hr : e.range with
  | none => simp
  | some r =>
    cases hs : env.rangeSpan uri content r with
    | error err => simp [hs]
    | ok spn =>
      cases ho : spn.hasOffset with
      | false => simp [hs, ho]
      | true =>
        by_cases h1 : spn.end_ < spn.start
        · simp [hs, ho, h1, Nat.not_le.mpr h1]
        · by_cases h2 : content.length < spn.start
          · have : ¬ spn.end_ ≤ content.length := by omega
            simp [hs, ho, h1, h2, this]
          · by_cases h3 : content.length < spn.end_
            · simp [hs, ho, h1, h2, h3, Nat.not_le.mpr h3]
            · have h4 : spn.start ≤ spn.end_ := by omega
              have h5 : spn.end_ ≤ content.length := by omega
              simp [hs, ho, h1, h2, h3, h4, h5]

/-- The loop returns a text exactly when the left fold of the spec is defined, and the same one. -/
theorem applyChanges_ok_iff (env : Env) (uri : URI)
    (edits : List TextDocumentContentChangeEvent) (content content' : Bytes) :
    applyChanges env uri content edits = .ok content' ↔
      leftFoldEdits env uri content edits = some content' := by
  induction edits generalizing content with
  | nil => simp [applyChanges, leftFoldEdits]
  | cons e es ih =>
    unfold leftFoldEdits at ih ⊢
    rw [applyChanges, List.foldl]
    cases h : applyChange env uri content e with
    | ok c1 =>
      rw [(applyChange_ok_iff env uri content c1 e).mp h]
      exact ih c1
    | err er =>
      have hn : spliceEdit env uri (some content) e = none := by
        cases h' : spliceEdit env uri (some content) e with
        | none => rfl
        | some c1 =>
          rw [(applyChange_ok_iff env uri content c1 e).mpr h'] at h
          cases h
      simp [hn, foldl_spliceEdit_none]
    | panic p =>
      have hn : spliceEdit env uri (some content) e = none := by
        cases h' : spliceEdit env uri (some content) e with
        | none => rfl
        | some c1 =>
          rw [(applyChange_ok_iff env uri content c1 e).mpr h'] at h
          cases h
      simp [hn, foldl_spliceEdit_none]

/-- The loop over `pre ++ post` is the loop over `post` run on the result of the loop over `pre`. -/
theorem applyChanges_append (env : Env) (uri : URI)
    (pre post : List TextDocumentContentChangeEvent) (content : Bytes) :
    applyChanges env uri content (pre ++ post) =
      match applyChanges env uri content pre with
      | .ok content' => applyChanges env uri content' post
      | .err e => .err e
      | .panic p => .panic p := by
  induction pre generalizing content with
  | nil => simp [applyChanges]
  | cons e es ih =>
    simp only [List.cons_append, applyChanges]
    cases h : applyChange env uri content e with
    | ok c1 => simpa using ih c1
    | err er => rfl
    | panic p => rfl

/-- C1. For a file that reads `C`, `applyIncrementalChanges` returns the text `C'`
exactly when the left fold of the edits over `C` is `C'`, where each edit is
spliced at the offsets its range resolves to, with `start ≤ end` inside the
content produced by the preceding edits, through a column mapper built over
that content; in particular it returns the left fold whenever every range
resolves so. -/
theorem applyIncrementalChanges_eq_leftFold (env : Env) (uri : URI)
    (changes : List TextDocumentContentChangeEvent) (w : World) (fh : FileHandle)
    (C C' : Bytes)
    (hget : env.getFile w.server.session uri = .ok fh) (hread : fh.read = .ok C) :
    (applyIncrementalChanges env uri changes w).1 = .ok C' ↔
      leftFoldEdits env uri C changes = some C' := by
  have hget' : env.getFile (w.emit (.getFile uri)).server.session uri = .ok fh := hget
  simp only [applyIncrementalChanges, hget', hread]
  exact applyChanges_ok_iff env uri changes C C'

/-- The example of §8 through C1: the file `"abc\ndef\n"` with the edit replacing
line 0, characters 0..3 by `"xyz"`. -/
theorem applyIncrementalChanges_eq_leftFold_witness :
    exampleEnv.getFile exampleWorld.server.session "file:///a.go" = .ok { read := .ok abcdef } ∧
    leftFoldEdits exampleEnv "file:///a.go" abcdef [editAbc] = some xyzdef ∧
    (applyIncrementalChanges exampleEnv "file:///a.go" [editAbc] exampleWorld).1 = .ok xyzdef :=
  ⟨rfl, by decide,
    (applyIncrementalChanges_eq_leftFold exampleEnv "file:///a.go" [editAbc] exampleWorld
      { read := .ok abcdef } abcdef xyzdef rfl rfl).mpr (by decide)⟩

/-- C3 as stated fails: a single change with no range but a range length that is
not zero is not taken as a whole-file replacement; the file is read and the
change is rejected for its nil range. -/
theorem changedText_noRange_counterexample :
    (({ range := none, rangeLength := 3, text := [120] } : TextDocumentContentChangeEvent).range
      = none) ∧
    changedText exampleEnv "file:///a.go" [{ range := none, rangeLength := 3, text := [120] }]
        exampleWorld
      = (.err (.internal "unexpected nil range for change"),
          (exampleWorld.emit (.getFile "file:///a.go")).emit (.read "file:///a.go")) ∧
    (changedText exampleEnv "file:///a.go" [{ range := none, rangeLength := 3, text := [120] }]
        exampleWorld).1 ≠ .ok [120] := by
  decide

/-- C3, amended. A single change that carries no range and whose range length is
zero is a whole-file replacement: `changedText` returns exactly its text, with
no error, whatever the server and its files are, and leaves the world as it
was: no file is looked up or read. -/
theorem changedText_single_noRange (env : Env) (uri : URI)
    (c : TextDocumentContentChangeEvent) (w : World)
    (hrange : c.range = none) (hlen : c.rangeLength = 0) :
    changedText env uri [c] w = (.ok c.text, w) := by
  simp [changedText, hrange, hlen]

/-- C3, amended, at the whole-file replacement of `"abc\ndef\n"` by `"xyz\ndef\n"`. -/
theorem changedText_single_noRange_witness :
    (fullReplacement xyzdef).range = none ∧ (fullReplacement xyzdef).rangeLength = 0 ∧
    changedText exampleEnv "file:///a.go" [fullReplacement xyzdef] exampleWorld
      = (.ok xyzdef, exampleWorld) :=
  ⟨rfl, rfl, changedText_single_noRange exampleEnv "file:///a.go" (fullReplacement xyzdef)
    exampleWorld rfl rfl⟩

/-- C4. If, after the edits before it were applied, the range of an edit resolves
to an end offset strictly before its start offset, `applyIncrementalChanges`
returns the error "invalid range for content change" and no text, whatever
edits follow. -/
theorem applyIncrementalChanges_inverted_range (env : Env) (uri : URI) (w : World)
    (fh : FileHandle) (C C' : Bytes) (pre post : List TextDocumentContentChangeEvent)
    (bad : TextDocumentContentChangeEvent) (r : Range) (spn : Span)
    (hget : env.getFile w.server.session uri = .ok fh) (hread : fh.read = .ok C)
    (hpre : applyChanges env uri C pre = .ok C')
    (hrange : bad.range = some r) (hspn : env.rangeSpan uri C' r = .ok spn)
    (hinv : spn.end_ < spn.start) :
    (applyIncrementalChanges env uri (pre ++ bad :: post) w).1
      = .err (.internal "invalid range for content change") := by
  have hget' : env.getFile (w.emit (.getFile uri)).server.session uri = .ok fh := hget
  simp only [applyIncrementalChanges, hget', hread]
  rw [applyChanges_append, hpre]
  simp only [applyChanges]
  have hb : applyChange env uri C' bad = .err (.internal "invalid range for content change") := by
    unfold applyChange
    simp only [hrange, hspn]
    cases spn.hasOffset <;> simp [hinv]
  rw [hb]

/-- C4 on `"abc\ndef\n"`: a good edit, then an edit whose range runs from
character 3 back to character 1, then another good edit. -/
theorem applyIncrementalChanges_inverted_range_witness :
    applyChanges exampleEnv "file:///a.go" abcdef [editAbc] = .ok xyzdef ∧
    exampleEnv.rangeSpan "file:///a.go" xyzdef
        { start := { line := 0, character := 3 }, end_ := { line := 0, character := 1 } }
      = .ok { hasOffset := true, start := 3, end_ := 1 } ∧
    (applyIncrementalChanges exampleEnv "file:///a.go" ([editAbc] ++ editInverted :: [editAbc])
        exampleWorld).1 = .err (.internal "invalid range for content change") :=
  ⟨by decide, rfl,
    applyIncrementalChanges_inverted_range exampleEnv "file:///a.go" exampleWorld
      { read := .ok abcdef } abcdef xyzdef [editAbc] [editAbc] editInverted
      { start := { line := 0, character := 3 }, end_ := { line := 0, character := 1 } }
      { hasOffset := true, start := 3, end_ := 1 } rfl rfl (by decide) rfl rfl
      (by decide)⟩

/-! ### The column mapper stays inside the content -/

theorem decodeRune_width_le (b : Bytes) : (decodeRune b).2 ≤ b.length := by
  unfold decodeRune
  split
  · simp
  · dsimp only
    repeat' split
    all_goals simp

theorem utf16Advance_le (units : Nat) : ∀ (remains : Bytes) (n : Nat),
    utf16Advance units remains = .ok n → n ≤ remains.length := by
  induction units using Nat.strong_induction_on with
  | _ units ih =>
    intro remains n h
    cases units with
    | zero =>
      rw [utf16Advance] at h
      simp only [Except.ok.injEq] at h
      omega
    | succ u =>
      cases remains with
      | nil => rw [utf16Advance] at h; cases h
      | cons b bs =>
        have hw := decodeRune_width_le (b :: bs)
        have key : ∀ (u' : Nat), u' < u + 1 → ∀ m,
            (utf16Advance u' ((b :: bs).drop (decodeRune (b :: bs)).2)).map
              (fun k => k + (decodeRune (b :: bs)).2) = .ok m → m ≤ (b :: bs).length := by
          intro u' hu m hm
          cases hr : utf16Advance u' ((b :: bs).drop (decodeRune (b :: bs)).2) with
          | error e => rw [hr] at hm; cases hm
          | ok k =>
            rw [hr] at hm
            have hk := ih u' hu _ k hr
            simp only [Except.map, Except.ok.injEq] at hm
            simp only [List.length_drop] at hk
            omega
        rw [utf16Advance.eq_def] at h
        dsimp only at h
        split at h
        · simp only [Except.ok.injEq] at h; omega
        · split at h
          · cases u with
            | zero => simp only [Except.ok.injEq] at h; omega
            | succ u' => exact key u' (by omega) n h
          · exact key u (by omega) n h

theorem lineStartsFrom_lt (content : Bytes) : ∀ (offset : Nat) (b : Bool) (x : Nat),
    x ∈ lineStartsFrom offset b content → x < offset + content.length := by
  induction content with
  | nil => intro offset b x h; simp [lineStartsFrom] at h
  | cons c cs ih =>
    intro offset b x h
    simp only [lineStartsFrom, List.mem_append] at h
    rcases h with h | h
    · cases b <;> simp at h
      subst h; simp
    · have := ih _ _ _ h
      simp only [List.length_cons]
      omega

theorem lineOffset_le (content : Bytes) (line n : Nat)
    (h : lineOffset content line = .ok n) : n ≤ content.length := by
  unfold lineOffset at h
  dsimp only at h
  split at h
  · cases h
  · split at h
    · simp only [Except.ok.injEq] at h; omega
    · simp only [Except.ok.injEq] at h
      rw [List.getD_eq_getElem?_getD] at h
      cases hg : (lineStartsFrom 0 true content)[line]? with
      | none => rw [hg] at h; simp at h; omega
      | some x =>
        rw [hg] at h
        have hx := lineStartsFrom_lt content 0 true x (List.getElem?_mem hg)
        simp only [Option.getD_some] at h
        omega

theorem columnMapperPoint_le (content : Bytes) (p : Position) (n : Nat)
    (h : columnMapperPoint content p = .ok n) : n ≤ content.length := by
  unfold columnMapperPoint at h
  cases ho : lineOffset content p.line with
  | error e => rw [ho] at h; cases h
  | ok offset =>
    rw [ho] at h
    have hle := lineOffset_le _ _ _ ho
    dsimp only at h
    split at h
    · simp only [Except.ok.injEq] at h; omega
    · split at h
      · cases h
      · cases hr : utf16Advance p.character (content.drop offset) with
        | error e => rw [hr] at h; cases h
        | ok k =>
          rw [hr] at h
          have hk := utf16Advance_le _ _ _ hr
          simp only [Except.ok.injEq] at h
          simp only [List.length_drop] at hk
          omega

/-- The mapper `columnMapperRangeSpan` only yields offsets inside the content it is built over. -/
theorem exampleEnv_offsetsInContent : exampleEnv.offsetsInContent := by
  intro uri content r spn h _
  simp only [exampleEnv, columnMapperRangeSpan] at h
  cases hs : columnMapperPoint content r.start with
  | error e => rw [hs] at h; cases h
  | ok a =>
    cases he : columnMapperPoint content r.end_ with
    | error e => rw [hs, he] at h; cases h
    | ok b =>
      rw [hs, he] at h
      simp only [Except.ok.injEq] at h
      subst h
      exact ⟨columnMapperPoint_le _ _ _ hs, columnMapperPoint_le _ _ _ he⟩

/-! ### Nil ranges among several changes -/

theorem applyChange_no_panic (env : Env) (hin : env.offsetsInContent) (uri : URI)
    (content : Bytes) (e : TextDocumentContentChangeEvent) (p : String) :
    applyChange env uri content e ≠ .panic p := by
  unfold applyChange
  cases hr : e.range with
  | none => simp
  | some r =>
    cases hs : env.rangeSpan uri content r with
    | error err => simp [hs]
    | ok spn =>
      cases ho : spn.hasOffset with
      | false => simp [hs, ho]
      | true =>
        have hb := hin uri content r spn hs ho
        have h1 : ¬ content.length < spn.start := by omega
        have h2 : ¬ content.length < spn.end_ := by omega
        by_cases h3 : spn.end_ < spn.start <;> simp [hs, ho, h1, h2, h3]

theorem applyChanges_no_panic (env : Env) (hin : env.offsetsInContent) (uri : URI)
    (changes : List TextDocumentContentChangeEvent) (content : Bytes) (p : String) :
    applyChanges env uri content changes ≠ .panic p := by
  induction changes generalizing content with
  | nil => simp [applyChanges]
  | cons e es ih =>
    rw [applyChanges]
    cases h : applyChange env uri content e with
    | ok c1 => exact ih c1
    | err er => simp
    | panic q => exact absurd h (applyChange_no_panic env hin uri content e q)

theorem applyChanges_nil_range_not_ok (env : Env) (uri : URI)
    (changes : List TextDocumentContentChangeEvent) (content T : Bytes)
    (hnil : ∃ c ∈ changes, c.range = none) :
    applyChanges env uri content changes ≠ .ok T := by
  induction changes generalizing content with
  | nil => obtain ⟨c, hc, _⟩ := hnil; cases hc
  | cons e es ih =>
    rw [applyChanges]
    cases h : applyChange env uri content e with
    | ok c1 =>
      obtain ⟨c, hc, hcn⟩ := hnil
      rcases List.mem_cons.mp hc with heq | hmem
      · subst heq
        simp [applyChange, hcn] at h
      · exact ih c1 ⟨c, hmem, hcn⟩
    | err er => simp
    | panic q => simp

theorem applyIncrementalChanges_fst (env : Env) (uri : URI)
    (changes : List TextDocumentContentChangeEvent) (w : World) :
    (applyIncrementalChanges env uri changes w).1 =
      match env.getFile w.server.session uri with
      | .error e => .err e
      | .ok fh =>
        match fh.read with
        | .error e => .err (.internalCause "file not found" e)
        | .ok content => applyChanges env uri content changes := by
  have hs : (w.emit (.getFile uri)).server.session = w.server.session := rfl
  simp only [applyIncrementalChanges, hs]
  cases env.getFile w.server.session uri with
  | error e => rfl
  | ok fh =>
    dsimp only
    cases hr : fh.read <;> rfl

/-- C5. A list of two or more changes in which some change has a nil range never
yields a text from `changedText`, whatever the other changes are; and with a
column mapper whose offsets lie inside the content it is built over,
`changedText` returns an error. -/
theorem changedText_nil_range_rejected (env : Env) (uri : URI)
    (changes : List TextDocumentContentChangeEvent) (w : World)
    (hlen : 2 ≤ changes.length) (hnil : ∃ c ∈ changes, c.range = none) :
    (∀ T : Bytes, (changedText env uri changes w).1 ≠ .ok T) ∧
    (env.offsetsInContent → ∃ e : GoError, (changedText env uri changes w).1 = .err e) := by
  have hct : changedText env uri changes w = applyIncrementalChanges env uri changes w := by
    match changes, hlen with
    | _ :: _ :: _, _ => rfl
  rw [hct, applyIncrementalChanges_fst]
  cases env.getFile w.server.session uri with
  | error e => exact ⟨fun T => by simp, fun _ => ⟨e, rfl⟩⟩
  | ok fh =>
    dsimp only
    cases hr : fh.read with
    | error e => exact ⟨fun T => by simp, fun _ => ⟨_, rfl⟩⟩
    | ok content =>
      dsimp only
      refine ⟨fun T => applyChanges_nil_range_not_ok env uri changes content T hnil, fun hin => ?_⟩
      cases h : applyChanges env uri content changes with
      | ok T => exact absurd h (applyChanges_nil_range_not_ok env uri changes content T hnil)
      | err e => exact ⟨e, rfl⟩
      | panic p => exact absurd h (applyChanges_no_panic env hin uri changes content p)

/-- C5 on `"abc\ndef\n"`: a good range edit followed by a change without range. -/
theorem changedText_nil_range_rejected_witness :
    2 ≤ [editAbc, fullReplacement xyzdef].length ∧
    (∃ c ∈ [editAbc, fullReplacement xyzdef], c.range = none) ∧
    (∀ T : Bytes, (changedText exampleEnv "file:///a.go" [editAbc, fullReplacement xyzdef]
      exampleWorld).1 ≠ .ok T) ∧
    (∃ e : GoError, (changedText exampleEnv "file:///a.go" [editAbc, fullReplacement xyzdef]
      exampleWorld).1 = .err e) :=
  ⟨by decide, ⟨fullReplacement xyzdef, by simp, rfl⟩,
    (changedText_nil_range_rejected exampleEnv "file:///a.go" [editAbc, fullReplacement xyzdef]
      exampleWorld (by decide) ⟨fullReplacement xyzdef, by simp, rfl⟩).1,
    (changedText_nil_range_rejected exampleEnv "file:///a.go" [editAbc, fullReplacement xyzdef]
      exampleWorld (by decide) ⟨fullReplacement xyzdef, by simp, rfl⟩).2
      exampleEnv_offsetsInContent⟩

/-! ## Theorems: the modification pipeline -/

/-- The function `changedText` changes nothing but the log, to which it adds at most the
look-up and the read of the file. -/
theorem changedText_world (env : Env) (uri : URI)
    (changes : List TextDocumentContentChangeEvent) (w : World) :
    (changedText env uri changes w).2 = w ∨
    (changedText env uri changes w).2 = w.emit (.getFile uri) ∨
    (changedText env uri changes w).2 = (w.emit (.getFile uri)).emit (.read uri) := by
  have hinc : ∀ cs, (applyIncrementalChanges env uri cs w).2 = w.emit (.getFile uri) ∨
      (applyIncrementalChanges env uri cs w).2 = (w.emit (.getFile uri)).emit (.read uri) := by
    intro cs
    unfold applyIncrementalChanges
    dsimp only
    cases env.getFile (w.emit (.getFile uri)).server.session uri with
    | error e => exact Or.inl rfl
    | ok fh =>
      dsimp only
      cases fh.read with
      | error e => exact Or.inr rfl
      | ok content => exact Or.inr rfl
  unfold changedText
  split
  · exact Or.inl rfl
  · split
    · exact Or.inl rfl
    · exact Or.inr (hinc _)
  · exact Or.inr (hinc _)

/-- C6. When `changedText` returns an error on the content changes of a
`didChange` notification, `didChange` (for a file URI, for which it calls
`changedText`) returns that error, and nothing is submitted: the server (its
pending on-disk batches, its session and views) is unchanged, no channel is
made, no goroutine started, and the only events are the look-up and read of
the file by `changedText`: there is no call of `didModifyFiles`,
`processModifications`, `Session.ExpandModificationsToDirectories` or
`Session.DidModifyFiles`. -/
theorem didChange_malformed_submits_nothing (env : Env) (uri : URI) (version : Int)
    (changes : List TextDocumentContentChangeEvent) (w : World) (e : GoError)
    (h : (changedText env uri changes w).1 = .err e) :
    (env.isFile uri = true → (didChange env uri version changes w).1 = .err e) ∧
    (didChange env uri version changes w).2.server = w.server ∧
    (didChange env uri version changes w).2.chans = w.chans ∧
    (didChange env uri version changes w).2.goroutines = w.goroutines ∧
    (didChange env uri version changes w).2.okcs = w.okcs ∧
    ∃ evs : List Event, (didChange env uri version changes w).2.log = w.log ++ evs ∧
      ∀ ev ∈ evs, ev.isSubmission = false := by
  have hw := changedText_world env uri changes w
  have hd : didChange env uri version changes w =
      if env.isFile uri then (.err e, (changedText env uri changes w).2) else (.ok (), w) := by
    unfold didChange
    cases hf : env.isFile uri with
    | false => simp
    | true =>
      cases hc : changedText env uri changes w with
      | mk r w1 =>
        rw [hc] at h
        simp only at h
        subst h
        simp
  rw [hd]
  cases hf : env.isFile uri with
  | false =>
    refine ⟨fun h => Bool.noConfusion h, ?_⟩
    rw [if_neg (by simp)]
    exact ⟨rfl, rfl, rfl, rfl, [], by simp, by simp⟩
  | true =>
    refine ⟨fun _ => (by simp), ?_⟩
    rw [if_pos rfl]
    rcases hw with hw | hw | hw <;> rw [hw]
    · exact ⟨rfl, rfl, rfl, rfl, [], by simp, by simp⟩
    · exact ⟨rfl, rfl, rfl, rfl, [.getFile uri], rfl, by simp [Event.isSubmission, Event.isApplication]⟩
    · refine ⟨rfl, rfl, rfl, rfl, [.getFile uri, .read uri], ?_, by simp [Event.isSubmission, Event.isApplication]⟩
      simp [World.emit]

/-- C6 on a `didChange` whose only change has an inverted range. -/
theorem didChange_malformed_submits_nothing_witness :
    (changedText exampleEnv "file:///a.go" [editInverted] exampleWorld).1
      = .err (.internal "invalid range for content change") ∧
    (didChange exampleEnv "file:///a.go" 2 [editInverted] exampleWorld).1
      = .err (.internal "invalid range for content change") ∧
    (didChange exampleEnv "file:///a.go" 2 [editInverted] exampleWorld).2.server
      = exampleWorld.server :=
  ⟨by decide,
    (didChange_malformed_submits_nothing exampleEnv "file:///a.go" 2 [editInverted] exampleWorld
      (.internal "invalid range for content change") (by decide)).1 (by decide),
    (didChange_malformed_submits_nothing exampleEnv "file:///a.go" 2 [editInverted] exampleWorld
      (.internal "invalid range for content change") (by decide)).2.1⟩

/-- On the shut-down path `processModifications`, given an open completion signal, only
closes that signal and returns the terminal error. -/
theorem processModifications_terminal_eq (env : Env) (modifications : List FileModification)
    (onDisk : Bool) (diagnoseDone : Chan) (w : World)
    (hstate : env.serverShutDown ≤ w.server.state)
    (hopen : w.chans[diagnoseDone]? = some false) :
    processModifications env modifications onDisk diagnoseDone w =
      (.err (.new "server is shut down"),
        { w with
          chans := w.chans.set diagnoseDone true
          log := w.log ++ [.processModifications modifications onDisk diagnoseDone,
            .lock .stateMu, .unlock .stateMu, .close diagnoseDone] }) := by
  simp [processModifications, World.emit, closeChan, hstate, hopen]

/-- What `processModifications` never touches, and the shape of its log: one entry event,
followed by events that are not entries of `processModifications`. -/
theorem processModifications_frame (env : Env) (modifications : List FileModification)
    (onDisk : Bool) (diagnoseDone : Chan) (w : World) :
    (processModifications env modifications onDisk diagnoseDone w).2.server.pendingOnDiskChanges
      = w.server.pendingOnDiskChanges ∧
    (processModifications env modifications onDisk diagnoseDone w).2.server.state
      = w.server.state ∧
    (processModifications env modifications onDisk diagnoseDone w).2.okcs = w.okcs ∧
    (processModifications env modifications onDisk diagnoseDone w).2.panicked = w.panicked ∧
    ∃ evs : List Event,
      (processModifications env modifications onDisk diagnoseDone w).2.log
        = w.log ++ Event.processModifications modifications onDisk diagnoseDone :: evs ∧
      ∀ ev ∈ evs, ev.isProcessModifications = false ∧
        ev ≠ .lock .fileChangeMu ∧ ev ≠ .unlock .fileChangeMu := by
  rcases hc : w.chans[diagnoseDone]? with _ | _ | _
  all_goals
    simp only [processModifications, closeChan, World.emit, World.spawn, hc]
    repeat' split
    all_goals simp [Event.isProcessModifications]

/-- With an open completion signal `processModifications` does not panic. -/
theorem processModifications_no_panic (env : Env) (modifications : List FileModification)
    (onDisk : Bool) (diagnoseDone : Chan) (w : World)
    (hopen : w.chans[diagnoseDone]? = some false) (p : String) :
    (processModifications env modifications onDisk diagnoseDone w).1 ≠ .panic p := by
  simp only [processModifications, closeChan, World.emit, World.spawn, hopen]
  repeat' split
  all_goals simp

/-- C7. A batch whose source is not `FromDidChangeWatchedFiles`, and any batch
when the watched-file delay is zero, is applied immediately: `didModifyFiles`
makes the completion signal, locks `fileChangeMu`, calls
`processModifications` with exactly the submitted list, the on-disk flag of
the source and that signal, unlocks, and returns what the call returned. The
log holds exactly one entry of `processModifications`, between the lock and
the unlock of `fileChangeMu`, and `pendingOnDiskChanges` is unchanged. -/
theorem didModifyFiles_immediate (env : Env) (modifications : List FileModification)
    (cause : ModificationSource) (w : World)
    (h : cause ≠ .FromDidChangeWatchedFiles ∨
      w.server.session.options.experimentalWatchedFileDelay = 0) :
    ∃ (w1 : World) (before inside after : List Event),
      w1 = { w with chans := w.chans ++ [false],
                    log := w.log ++ before ++ [Event.lock .fileChangeMu] } ∧
      (didModifyFiles env modifications cause w).1
        = (processModifications env modifications (decide (cause = .FromDidChangeWatchedFiles))
            w.chans.length w1).1 ∧
      (didModifyFiles env modifications cause w).2.server
        = (processModifications env modifications (decide (cause = .FromDidChangeWatchedFiles))
            w.chans.length w1).2.server ∧
      (processModifications env modifications (decide (cause = .FromDidChangeWatchedFiles))
            w.chans.length w1).2.log
        = w1.log ++ Event.processModifications modifications
            (decide (cause = .FromDidChangeWatchedFiles)) w.chans.length :: inside ∧
      (didModifyFiles env modifications cause w).2.log
        = w.log ++ before ++ [Event.lock .fileChangeMu]
            ++ Event.processModifications modifications
                (decide (cause = .FromDidChangeWatchedFiles)) w.chans.length :: inside
            ++ Event.unlock .fileChangeMu :: after ∧
      (∀ ev ∈ before ++ inside ++ after, ev.isProcessModifications = false ∧
        ev ≠ .lock .fileChangeMu ∧ ev ≠ .unlock .fileChangeMu) ∧
      (didModifyFiles env modifications cause w).2.server.pendingOnDiskChanges
        = w.server.pendingOnDiskChanges := by
  have hcond : (!decide (cause = .FromDidChangeWatchedFiles) ||
      w.server.session.options.experimentalWatchedFileDelay == 0) = true := by
    rcases h with h | h
    · simp [h]
    · simp [h]
  cases hv : w.server.session.options.verboseWorkDoneProgress with
  | false =>
    obtain ⟨hp, _, _, _, inside, hlog, hin⟩ := processModifications_frame env modifications
      (decide (cause = .FromDidChangeWatchedFiles)) w.chans.length
      { w with chans := w.chans ++ [false],
               log := w.log ++ [Event.didModifyFiles modifications cause, Event.make w.chans.length]
                  ++ [Event.lock .fileChangeMu] }
    refine ⟨_, [Event.didModifyFiles modifications cause, Event.make w.chans.length], inside, [],
      rfl, ?_, ?_, ?_, ?_, ?_, ?_⟩
    · simp [didModifyFiles, makeChan, World.emit, hv, hcond]
    · simp [didModifyFiles, makeChan, World.emit, hv, hcond]
    · simpa using hlog
    · simp [didModifyFiles, makeChan, World.emit, hv, hcond] at hlog ⊢
      rw [hlog]
      simp
    · intro ev hev
      simp only [List.append_nil, List.mem_append, List.mem_cons, List.mem_singleton,
        List.not_mem_nil, or_false] at hev
      rcases hev with (hev | hev) | hev
      · subst hev; simp [Event.isProcessModifications]
      · subst hev; simp [Event.isProcessModifications]
      · exact hin ev hev
    · simp [didModifyFiles, makeChan, World.emit, hv, hcond] at hp ⊢
      exact hp
  | true =>
    obtain ⟨hp, _, _, _, inside, hlog, hin⟩ := processModifications_frame env modifications
      (decide (cause = .FromDidChangeWatchedFiles)) w.chans.length
      { w with chans := w.chans ++ [false],
               log := w.log ++ [Event.didModifyFiles modifications cause, Event.make w.chans.length,
                  Event.progressStart (DiagnosticWorkTitle cause) "Calculating file diagnostics..."]
                  ++ [Event.lock .fileChangeMu] }
    refine ⟨_, [Event.didModifyFiles modifications cause, Event.make w.chans.length,
        Event.progressStart (DiagnosticWorkTitle cause) "Calculating file diagnostics..."], inside,
      [Event.go [Instr.recv w.chans.length, Instr.workEnd (DiagnosticWorkTitle cause) "Done."]],
      rfl, ?_, ?_, ?_, ?_, ?_, ?_⟩
    · simp [didModifyFiles, makeChan, World.emit, World.spawn, hv, hcond]
    · simp [didModifyFiles, makeChan, World.emit, World.spawn, hv, hcond]
    · simpa using hlog
    · simp [didModifyFiles, makeChan, World.emit, World.spawn, hv, hcond] at hlog ⊢
      rw [hlog]
      simp
    · intro ev hev
      simp only [List.mem_append, List.mem_cons, List.mem_singleton,
        List.not_mem_nil, or_false] at hev
      rcases hev with (hev | hev) | hev
      · rcases hev with hev | hev | hev <;> subst hev <;> simp [Event.isProcessModifications]
      · exact hin ev hev
      · subst hev; simp [Event.isProcessModifications]
    · simp [didModifyFiles, makeChan, World.emit, World.spawn, hv, hcond] at hp ⊢
      exact hp

/-- C7 on a `didChange` modification submitted to the running example server. -/
theorem didModifyFiles_immediate_witness :
    (ModificationSource.FromDidChange ≠ .FromDidChangeWatchedFiles ∨
      exampleWorld.server.session.options.experimentalWatchedFileDelay = 0) ∧
    (didModifyFiles exampleEnv [] .FromDidChange exampleWorld).2.server.pendingOnDiskChanges
      = exampleWorld.server.pendingOnDiskChanges ∧
    (didModifyFiles exampleEnv [] .FromDidChange exampleWorld).1 = .ok () :=
  ⟨Or.inl (by decide),
    (didModifyFiles_immediate exampleEnv [] .FromDidChange exampleWorld
      (Or.inl (by decide))).elim
      (fun _ h1 => h1.elim (fun _ h2 => h2.elim (fun _ h3 => h3.elim (fun _ h4 => h4.2.2.2.2.2.2)))),
    by decide⟩

/-- The loop of the debounced function concatenates the changes of the pending batches in
order, and lists their completion signals in order. -/
theorem collectPending_eq (pendings : List PendingModificationSet) :
    collectPending pendings
      = ((pendings.map (fun p => p.changes)).flatten, pendings.map (fun p => p.diagnoseDone)) := by
  have key : ∀ (ps : List PendingModificationSet) (acc : List FileModification × List Chan),
      ps.foldl (fun acc pending => (acc.1 ++ pending.changes, acc.2 ++ [pending.diagnoseDone])) acc
        = (acc.1 ++ (ps.map (fun p => p.changes)).flatten,
            acc.2 ++ ps.map (fun p => p.diagnoseDone)) := by
    intro ps
    induction ps with
    | nil => intro acc; simp
    | cons p ps ih => intro acc; simp [List.foldl, ih]
  simpa [collectPending] using key pendings ([], [])

/-- A debounced submission: an on-disk batch with a delay that is not zero is only appended
to the pending batches. -/
theorem didModifyFiles_debounced (env : Env) (batch : List FileModification) (w : World)
    (hdelay : w.server.session.options.experimentalWatchedFileDelay ≠ 0) :
    (didModifyFiles env batch .FromDidChangeWatchedFiles w).1 = .ok () ∧
    (didModifyFiles env batch .FromDidChangeWatchedFiles w).2.server
      = { w.server with pendingOnDiskChanges :=
            w.server.pendingOnDiskChanges ++ [{ diagnoseDone := w.chans.length, changes := batch }] } ∧
    (didModifyFiles env batch .FromDidChangeWatchedFiles w).2.chans = w.chans ++ [false] ∧
    (didModifyFiles env batch .FromDidChangeWatchedFiles w).2.panicked = w.panicked ∧
    ∃ evs : List Event,
      (didModifyFiles env batch .FromDidChangeWatchedFiles w).2.log = w.log ++ evs ∧
      ∀ ev ∈ evs, ev.isApplication = false := by
  cases hv : w.server.session.options.verboseWorkDoneProgress with
  | false =>
    refine ⟨?_, ?_, ?_, ?_, ?_⟩
    · simp [didModifyFiles, makeChan, debounce, World.emit, World.spawn, hv, hdelay]
    · simp [didModifyFiles, makeChan, debounce, World.emit, World.spawn, hv, hdelay]
    · simp [didModifyFiles, makeChan, debounce, World.emit, World.spawn, hv, hdelay]
    · simp [didModifyFiles, makeChan, debounce, World.emit, World.spawn, hv, hdelay]
    · refine ⟨[.didModifyFiles batch .FromDidChangeWatchedFiles, .make w.chans.length,
        .lock .fileChangeMu, .debounce w.server.session.options.experimentalWatchedFileDelay w.okcs,
        .go [.flush w.okcs true], .unlock .fileChangeMu], ?_, ?_⟩
      · simp [didModifyFiles, makeChan, debounce, World.emit, World.spawn, hv, hdelay]
      · simp [Event.isApplication]
  | true =>
    refine ⟨?_, ?_, ?_, ?_, ?_⟩
    · simp [didModifyFiles, makeChan, debounce, World.emit, World.spawn, hv, hdelay]
    · simp [didModifyFiles, makeChan, debounce, World.emit, World.spawn, hv, hdelay]
    · simp [didModifyFiles, makeChan, debounce, World.emit, World.spawn, hv, hdelay]
    · simp [didModifyFiles, makeChan, debounce, World.emit, World.spawn, hv, hdelay]
    · refine ⟨[.didModifyFiles batch .FromDidChangeWatchedFiles, .make w.chans.length,
        .progressStart (DiagnosticWorkTitle .FromDidChangeWatchedFiles)
          "Calculating file diagnostics...",
        .lock .fileChangeMu, .debounce w.server.session.options.experimentalWatchedFileDelay w.okcs,
        .go [.flush w.okcs true], .unlock .fileChangeMu,
        .go [.recv w.chans.length,
          .workEnd (DiagnosticWorkTitle .FromDidChangeWatchedFiles) "Done."]], ?_, ?_⟩
      · simp [didModifyFiles, makeChan, debounce, World.emit, World.spawn, hv, hdelay]
      · simp [Event.isApplication]

/-- The debounced function under `fileChangeMu`: it makes `allDone`, calls
`processModifications` once with the concatenation of the pending batches, empties the
pending list and hands back `allDone` and the signals of the batches. -/
theorem flushPending_spec (env : Env) (onDisk : Bool) (w : World) :
    ∃ (inside after : List Event),
      (flushPending env onDisk w).1
        = .ok (w.chans.length, w.server.pendingOnDiskChanges.map (fun p => p.diagnoseDone)) ∧
      (flushPending env onDisk w).2.server.pendingOnDiskChanges = [] ∧
      (flushPending env onDisk w).2.log
        = w.log ++ [Event.lock .fileChangeMu, Event.make w.chans.length]
            ++ Event.processModifications
                (w.server.pendingOnDiskChanges.map (fun p => p.changes)).flatten onDisk
                w.chans.length :: inside
            ++ after ++ [Event.unlock .fileChangeMu] ∧
      (∀ ev ∈ inside ++ after, ev.isProcessModifications = false ∧
        ev ≠ .lock .fileChangeMu ∧ ev ≠ .unlock .fileChangeMu) ∧
      (flushPending env onDisk w).2.panicked = w.panicked := by
  have hopen : (w.chans ++ [false])[w.chans.length]? = some false := by
    simp
  obtain ⟨hpend, _, _, hpan, inside, hlog, hin⟩ := processModifications_frame env
    (w.server.pendingOnDiskChanges.map (fun p => p.changes)).flatten onDisk w.chans.length
    { w with chans := w.chans ++ [false],
             log := w.log ++ [Event.lock .fileChangeMu] ++ [Event.make w.chans.length] }
  have hnp := processModifications_no_panic env
    (w.server.pendingOnDiskChanges.map (fun p => p.changes)).flatten onDisk w.chans.length
    { w with chans := w.chans ++ [false],
             log := w.log ++ [Event.lock .fileChangeMu] ++ [Event.make w.chans.length] } hopen
  simp only [flushPending, World.emit, makeChan, collectPending_eq]
  cases hpm : processModifications env
    (w.server.pendingOnDiskChanges.map (fun p => p.changes)).flatten onDisk w.chans.length
    { w with chans := w.chans ++ [false],
             log := w.log ++ [Event.lock .fileChangeMu] ++ [Event.make w.chans.length] } with
  | mk r w2 =>
    rw [hpm] at hlog hpan hnp
    simp only at hlog hpan hnp
    cases r with
    | panic p => exact absurd rfl (hnp p)
    | ok u =>
      refine ⟨inside, [], trivial, trivial, ?_, ?_, ?_⟩
      · simp [hlog]
      · simpa using hin
      · simpa using hpan
    | err e =>
      refine ⟨inside, [Event.eventError "processing delayed file changes" e], trivial, trivial,
        ?_, ?_, ?_⟩
      · simp [hlog]
      · intro ev hev
        rcases List.mem_append.mp hev with hev | hev
        · exact hin ev hev
        · simp only [List.mem_singleton] at hev
          subst hev
          simp [Event.isProcessModifications]
      · simpa using hpan

/-- Debounced submissions one after the other append their batches in order. -/
theorem submitAll_pending (env : Env) (batches : List (List FileModification)) (w : World)
    (hdelay : w.server.session.options.experimentalWatchedFileDelay ≠ 0) :
    (submitAll env batches w).server.pendingOnDiskChanges.map (fun p => p.changes)
      = w.server.pendingOnDiskChanges.map (fun p => p.changes) ++ batches ∧
    (submitAll env batches w).server.session = w.server.session := by
  induction batches generalizing w with
  | nil => simp [submitAll]
  | cons b bs ih =>
    obtain ⟨_, hs, _⟩ := didModifyFiles_debounced env b w hdelay
    have hd' : (didModifyFiles env b .FromDidChangeWatchedFiles w).2.server.session.options.experimentalWatchedFileDelay ≠ 0 := by
      rw [hs]; exact hdelay
    have := ih (didModifyFiles env b .FromDidChangeWatchedFiles w).2 hd'
    simp only [submitAll, List.foldl] at this ⊢
    rw [this.1, this.2, hs]
    simp

/-- C8. With a watched-file delay that is not zero, every on-disk submission
returns nil having only appended its batch at the end of
`pendingOnDiskChanges`, without applying anything; after the batches
`B1 .. Bk` have been submitted, the debounced function calls
`processModifications` exactly once, with the concatenation of the batches
pending before, then `B1 ++ .. ++ Bk`, in submission order (just
`B1 ++ .. ++ Bk` when nothing was pending before), and leaves
`pendingOnDiskChanges` empty. -/
theorem debounced_batches_flushed_in_order (env : Env) (batches : List (List FileModification))
    (w : World) (hdelay : w.server.session.options.experimentalWatchedFileDelay ≠ 0) :
    (∀ (batch : List FileModification) (w0 : World),
      w0.server.session.options.experimentalWatchedFileDelay ≠ 0 →
        (didModifyFiles env batch .FromDidChangeWatchedFiles w0).1 = .ok () ∧
        (didModifyFiles env batch .FromDidChangeWatchedFiles w0).2.server
          = { w0.server with pendingOnDiskChanges := w0.server.pendingOnDiskChanges
                ++ [{ diagnoseDone := w0.chans.length, changes := batch }] } ∧
        ∃ evs : List Event,
          (didModifyFiles env batch .FromDidChangeWatchedFiles w0).2.log = w0.log ++ evs ∧
          ∀ ev ∈ evs, ev.isApplication = false) ∧
    (submitAll env batches w).server.pendingOnDiskChanges.map (fun p => p.changes)
      = w.server.pendingOnDiskChanges.map (fun p => p.changes) ++ batches ∧
    (∃ (inside after : List Event),
      (flushPending env true (submitAll env batches w)).2.log
        = (submitAll env batches w).log
            ++ [Event.lock .fileChangeMu, Event.make (submitAll env batches w).chans.length]
            ++ Event.processModifications
                ((w.server.pendingOnDiskChanges.map (fun p => p.changes)).flatten
                  ++ batches.flatten) true
                (submitAll env batches w).chans.length :: inside
            ++ after ++ [Event.unlock .fileChangeMu] ∧
      (∀ ev ∈ inside ++ after, ev.isProcessModifications = false) ∧
      (w.server.pendingOnDiskChanges = [] →
        (w.server.pendingOnDiskChanges.map (fun p => p.changes)).flatten ++ batches.flatten
          = batches.flatten)) ∧
    (flushPending env true (submitAll env batches w)).2.server.pendingOnDiskChanges = [] := by
  obtain ⟨hpend, _⟩ := submitAll_pending env batches w hdelay
  obtain ⟨inside, after, _, hempty, hlog, hin, _⟩ :=
    flushPending_spec env true (submitAll env batches w)
  refine ⟨fun batch w0 h0 => ?_, hpend, ⟨inside, after, ?_, fun ev hev => (hin ev hev).1, ?_⟩,
    hempty⟩
  · obtain ⟨h1, h2, _, _, h5⟩ := didModifyFiles_debounced env batch w0 h0
    exact ⟨h1, h2, h5⟩
  · rw [hlog, hpend]
    simp
  · intro h
    simp [h]

/-- C8 on two on-disk batches submitted to a server with a delay of 100ms and
nothing pending: the debounced function processes the three modifications in
submission order, in one call, and empties the pending list. -/
theorem debounced_batches_flushed_in_order_witness :
    debounceWorld.server.session.options.experimentalWatchedFileDelay ≠ 0 ∧
    (submitAll exampleEnv [batchA, batchB] debounceWorld).server.pendingOnDiskChanges
      = [{ diagnoseDone := 0, changes := batchA }, { diagnoseDone := 1, changes := batchB }] ∧
    (flushPending exampleEnv true (submitAll exampleEnv [batchA, batchB] debounceWorld)).2.log.filter
        Event.isProcessModifications
      = [Event.processModifications
          [onDiskModification "file:///a.go" .Create, onDiskModification "file:///b.go" .Change,
            onDiskModification "file:///a.go" .Delete] true 2] ∧
    (flushPending exampleEnv true
      (submitAll exampleEnv [batchA, batchB] debounceWorld)).2.server.pendingOnDiskChanges = [] :=
  ⟨by decide, by decide, by decide,
    (debounced_batches_flushed_in_order exampleEnv [batchA, batchB] debounceWorld
      (by decide)).2.2.2⟩

/-- C10. When the server state is shut down (`state >= serverShutDown`),
`processModifications`, called with an open completion signal as both callers
do, returns the error "server is shut down" and closes the signal, and does
nothing else: its events are its entry, the lock and unlock of `stateMu` and
the close; there is no call of `Session.ExpandModificationsToDirectories` or
`Session.DidModifyFiles`, no goroutine is started (no diagnosis), no other
channel changes, and the server, with its session and the current Snapshot of
every View, is unchanged. -/
theorem processModifications_shut_down (env : Env) (modifications : List FileModification)
    (onDisk : Bool) (diagnoseDone : Chan) (w : World)
    (hstate : env.serverShutDown ≤ w.server.state)
    (hopen : w.chans[diagnoseDone]? = some false) :
    (processModifications env modifications onDisk diagnoseDone w).1
      = .err (.new "server is shut down") ∧
    (processModifications env modifications onDisk diagnoseDone w).2.isClosed diagnoseDone = true ∧
    (processModifications env modifications onDisk diagnoseDone w).2.log
      = w.log ++ [.processModifications modifications onDisk diagnoseDone,
          .lock .stateMu, .unlock .stateMu, .close diagnoseDone] ∧
    (processModifications env modifications onDisk diagnoseDone w).2.goroutines = w.goroutines ∧
    (processModifications env modifications onDisk diagnoseDone w).2.server = w.server ∧
    (processModifications env modifications onDisk diagnoseDone w).2.server.session.views.map
        (fun v => v.snapshot) = w.server.session.views.map (fun v => v.snapshot) ∧
    (∀ c : Chan, c ≠ diagnoseDone →
      (processModifications env modifications onDisk diagnoseDone w).2.chans[c]? = w.chans[c]?) := by
  rw [processModifications_terminal_eq env modifications onDisk diagnoseDone w hstate hopen]
  refine ⟨rfl, ?_, rfl, rfl, rfl, rfl, ?_⟩
  · have hlt : diagnoseDone < w.chans.length := by
      rcases Nat.lt_or_ge diagnoseDone w.chans.length with h | h
      · exact h
      · rw [List.getElem?_eq_none h] at hopen; cases hopen
    simp [World.isClosed, List.getD_eq_getElem?_getD, List.getElem?_set, hlt]
  · intro c hc
    simp [List.getElem?_set, Ne.symm hc]

/-- C10 on the example server after shutdown, for an on-disk batch. -/
theorem processModifications_shut_down_witness :
    exampleEnv.serverShutDown ≤ shutDownWorld.server.state ∧
    shutDownWorld.chans[0]? = some false ∧
    processModifications exampleEnv batchA true 0 shutDownWorld
      = (.err (.new "server is shut down"),
          { shutDownWorld with
            chans := [true]
            log := [.make 0, .processModifications batchA true 0, .lock .stateMu,
              .unlock .stateMu, .close 0] }) ∧
    (processModifications exampleEnv batchA true 0 shutDownWorld).2.server = shutDownWorld.server :=
  ⟨by decide, by decide, by decide,
    (processModifications_shut_down exampleEnv batchA true 0 shutDownWorld (by decide)
      (by decide)).2.2.2.2.1⟩

/-! ## Theorems: goroutines and completion signals -/

/-- What `processModifications` does to channels and goroutines, given an open completion
signal: either it rejects the batch and closes the signal itself, or it starts the
goroutine that diagnoses and then closes the signal. -/
theorem processModifications_effect (env : Env) (modifications : List FileModification)
    (onDisk : Bool) (d : Chan) (w : World) (hopen : w.chans[d]? = some false) :
    ((processModifications env modifications onDisk d w).2.chans = w.chans.set d true ∧
      (processModifications env modifications onDisk d w).2.goroutines = w.goroutines ∧
      ∃ e, (processModifications env modifications onDisk d w).1 = .err e) ∨
    ((processModifications env modifications onDisk d w).2.chans = w.chans ∧
      ∃ snapshots, (processModifications env modifications onDisk d w).2.goroutines
        = w.goroutines ++ [diagnoseGoroutine snapshots onDisk d]) := by
  simp only [processModifications, closeChan, World.emit, World.spawn, hopen, diagnoseGoroutine]
  repeat' split
  all_goals simp

/-- What the debounced function does under `fileChangeMu` to channels, goroutines and the
pending list. -/
theorem flushPending_effect (env : Env) (onDisk : Bool) (w : World) :
    (flushPending env onDisk w).1
      = .ok (w.chans.length, w.server.pendingOnDiskChanges.map (fun p => p.diagnoseDone)) ∧
    (flushPending env onDisk w).2.server.pendingOnDiskChanges = [] ∧
    (flushPending env onDisk w).2.panicked = w.panicked ∧
    (((flushPending env onDisk w).2.chans = w.chans ++ [true] ∧
        (flushPending env onDisk w).2.goroutines = w.goroutines) ∨
      ((flushPending env onDisk w).2.chans = w.chans ++ [false] ∧
        ∃ snapshots, (flushPending env onDisk w).2.goroutines
          = w.goroutines ++ [diagnoseGoroutine snapshots onDisk w.chans.length])) := by
  obtain ⟨inside, after, h1, h2, _, _, h5⟩ := flushPending_spec env onDisk w
  refine ⟨h1, h2, h5, ?_⟩
  have hopen : (w.chans ++ [false])[w.chans.length]? = some false := by simp
  have heff := processModifications_effect env
    (w.server.pendingOnDiskChanges.map (fun p => p.changes)).flatten onDisk w.chans.length
    { w with chans := w.chans ++ [false],
             log := w.log ++ [Event.lock .fileChangeMu] ++ [Event.make w.chans.length] } hopen
  have hnp := processModifications_no_panic env
    (w.server.pendingOnDiskChanges.map (fun p => p.changes)).flatten onDisk w.chans.length
    { w with chans := w.chans ++ [false],
             log := w.log ++ [Event.lock .fileChangeMu] ++ [Event.make w.chans.length] } hopen
  simp only [flushPending, World.emit, makeChan, collectPending_eq]
  cases hpm : processModifications env
    (w.server.pendingOnDiskChanges.map (fun p => p.changes)).flatten onDisk w.chans.length
    { w with chans := w.chans ++ [false],
             log := w.log ++ [Event.lock .fileChangeMu] ++ [Event.make w.chans.length] } with
  | mk r w2 =>
    rw [hpm] at heff hnp
    simp only at heff hnp
    have hset : (w.chans ++ [false]).set w.chans.length true = w.chans ++ [true] := by
      simp
    rw [hset] at heff
    cases r with
    | panic p => exact absurd rfl (hnp p)
    | ok u =>
      rcases heff with ⟨_, _, e, he⟩ | h
      · cases he
      · exact Or.inr (by simpa using h)
    | err e =>
      rcases heff with ⟨h1, h2, _⟩ | h
      · exact Or.inl (by simpa using ⟨h1, h2⟩)
      · exact Or.inr (by simpa using h)

/-- What `didModifyFiles` does to channels, goroutines and the pending list: it makes one
channel, which it closes itself (rejected batch), hands to a new diagnosis goroutine, or
stores with the batch in the pending list; the other goroutines it starts close nothing. -/
theorem didModifyFiles_effect (env : Env) (modifications : List FileModification)
    (cause : ModificationSource) (w : World) :
    (∀ p, (didModifyFiles env modifications cause w).1 ≠ .panic p) ∧
    (didModifyFiles env modifications cause w).2.panicked = w.panicked ∧
    ∃ G : List Goroutine, (∀ g ∈ G, Goroutine.closes g = []) ∧
      (((didModifyFiles env modifications cause w).2.chans = w.chans ++ [true] ∧
          (didModifyFiles env modifications cause w).2.goroutines = w.goroutines ++ G ∧
          (didModifyFiles env modifications cause w).2.server.pendingOnDiskChanges
            = w.server.pendingOnDiskChanges) ∨
        ((didModifyFiles env modifications cause w).2.chans = w.chans ++ [false] ∧
          (∃ snapshots onDisk, (didModifyFiles env modifications cause w).2.goroutines
            = w.goroutines ++ diagnoseGoroutine snapshots onDisk w.chans.length :: G) ∧
          (didModifyFiles env modifications cause w).2.server.pendingOnDiskChanges
            = w.server.pendingOnDiskChanges) ∨
        ((didModifyFiles env modifications cause w).2.chans = w.chans ++ [false] ∧
          (didModifyFiles env modifications cause w).2.goroutines = w.goroutines ++ G ∧
          (didModifyFiles env modifications cause w).2.server.pendingOnDiskChanges
            = w.server.pendingOnDiskChanges
                ++ [{ diagnoseDone := w.chans.length, changes := modifications }])) := by
  have hopen : (w.chans ++ [false])[w.chans.length]? = some false := by simp
  have hset : (w.chans ++ [false]).set w.chans.length true = w.chans ++ [true] := by simp
  by_cases hcond : cause ≠ .FromDidChangeWatchedFiles ∨
      w.server.session.options.experimentalWatchedFileDelay = 0
  · have hc : (!decide (cause = .FromDidChangeWatchedFiles) ||
        w.server.session.options.experimentalWatchedFileDelay == 0) = true := by
      rcases hcond with h | h
      · simp [h]
      · simp [h]
    cases hv : w.server.session.options.verboseWorkDoneProgress with
    | false =>
      have heff := processModifications_effect env modifications
        (decide (cause = .FromDidChangeWatchedFiles)) w.chans.length
        { w with chans := w.chans ++ [false],
                 log := w.log ++ [Event.didModifyFiles modifications cause] ++
                    [Event.make w.chans.length] ++ [Event.lock .fileChangeMu] } hopen
      have hnp := processModifications_no_panic env modifications
        (decide (cause = .FromDidChangeWatchedFiles)) w.chans.length
        { w with chans := w.chans ++ [false],
                 log := w.log ++ [Event.didModifyFiles modifications cause] ++
                    [Event.make w.chans.length] ++ [Event.lock .fileChangeMu] } hopen
      obtain ⟨hp, _, _, hpan, _⟩ := processModifications_frame env modifications
        (decide (cause = .FromDidChangeWatchedFiles)) w.chans.length
        { w with chans := w.chans ++ [false],
                 log := w.log ++ [Event.didModifyFiles modifications cause] ++
                    [Event.make w.chans.length] ++ [Event.lock .fileChangeMu] }
      rw [hset] at heff
      simp only [didModifyFiles, makeChan, World.emit, World.spawn, hv, hc, if_true,
        Bool.false_eq_true, if_false]
      refine ⟨hnp, hpan, [], by simp, ?_⟩
      rcases heff with ⟨h1, h2, _⟩ | ⟨h1, snaps, h2⟩
      · exact Or.inl ⟨h1, by simpa using h2, hp⟩
      · exact Or.inr (Or.inl ⟨h1,
          ⟨snaps, decide (cause = .FromDidChangeWatchedFiles), by simpa using h2⟩, hp⟩)
    | true =>
      have heff := processModifications_effect env modifications
        (decide (cause = .FromDidChangeWatchedFiles)) w.chans.length
        { w with chans := w.chans ++ [false],
                 log := w.log ++ [Event.didModifyFiles modifications cause] ++
                    [Event.make w.chans.length] ++
                    [Event.progressStart (DiagnosticWorkTitle cause)
                      "Calculating file diagnostics..."] ++ [Event.lock .fileChangeMu] } hopen
      have hnp := processModifications_no_panic env modifications
        (decide (cause = .FromDidChangeWatchedFiles)) w.chans.length
        { w with chans := w.chans ++ [false],
                 log := w.log ++ [Event.didModifyFiles modifications cause] ++
                    [Event.make w.chans.length] ++
                    [Event.progressStart (DiagnosticWorkTitle cause)
                      "Calculating file diagnostics..."] ++ [Event.lock .fileChangeMu] } hopen
      obtain ⟨hp, _, _, hpan, _⟩ := processModifications_frame env modifications
        (decide (cause = .FromDidChangeWatchedFiles)) w.chans.length
        { w with chans := w.chans ++ [false],
                 log := w.log ++ [Event.didModifyFiles modifications cause] ++
                    [Event.make w.chans.length] ++
                    [Event.progressStart (DiagnosticWorkTitle cause)
                      "Calculating file diagnostics..."] ++ [Event.lock .fileChangeMu] }
      rw [hset] at heff
      simp only [didModifyFiles, makeChan, World.emit, World.spawn, hv, hc, if_true]
      refine ⟨hnp, hpan,
        [[Instr.recv w.chans.length, Instr.workEnd (DiagnosticWorkTitle cause) "Done."]],
        by simp [Goroutine.closes, Instr.closes], ?_⟩
      rcases heff with ⟨h1, h2, _⟩ | ⟨h1, snaps, h2⟩
      · refine Or.inl ⟨h1, ?_, hp⟩
        simp only [List.append_assoc, List.singleton_append] at h2 ⊢
        rw [h2]
      · refine Or.inr (Or.inl ⟨h1,
          ⟨snaps, decide (cause = .FromDidChangeWatchedFiles), ?_⟩, hp⟩)
        simp only [List.append_assoc, List.singleton_append] at h2 ⊢
        rw [h2]
        simp
  · have hcause : cause = .FromDidChangeWatchedFiles := by
      by_contra h; exact hcond (Or.inl h)
    have hdelay : w.server.session.options.experimentalWatchedFileDelay ≠ 0 :=
      fun h => hcond (Or.inr h)
    subst hcause
    cases hv : w.server.session.options.verboseWorkDoneProgress with
    | false =>
      simp only [didModifyFiles, makeChan, debounce, World.emit, World.spawn, hv,
        decide_True, Bool.not_true, Bool.false_or, beq_iff_eq, if_neg hdelay,
        Bool.false_eq_true, if_false]
      refine ⟨by simp, by simp, [[Instr.flush w.okcs true]],
        by simp [Goroutine.closes, Instr.closes], Or.inr (Or.inr (by simp))⟩
    | true =>
      simp only [didModifyFiles, makeChan, debounce, World.emit, World.spawn, hv,
        decide_True, Bool.not_true, Bool.false_or, beq_iff_eq, if_neg hdelay, if_true]
      refine ⟨by simp, by simp, [[Instr.flush w.okcs true],
          [Instr.recv w.chans.length,
            Instr.workEnd (DiagnosticWorkTitle .FromDidChangeWatchedFiles) "Done."]],
        by simp [Goroutine.closes, Instr.closes], Or.inr (Or.inr (by simp))⟩

/-- A channel named in a `close` statement of a goroutine is among the closers. -/
theorem mem_closers_of_goroutine (w : World) (k : Nat) (g : Goroutine) (c : Chan)
    (hk : w.goroutines[k]? = some g) (hc : Instr.close c ∈ g) : c ∈ w.closers := by
  unfold World.closers
  refine List.mem_append_left _ ?_
  rw [List.mem_flatMap]
  refine ⟨g, List.getElem?_mem hk, ?_⟩
  unfold Goroutine.closes
  rw [List.mem_flatMap]
  exact ⟨Instr.close c, hc, by simp [Instr.closes]⟩

/-- In a well-formed world every step is one of the effects of `Effect`: in particular no
`close` panics. -/
theorem step_effect (env : Env) (w w' : World) (hstep : Step env w w') (hwf : WellFormed w) :
    Effect w w' := by
  cases hstep with
  | goroutine i answer _ _ h =>
    unfold stepGoroutine at h
    have hpan : w.panicked.isSome = false := by rw [hwf.1]; rfl
    rw [hpan] at h
    simp only [Bool.false_eq_true, if_false] at h
    cases hg : w.goroutines[i]? with
    | none => rw [hg] at h; cases h
    | some g =>
      rw [hg] at h
      cases g with
      | nil => cases h
      | cons ins rest =>
        dsimp only at h
        cases ins with
        | recv c =>
          simp only [runInstr] at h
          by_cases hc : w.isClosed c = true
          · simp only [hc, if_true, Option.some.injEq] at h
            subst h
            exact Effect.pop _ _ i (.recv c) rest hg rfl (fun _ _ h => by cases h)
              (fun c' h' => by cases h'; exact hc) rfl rfl rfl rfl
          · simp [hc] at h
        | close c =>
          have hopen : w.chans[c]? = some false :=
            hwf.2.2 c (mem_closers_of_goroutine w i _ c hg (List.mem_cons_self _ _))
          simp only [runInstr, closeChan, hopen, Option.some.injEq] at h
          subst h
          exact Effect.close _ _ i c rest hg hopen rfl rfl rfl rfl
        | workEnd title msg =>
          simp only [runInstr, Option.some.injEq] at h
          subst h
          exact Effect.pop _ _ i _ rest hg rfl (fun _ _ h => by cases h)
            (fun c' h' => by cases h') rfl rfl rfl rfl
        | diagnoseSnapshots snapshots onDisk =>
          simp only [runInstr, Option.some.injEq] at h
          subst h
          exact Effect.pop _ _ i _ rest hg rfl (fun _ _ h => by cases h)
            (fun c' h' => by cases h') rfl rfl rfl rfl
        | release snapshots =>
          simp only [runInstr, Option.some.injEq] at h
          subst h
          exact Effect.pop _ _ i _ rest hg rfl (fun _ _ h => by cases h)
            (fun c' h' => by cases h') rfl rfl rfl rfl
        | flush okc onDisk =>
          cases answer with
          | false =>
            simp only [runInstr, Bool.not_false, if_true, Option.some.injEq] at h
            subst h
            exact Effect.drop _ _ i okc onDisk rest hg rfl rfl rfl rfl
          | true =>
            obtain ⟨h1, h2, h3, h4⟩ := flushPending_effect env onDisk (w.emit (.okAnswer okc true))
            simp only [runInstr, Bool.not_true, Bool.false_eq_true, if_false] at h
            cases hf : flushPending env onDisk (w.emit (.okAnswer okc true)) with
            | mk r wf =>
              rw [hf] at h h1 h2 h3 h4
              simp only at h1 h2 h3 h4
              subst h1
              simp only [Option.some.injEq] at h
              subst h
              rcases h4 with ⟨hc, hgs⟩ | ⟨hc, snaps, hgs⟩
              · exact Effect.flush _ _ i okc onDisk rest true [] hg hc
                  (by simp [hgs, World.emit]) (Or.inl ⟨rfl, rfl⟩) h2 h3
              · exact Effect.flush _ _ i okc onDisk rest false
                  [diagnoseGoroutine snaps onDisk w.chans.length] hg hc
                  (by simp [hgs, World.emit]) (Or.inr ⟨rfl, snaps, rfl⟩) h2 h3
  | submit modifications cause _ hp =>
    obtain ⟨hnp, hpan, G, hG, hcases⟩ := didModifyFiles_effect env modifications cause w
    have hw' : (match didModifyFiles env modifications cause w with
        | (.panic p, w') => { w' with panicked := some p }
        | (_, w') => w') = (didModifyFiles env modifications cause w).2 := by
      cases hd : didModifyFiles env modifications cause w with
      | mk r w1 =>
        cases r with
        | panic p => rw [hd] at hnp; exact absurd rfl (hnp p)
        | ok u => rfl
        | err e => rfl
    rw [hw']
    have hGc : G.flatMap Goroutine.closes = [] := by
      rw [List.flatMap_eq_nil_iff]
      exact hG
    rcases hcases with ⟨h1, h2, h3⟩ | ⟨h1, ⟨snaps, o, h2⟩, h3⟩ | ⟨h1, h2, h3⟩
    · exact Effect.submit _ _ true G [] h1 h2 (by simp [h3]) (by simp [hGc]) hpan
    · exact Effect.submit _ _ false (diagnoseGoroutine snaps o w.chans.length :: G) [] h1 h2
        (by simp [h3])
        (by simp [hGc, diagnoseGoroutine, Goroutine.closes, Instr.closes]) hpan
    · exact Effect.submit _ _ false G [{ diagnoseDone := w.chans.length, changes := modifications }]
        h1 h2 h3 (by simp [hGc]) hpan
  | outside _ state session changedFiles =>
    exact Effect.outside _ _ rfl rfl rfl rfl

/-! ### Well-formed worlds -/

theorem closes_cons (ins : Instr) (rest : Goroutine) :
    Goroutine.closes (ins :: rest) = Instr.closes ins ++ Goroutine.closes rest := by
  simp [Goroutine.closes]

theorem closes_append (g g' : Goroutine) :
    Goroutine.closes (g ++ g') = Goroutine.closes g ++ Goroutine.closes g' := by
  simp [Goroutine.closes]

theorem closes_map_close (D : List Chan) : Goroutine.closes (D.map Instr.close) = D := by
  induction D with
  | nil => rfl
  | cons d ds ih =>
    rw [List.map_cons, closes_cons, ih]
    rfl

theorem closes_diagnoseGoroutine (snapshots : List Snapshot) (onDisk : Bool) (d : Chan) :
    Goroutine.closes (diagnoseGoroutine snapshots onDisk d) = [d] := rfl

/-- Replacing goroutine `k` exchanges its closers for those of the new goroutine. -/
theorem count_closes_set (gs : List Goroutine) (k : Nat) (g g' : Goroutine) (c : Chan)
    (h : gs[k]? = some g) :
    ((gs.set k g').flatMap Goroutine.closes).count c + (Goroutine.closes g).count c
      = (gs.flatMap Goroutine.closes).count c + (Goroutine.closes g').count c := by
  induction gs generalizing k with
  | nil => simp at h
  | cons x xs ih =>
    cases k with
    | zero =>
      simp only [List.getElem?_cons_zero, Option.some.injEq] at h
      subst h
      simp only [List.set_cons_zero, List.flatMap_cons, List.count_append]
      omega
    | succ k =>
      simp only [List.getElem?_cons_succ] at h
      have := ih k h
      simp only [List.set_cons_succ, List.flatMap_cons, List.count_append]
      omega

/-- Well-formedness by counting: each channel has at most one closer, and none unless it
is open. -/
theorem wellFormed_iff_count (w : World) :
    WellFormed w ↔ w.panicked = none ∧
      ∀ c : Chan, w.closers.count c ≤ (if w.chans[c]? = some false then 1 else 0) := by
  unfold WellFormed
  constructor
  · rintro ⟨hp, hnd, hopen⟩
    refine ⟨hp, fun c => ?_⟩
    have h1 := List.nodup_iff_count_le_one.mp hnd c
    by_cases hc : c ∈ w.closers
    · rw [if_pos (hopen c hc)]; exact h1
    · rw [List.count_eq_zero_of_not_mem hc]; exact Nat.zero_le _
  · rintro ⟨hp, hcount⟩
    refine ⟨hp, List.nodup_iff_count_le_one.mpr fun c => ?_, fun c hc => ?_⟩
    · have := hcount c
      split at this <;> omega
    · have := hcount c
      have hpos : 0 < w.closers.count c := List.count_pos_iff.mpr hc
      by_contra hno
      rw [if_neg hno] at this
      omega

theorem getElem?_set_true_eq_false (l : List Bool) (c c' : Nat) :
    (l.set c true)[c']? = some false ↔ l[c']? = some false ∧ c' ≠ c := by
  rw [List.getElem?_set]
  by_cases h : c = c'
  · subst h
    by_cases hl : c < l.length <;> simp [hl]
  · simp [h, Ne.symm h]

theorem getElem?_append_singleton_eq_false (l : List Bool) (b : Bool) (c' : Nat) :
    (l ++ [b])[c']? = some false ↔ l[c']? = some false ∨ (c' = l.length ∧ b = false) := by
  rcases Nat.lt_trichotomy c' l.length with h | h | h
  · rw [List.getElem?_append_left h]
    simp [Nat.ne_of_lt h]
  · subst h
    simp
  · rw [List.getElem?_append_right (Nat.le_of_lt h)]
    have h1 : l[c']? = none := List.getElem?_eq_none (Nat.le_of_lt h)
    have h2 : c' - l.length ≠ 0 := by omega
    have h3 : ([b] : List Bool)[c' - l.length]? = none := by
      apply List.getElem?_eq_none
      simp only [List.length_singleton]
      omega
    simp [h1, h3, Nat.ne_of_gt h]

/-- Every effect keeps the world well-formed. -/
theorem effect_wellFormed (w w' : World) (h : Effect w w') (hwf : WellFormed w) :
    WellFormed w' := by
  rw [wellFormed_iff_count] at hwf ⊢
  obtain ⟨hp, hcount⟩ := hwf
  cases h with
  | pop k ins rest hk hins _ _ hgs hch hpd hpan =>
    refine ⟨by rw [hpan]; exact hp, fun c => ?_⟩
    have hc := hcount c
    have hs := count_closes_set w.goroutines k (ins :: rest) rest c hk
    rw [closes_cons, hins, List.nil_append] at hs
    unfold World.closers at hc ⊢
    rw [hgs, hch, hpd]
    rw [List.count_append] at hc ⊢
    omega
  | close k c0 rest hk hopen hgs hch hpd hpan =>
    refine ⟨by rw [hpan]; exact hp, fun c => ?_⟩
    have hc := hcount c
    have hs := count_closes_set w.goroutines k (.close c0 :: rest) rest c hk
    rw [closes_cons] at hs
    simp only [Instr.closes, List.singleton_append, List.count_cons] at hs
    unfold World.closers at hc ⊢
    rw [hgs, hch, hpd]
    rw [List.count_append] at hc ⊢
    by_cases hcc : c = c0
    · subst hcc
      have hno : ¬ (w.chans.set c true)[c]? = some false := by
        rw [getElem?_set_true_eq_false]; simp
      rw [if_pos hopen] at hc
      rw [if_neg hno]
      simp only [beq_self_eq_true, if_true] at hs
      omega
    · have hiff := getElem?_set_true_eq_false w.chans c0 c
      have hne : ¬ (c0 == c) = true := by simpa using Ne.symm hcc
      rw [if_neg hne] at hs
      by_cases ho : w.chans[c]? = some false
      · rw [if_pos ho] at hc
        rw [if_pos (hiff.mpr ⟨ho, hcc⟩)]
        omega
      · rw [if_neg ho] at hc
        omega
  | drop k okc onDisk rest hk hgs hch hpd hpan =>
    refine ⟨by rw [hpan]; exact hp, fun c => ?_⟩
    have hc := hcount c
    have hs := count_closes_set w.goroutines k (.flush okc onDisk :: rest) [] c hk
    unfold World.closers at hc ⊢
    rw [hgs, hch, hpd]
    rw [List.count_append] at hc ⊢
    simp only [Goroutine.closes, List.flatMap_nil, List.count_nil] at hs
    omega
  | flush k okc onDisk rest b G hk hch hgs hG hpd hpan =>
    refine ⟨by rw [hpan]; exact hp, fun c => ?_⟩
    have hc := hcount c
    have hlt : k < w.goroutines.length := by
      rcases Nat.lt_or_ge k w.goroutines.length with h | h
      · exact h
      · rw [List.getElem?_eq_none h] at hk; cases hk
    have hk' : (w.goroutines ++ G)[k]? = some (.flush okc onDisk :: rest) := by
      rw [List.getElem?_append_left hlt]; exact hk
    have hs := count_closes_set (w.goroutines ++ G) k (.flush okc onDisk :: rest)
      (Instr.recv w.chans.length ::
        (w.server.pendingOnDiskChanges.map (fun p => p.diagnoseDone)).map Instr.close ++ rest)
      c hk'
    simp only [List.cons_append, closes_cons, closes_append, closes_map_close, Instr.closes,
      List.nil_append, List.flatMap_append, List.count_append] at hs
    simp only [List.cons_append] at hgs
    unfold World.closers at hc ⊢
    rw [hgs, hch, hpd]
    rw [List.count_append] at hc ⊢
    simp only [List.map_nil, List.count_nil, Nat.add_zero]
    have hiff := getElem?_append_singleton_eq_false w.chans b c
    by_cases hca : c = w.chans.length
    · have hnone : w.chans[c]? = none := List.getElem?_eq_none (Nat.le_of_eq hca.symm)
      have hno : ¬ w.chans[c]? = some false := by rw [hnone]; simp
      rw [if_neg hno] at hc
      rcases hG with ⟨hb, hGe⟩ | ⟨hb, snaps, hGe⟩
      · subst hGe
        simp only [List.flatMap_nil, List.count_nil] at hs
        omega
      · have hopen' : (w.chans ++ [b])[c]? = some false := hiff.mpr (Or.inr ⟨hca, hb⟩)
        rw [if_pos hopen']
        subst hGe
        simp only [List.flatMap_cons, List.flatMap_nil, List.append_nil,
          closes_diagnoseGoroutine] at hs
        have hle := List.nodup_iff_count_le_one.mp (List.nodup_singleton w.chans.length) c
        omega
    · have hG0 : (G.flatMap Goroutine.closes).count c = 0 := by
        rcases hG with ⟨_, hGe⟩ | ⟨_, snaps, hGe⟩
        · subst hGe; rfl
        · subst hGe
          simp only [List.flatMap_cons, List.flatMap_nil, List.append_nil,
            closes_diagnoseGoroutine]
          rw [List.count_eq_zero_of_not_mem]
          simp only [List.mem_singleton]
          exact hca
      by_cases ho : w.chans[c]? = some false
      · rw [if_pos ho] at hc
        rw [if_pos (hiff.mpr (Or.inl ho))]
        omega
      · rw [if_neg ho] at hc
        omega
  | submit b G P hch hgs hpd hGP hpan =>
    refine ⟨by rw [hpan]; exact hp, fun c => ?_⟩
    have hc := hcount c
    unfold World.closers at hc ⊢
    rw [hgs, hch, hpd]
    rw [List.count_append] at hc
    have hsum : (G.flatMap Goroutine.closes).count c
        + (P.map (fun p => p.diagnoseDone)).count c
        = (if b then ([] : List Chan) else [w.chans.length]).count c := by
      rw [← List.count_append, hGP]
    simp only [List.flatMap_append, List.map_append, List.count_append]
    have hiff := getElem?_append_singleton_eq_false w.chans b c
    by_cases hca : c = w.chans.length
    · have hnone : w.chans[c]? = none := List.getElem?_eq_none (Nat.le_of_eq hca.symm)
      have hno : ¬ w.chans[c]? = some false := by rw [hnone]; simp
      rw [if_neg hno] at hc
      cases b with
      | true =>
        simp only [if_true, List.count_nil] at hsum
        omega
      | false =>
        rw [if_pos (hiff.mpr (Or.inr ⟨hca, rfl⟩))]
        have hle : (if false = true then ([] : List Chan) else [w.chans.length]).count c ≤ 1 := by
          simp only [Bool.false_eq_true, if_false]
          exact List.nodup_iff_count_le_one.mp (List.nodup_singleton _) c
        omega
    · have h0 : (if b then ([] : List Chan) else [w.chans.length]).count c = 0 := by
        rw [List.count_eq_zero_of_not_mem]
        cases b <;> simp [hca]
      by_cases ho : w.chans[c]? = some false
      · rw [if_pos ho] at hc
        rw [if_pos (hiff.mpr (Or.inl ho))]
        omega
      · rw [if_neg ho] at hc
        omega
  | outside hgs hch hpd hpan =>
    refine ⟨by rw [hpan]; exact hp, fun c => ?_⟩
    have hc := hcount c
    unfold World.closers at hc ⊢
    rw [hgs, hch, hpd]
    exact hc

/-- Steps keep the world well-formed. -/
theorem wellFormed_step (env : Env) (w w' : World) (hstep : Step env w w')
    (hwf : WellFormed w) : WellFormed w' :=
  effect_wellFormed w w' (step_effect env w w' hstep hwf) hwf

/-- Every world reached from a well-formed world is well-formed. -/
theorem wellFormed_reachable (env : Env) (w w' : World) (hreach : Reachable env w w')
    (hwf : WellFormed w) : WellFormed w' := by
  induction hreach with
  | refl => exact hwf
  | tail w1 w2 _ hs ih => exact wellFormed_step env w1 w2 hs ih

/-- The world of a server that has started nothing is well-formed. -/
theorem wellFormed_init (server : Server) : WellFormed (World.init server) := by
  simp [WellFormed, World.init, World.closers]

/-! ### Closed channels stay closed -/

theorem isClosed_iff (w : World) (c : Chan) : w.isClosed c = true ↔ w.chans[c]? = some true := by
  unfold World.isClosed
  rw [List.getD_eq_getElem?_getD]
  cases h : w.chans[c]? with
  | none => simp
  | some b => cases b <;> simp

theorem getElem?_set_true_of_closed (l : List Bool) (c c' : Nat) (h : l[c']? = some true) :
    (l.set c true)[c']? = some true := by
  rw [List.getElem?_set]
  by_cases hc : c = c'
  · subst hc
    have hlt : c < l.length := by
      rcases Nat.lt_or_ge c l.length with h' | h'
      · exact h'
      · rw [List.getElem?_eq_none h'] at h; cases h
    simp [hlt]
  · simp [hc, h]

theorem getElem?_set_true_self (l : List Bool) (c : Nat) (h : l[c]? = some false) :
    (l.set c true)[c]? = some true := by
  have hlt : c < l.length := by
    rcases Nat.lt_or_ge c l.length with h' | h'
    · exact h'
    · rw [List.getElem?_eq_none h'] at h; cases h
  rw [List.getElem?_set]
  simp [hlt]

theorem getElem?_append_of_some (l : List Bool) (b v : Bool) (c : Nat) (h : l[c]? = some v) :
    (l ++ [b])[c]? = some v := by
  have hlt : c < l.length := by
    rcases Nat.lt_or_ge c l.length with h' | h'
    · exact h'
    · rw [List.getElem?_eq_none h'] at h; cases h
  rw [List.getElem?_append_left hlt]
  exact h

/-- No effect reopens a channel. -/
theorem effect_closed_mono (w w' : World) (h : Effect w w') (c : Chan)
    (hc : w.isClosed c = true) : w'.isClosed c = true := by
  rw [isClosed_iff] at hc ⊢
  cases h with
  | pop k ins rest _ _ _ _ _ hch _ _ => rw [hch]; exact hc
  | close k c0 rest _ _ _ hch _ _ => rw [hch]; exact getElem?_set_true_of_closed _ _ _ hc
  | drop k okc onDisk rest _ _ hch _ _ => rw [hch]; exact hc
  | flush k okc onDisk rest b G _ hch _ _ _ _ => rw [hch]; exact getElem?_append_of_some _ _ _ _ hc
  | submit b G P hch _ _ _ _ => rw [hch]; exact getElem?_append_of_some _ _ _ _ hc
  | outside _ hch _ _ => rw [hch]; exact hc

/-- An effect of goroutine `k`, or of a handler, leaves the statements of every other
goroutine as they are. -/
theorem getElem?_set_append_frame (gs G : List Goroutine) (k i : Nat) (g gi : Goroutine)
    (hne : k ≠ i) (hi : gs[i]? = some gi) : ((gs ++ G).set k g)[i]? = some gi := by
  have hlt : i < gs.length := by
    rcases Nat.lt_or_ge i gs.length with h' | h'
    · exact h'
    · rw [List.getElem?_eq_none h'] at hi; cases hi
  rw [List.getElem?_set_ne hne, List.getElem?_append_left hlt]
  exact hi

theorem getElem?_set_frame (gs : List Goroutine) (k i : Nat) (g gi : Goroutine)
    (hne : k ≠ i) (hi : gs[i]? = some gi) : (gs.set k g)[i]? = some gi := by
  rw [List.getElem?_set_ne hne]
  exact hi

theorem getElem?_set_self (gs : List Goroutine) (k : Nat) (g g' : Goroutine)
    (hk : gs[k]? = some g) : (gs.set k g')[k]? = some g' := by
  have hlt : k < gs.length := by
    rcases Nat.lt_or_ge k gs.length with h' | h'
    · exact h'
    · rw [List.getElem?_eq_none h'] at hk; cases hk
  rw [List.getElem?_set]
  simp [hlt]

theorem getElem?_append_frame (gs G : List Goroutine) (i : Nat) (gi : Goroutine)
    (hi : gs[i]? = some gi) : (gs ++ G)[i]? = some gi := by
  have hlt : i < gs.length := by
    rcases Nat.lt_or_ge i gs.length with h' | h'
    · exact h'
    · rw [List.getElem?_eq_none h'] at hi; cases hi
  rw [List.getElem?_append_left hlt]
  exact hi

/-- What an effect does to the goroutine at index `i`: nothing, or it runs its first
statement, which closes nothing, closes an open channel, or is the debounced function. -/
theorem effect_goroutine (w w' : World) (h : Effect w w') (i : Nat) (gi : Goroutine)
    (hi : w.goroutines[i]? = some gi) :
    (w'.goroutines[i]? = some gi) ∨
    (∃ ins rest, gi = ins :: rest ∧ w'.goroutines[i]? = some rest ∧ Instr.closes ins = [] ∧
      (∀ okc onDisk, ins ≠ .flush okc onDisk) ∧ (∀ c, ins = .recv c → w.isClosed c = true)) ∨
    (∃ c rest, gi = .close c :: rest ∧ w'.goroutines[i]? = some rest ∧
      w.chans[c]? = some false ∧ w'.chans = w.chans.set c true) ∨
    (∃ okc onDisk rest, gi = .flush okc onDisk :: rest) := by
  cases h with
  | pop k ins rest hk hins hnf hrecv hgs _ _ _ =>
    by_cases hki : k = i
    · subst hki
      rw [hi] at hk
      simp only [Option.some.injEq] at hk
      subst hk
      refine Or.inr (Or.inl ⟨ins, rest, rfl, ?_, hins, hnf, hrecv⟩)
      rw [hgs]
      exact getElem?_set_self _ _ _ _ hi
    · exact Or.inl (by rw [hgs]; exact getElem?_set_frame _ _ _ _ _ hki hi)
  | close k c rest hk hopen hgs hch _ _ =>
    by_cases hki : k = i
    · subst hki
      rw [hi] at hk
      simp only [Option.some.injEq] at hk
      subst hk
      refine Or.inr (Or.inr (Or.inl ⟨c, rest, rfl, ?_, hopen, hch⟩))
      rw [hgs]
      exact getElem?_set_self _ _ _ _ hi
    · exact Or.inl (by rw [hgs]; exact getElem?_set_frame _ _ _ _ _ hki hi)
  | drop k okc onDisk rest hk hgs _ _ _ =>
    by_cases hki : k = i
    · subst hki
      rw [hi] at hk
      simp only [Option.some.injEq] at hk
      exact Or.inr (Or.inr (Or.inr ⟨okc, onDisk, rest, hk⟩))
    · exact Or.inl (by rw [hgs]; exact getElem?_set_frame _ _ _ _ _ hki hi)
  | flush k okc onDisk rest b G hk _ hgs _ _ _ =>
    by_cases hki : k = i
    · subst hki
      rw [hi] at hk
      simp only [Option.some.injEq] at hk
      exact Or.inr (Or.inr (Or.inr ⟨okc, onDisk, rest, hk⟩))
    · exact Or.inl (by rw [hgs]; exact getElem?_set_append_frame _ _ _ _ _ _ hki hi)
  | submit b G P _ hgs _ _ _ =>
    exact Or.inl (by rw [hgs]; exact getElem?_append_frame _ _ _ _ hi)
  | outside hgs _ _ _ =>
    exact Or.inl (by rw [hgs]; exact hi)

/-- Every effect keeps the goroutine of the debounced function in one of its phases. -/
theorem flushPhase_effect (w w' : World) (h : Effect w w') (allDone : Chan) (dones : List Chan)
    (i : Nat) (rest : Goroutine) (hph : FlushPhase allDone dones i rest w) :
    FlushPhase allDone dones i rest w' := by
  rcases hph with hi | ⟨ha, n, hn, hrest⟩
  · rcases effect_goroutine w w' h i _ hi with h1 | ⟨ins, r, he, hr, _, _, hrecv⟩ |
        ⟨c, r, he, _⟩ | ⟨okc, o, r, he⟩
    · exact Or.inl h1
    · simp only [List.cons.injEq] at he
      obtain ⟨he1, he2⟩ := he
      subst he1 he2
      refine Or.inr ⟨effect_closed_mono w w' h allDone (hrecv allDone rfl), 0, ?_, Or.inl ?_⟩
      · intro m d hm; omega
      · simpa using hr
    · simp at he
    · simp at he
  · have ha' := effect_closed_mono w w' h allDone ha
    have hn' : ∀ (m : Nat) (d : Chan), m < n → dones[m]? = some d → w'.isClosed d = true :=
      fun m d hm hd => effect_closed_mono w w' h d (hn m d hm hd)
    by_cases hlen : dones.length ≤ n
    · exact Or.inr ⟨ha', n, hn', Or.inr hlen⟩
    · rcases hrest with hi | hle
      · have hlt : n < dones.length := by omega
        have hdrop : dones.drop n = dones[n] :: dones.drop (n + 1) :=
          List.drop_eq_getElem_cons hlt
        rw [hdrop] at hi
        simp only [List.map_cons, List.cons_append] at hi
        rcases effect_goroutine w w' h i _ hi with h1 | ⟨ins, r, he, hr, hcl, _, _⟩ |
            ⟨c, r, he, hr, hopen, hch⟩ | ⟨okc, o, r, he⟩
        · refine Or.inr ⟨ha', n, hn', Or.inl ?_⟩
          rw [hdrop]
          simp only [List.map_cons, List.cons_append]
          exact h1
        · simp only [List.cons.injEq] at he
          obtain ⟨he1, _⟩ := he
          subst he1
          simp [Instr.closes] at hcl
        · simp only [List.cons.injEq, Instr.close.injEq] at he
          obtain ⟨he1, he2⟩ := he
          subst he2
          refine Or.inr ⟨ha', n + 1, ?_, Or.inl hr⟩
          intro m d hm hd
          by_cases hmn : m = n
          · subst hmn
            rw [List.getElem?_eq_getElem hlt] at hd
            simp only [Option.some.injEq] at hd
            subst hd
            rw [isClosed_iff, hch, he1]
            exact getElem?_set_true_self _ _ hopen
          · exact hn' m d (by omega) hd
        · simp at he
      · exact absurd hle hlen

/-- Every effect keeps the diagnosis goroutine in one of its phases. -/
theorem diagPhase_effect (w w' : World) (h : Effect w w') (allDone : Chan) (j : Nat)
    (snapshots : List Snapshot) (onDisk : Bool) (hph : DiagPhase allDone j snapshots onDisk w) :
    DiagPhase allDone j snapshots onDisk w' := by
  obtain ⟨n, hj, hclosed⟩ := hph
  have hmono : 3 ≤ n → w'.isClosed allDone = true :=
    fun hn => effect_closed_mono w w' h allDone (hclosed hn)
  rcases effect_goroutine w w' h j _ hj with h1 | ⟨ins, r, he, hr, hcl, _, _⟩ |
      ⟨c, r, he, hr, hopen, hch⟩ | ⟨okc, o, r, he⟩
  · exact ⟨n, h1, hmono⟩
  · match n, he, hj, hmono with
    | 0, he, _, _ =>
      simp only [diagnoseGoroutine, List.drop_zero, List.cons.injEq] at he
      obtain ⟨_, he2⟩ := he
      subst he2
      exact ⟨1, by simpa [diagnoseGoroutine] using hr, fun h3 => by omega⟩
    | 1, he, _, _ =>
      simp only [diagnoseGoroutine, List.drop_succ_cons, List.drop_zero, List.cons.injEq] at he
      obtain ⟨_, he2⟩ := he
      subst he2
      exact ⟨2, by simpa [diagnoseGoroutine] using hr, fun h3 => by omega⟩
    | 2, he, _, _ =>
      simp only [diagnoseGoroutine, List.drop_succ_cons, List.drop_zero, List.cons.injEq] at he
      obtain ⟨he1, _⟩ := he
      subst he1
      simp [Instr.closes] at hcl
    | n + 3, he, _, _ =>
      simp [diagnoseGoroutine] at he
  · match n, he, hj, hmono with
    | 0, he, _, _ => simp [diagnoseGoroutine] at he
    | 1, he, _, _ => simp [diagnoseGoroutine] at he
    | 2, he, _, _ =>
      simp only [diagnoseGoroutine, List.drop_succ_cons, List.drop_zero, List.cons.injEq,
        Instr.close.injEq] at he
      obtain ⟨he1, he2⟩ := he
      subst he1 he2
      refine ⟨3, by simpa [diagnoseGoroutine] using hr, fun _ => ?_⟩
      rw [isClosed_iff, hch]
      exact getElem?_set_true_self _ _ hopen
    | n + 3, he, _, _ => simp [diagnoseGoroutine] at he
  · match n, he with
    | 0, he => simp [diagnoseGoroutine] at he
    | 1, he => simp [diagnoseGoroutine] at he
    | 2, he => simp [diagnoseGoroutine] at he
    | n + 3, he => simp [diagnoseGoroutine] at he

/-! ### Single steps of a goroutine -/

/-- The debounced function run by goroutine `i` on the answer `true`. -/
theorem stepGoroutine_flush (env : Env) (w w1 : World) (i okc : Nat) (onDisk : Bool)
    (rest : Goroutine) (hp : w.panicked = none)
    (hi : w.goroutines[i]? = some (.flush okc onDisk :: rest))
    (hstep : stepGoroutine env i true w = some w1) :
    ∃ (b : Bool) (G : List Goroutine),
      w1.chans = w.chans ++ [b] ∧
      w1.goroutines = (w.goroutines ++ G).set i
        (Instr.recv w.chans.length ::
          ((w.server.pendingOnDiskChanges.map (fun p => p.diagnoseDone)).map Instr.close
            ++ rest)) ∧
      ((b = true ∧ G = []) ∨
        (b = false ∧ ∃ snapshots, G = [diagnoseGoroutine snapshots onDisk w.chans.length])) := by
  unfold stepGoroutine at hstep
  have hpan : w.panicked.isSome = false := by rw [hp]; rfl
  rw [hpan, hi] at hstep
  simp only [Bool.false_eq_true, if_false, runInstr, Bool.not_true] at hstep
  obtain ⟨h1, _, _, h4⟩ := flushPending_effect env onDisk (w.emit (.okAnswer okc true))
  cases hf : flushPending env onDisk (w.emit (.okAnswer okc true)) with
  | mk r wf =>
    rw [hf] at hstep h1 h4
    simp only at h1 h4
    subst h1
    simp only [Option.some.injEq] at hstep
    subst hstep
    rcases h4 with ⟨hc, hgs⟩ | ⟨hc, snaps, hgs⟩
    · exact ⟨true, [], hc, by simp [hgs, World.emit], Or.inl ⟨rfl, rfl⟩⟩
    · exact ⟨false, [diagnoseGoroutine snaps onDisk w.chans.length], hc,
        by simp [hgs, World.emit], Or.inr ⟨rfl, snaps, rfl⟩⟩

/-- A goroutine whose next statement closes nothing, is not the debounced function and
does not block, takes a step that only removes that statement. -/
theorem step_pop (env : Env) (w : World) (k : Nat) (ins : Instr) (rest : Goroutine)
    (hp : w.panicked = none) (hk : w.goroutines[k]? = some (ins :: rest))
    (hins : (∃ c, ins = .recv c ∧ w.isClosed c = true) ∨
      (∃ s o, ins = .diagnoseSnapshots s o) ∨ (∃ s, ins = .release s)) :
    ∃ w', Step env w w' ∧ w'.goroutines = w.goroutines.set k rest ∧ w'.chans = w.chans := by
  have hpan : w.panicked.isSome = false := by rw [hp]; rfl
  rcases hins with ⟨c, hc, hcl⟩ | ⟨s, o, hc⟩ | ⟨s, hc⟩
  · subst hc
    refine ⟨{ w with goroutines := w.goroutines.set k rest }, Step.goroutine k false _ _ ?_,
      rfl, rfl⟩
    simp [stepGoroutine, hpan, hk, runInstr, hcl]
  · subst hc
    refine ⟨{ w.emit (.diagnoseSnapshots s o) with goroutines := w.goroutines.set k rest },
      Step.goroutine k false _ _ ?_, rfl, rfl⟩
    simp [stepGoroutine, hpan, hk, runInstr, World.emit]
  · subst hc
    refine ⟨{ w.emit (.release s) with goroutines := w.goroutines.set k rest },
      Step.goroutine k false _ _ ?_, rfl, rfl⟩
    simp [stepGoroutine, hpan, hk, runInstr, World.emit]

/-- A goroutine whose next statement closes an open channel takes a step that closes it. -/
theorem step_close (env : Env) (w : World) (k : Nat) (c : Chan) (rest : Goroutine)
    (hp : w.panicked = none) (hk : w.goroutines[k]? = some (.close c :: rest))
    (hopen : w.chans[c]? = some false) :
    ∃ w', Step env w w' ∧ w'.goroutines = w.goroutines.set k rest ∧
      w'.chans = w.chans.set c true := by
  have hpan : w.panicked.isSome = false := by rw [hp]; rfl
  refine ⟨{ w with chans := w.chans.set c true, log := w.log ++ [Event.close c],
                   goroutines := w.goroutines.set k rest },
    Step.goroutine k false _ _ ?_, rfl, rfl⟩
  simp [stepGoroutine, hpan, hk, runInstr, closeChan, hopen]

/-- Reachability composes. -/
theorem Reachable.trans (env : Env) (w1 w2 w3 : World) (h12 : Reachable env w1 w2)
    (h23 : Reachable env w2 w3) : Reachable env w1 w3 := by
  induction h23 with
  | refl => exact h12
  | tail w w' _ hs ih => exact Reachable.tail _ _ _ ih hs

/-- One step is a reachability. -/
theorem Reachable.single (env : Env) (w w' : World) (h : Step env w w') : Reachable env w w' :=
  Reachable.tail _ _ _ (Reachable.refl w) h

/-! ### The debounced flush -/

/-- Along every execution the world stays well-formed and the goroutine of the debounced
function stays in one of its phases. -/
theorem flush_invariant (env : Env) (w1 w2 : World) (allDone : Chan) (dones : List Chan)
    (i : Nat) (rest : Goroutine) (hr : Reachable env w1 w2) (hwf : WellFormed w1)
    (hf : FlushPhase allDone dones i rest w1) :
    WellFormed w2 ∧ FlushPhase allDone dones i rest w2 := by
  induction hr with
  | refl => exact ⟨hwf, hf⟩
  | tail w w' _ hs ih =>
    have he := step_effect env w w' hs ih.1
    exact ⟨effect_wellFormed w w' he ih.1, flushPhase_effect w w' he allDone dones i rest ih.2⟩

/-- Along every execution the diagnosis goroutine stays in one of its phases. -/
theorem diag_invariant (env : Env) (w1 w2 : World) (allDone : Chan) (j : Nat)
    (snapshots : List Snapshot) (onDisk : Bool) (hr : Reachable env w1 w2)
    (hwf : WellFormed w1) (hd : DiagPhase allDone j snapshots onDisk w1) :
    DiagPhase allDone j snapshots onDisk w2 := by
  induction hr with
  | refl => exact hd
  | tail w w' hr' hs ih =>
    have hwf' := wellFormed_reachable env w1 w hr' hwf
    exact diagPhase_effect w w' (step_effect env w w' hs hwf') allDone j snapshots onDisk ih

/-- Along every execution a closed channel stays closed. -/
theorem closed_reachable (env : Env) (w1 w2 : World) (c : Chan) (hr : Reachable env w1 w2)
    (hwf : WellFormed w1) (hc : w1.isClosed c = true) : w2.isClosed c = true := by
  induction hr with
  | refl => exact hc
  | tail w w' hr' hs ih =>
    have hwf' := wellFormed_reachable env w1 w hr' hwf
    exact effect_closed_mono w w' (step_effect env w w' hs hwf') c ih

/-- A channel that some goroutine has still to close is not closed. -/
theorem not_closed_of_close_ahead (w : World) (k : Nat) (g : Goroutine) (c : Chan)
    (hwf : WellFormed w) (hk : w.goroutines[k]? = some g) (hc : Instr.close c ∈ g) :
    w.chans[c]? = some false :=
  hwf.2.2 c (mem_closers_of_goroutine w k g c hk hc)

/-- While the goroutine of the debounced function waits on `allDone`, no signal of a batch
is closed; so a closed signal of a batch means `allDone` is closed. -/
theorem flushPhase_safety (w : World) (allDone : Chan) (dones : List Chan) (i : Nat)
    (rest : Goroutine) (hwf : WellFormed w) (hf : FlushPhase allDone dones i rest w)
    (d : Chan) (hd : d ∈ dones) (hc : w.isClosed d = true) : w.isClosed allDone = true := by
  rcases hf with hi | ⟨ha, _⟩
  · have hopen := not_closed_of_close_ahead w i _ d hwf hi
      (List.mem_cons_of_mem _ (List.mem_append_left _ (List.mem_map_of_mem _ hd)))
    rw [isClosed_iff, hopen] at hc
    cases hc
  · exact ha

/-- Once `allDone` is closed the diagnosis goroutine has run all its statements. -/
theorem diagPhase_finished (w : World) (allDone : Chan) (j : Nat) (snapshots : List Snapshot)
    (onDisk : Bool) (hwf : WellFormed w) (hd : DiagPhase allDone j snapshots onDisk w)
    (hc : w.isClosed allDone = true) : w.goroutines[j]? = some [] := by
  obtain ⟨n, hj, _⟩ := hd
  by_cases hn : 3 ≤ n
  · rw [hj]
    congr 1
    apply List.drop_eq_nil_of_le
    simpa [diagnoseGoroutine] using hn
  · have hmem : Instr.close allDone ∈ (diagnoseGoroutine snapshots onDisk allDone).drop n := by
      match n, hn with
      | 0, _ => simp [diagnoseGoroutine]
      | 1, _ => simp [diagnoseGoroutine]
      | 2, _ => simp [diagnoseGoroutine]
      | n + 3, hn => omega
    have hopen := not_closed_of_close_ahead w j _ allDone hwf hj hmem
    rw [isClosed_iff, hopen] at hc
    cases hc

/-- The diagnosis goroutine can always run to its end, which closes `allDone`. -/
theorem diag_completes (env : Env) (allDone : Chan) (j : Nat) (snapshots : List Snapshot)
    (onDisk : Bool) (w : World) (hwf : WellFormed w)
    (hd : DiagPhase allDone j snapshots onDisk w) :
    ∃ w', Reachable env w w' ∧ w'.isClosed allDone = true := by
  have step2 : ∀ w : World, WellFormed w → w.goroutines[j]? = some [Instr.close allDone] →
      ∃ w', Reachable env w w' ∧ w'.isClosed allDone = true := by
    intro w hwf hj
    have hopen := not_closed_of_close_ahead w j _ allDone hwf hj (List.mem_singleton.mpr rfl)
    obtain ⟨w', hs, _, hch⟩ := step_close env w j allDone [] hwf.1 hj hopen
    refine ⟨w', Reachable.single env w w' hs, ?_⟩
    rw [isClosed_iff, hch]
    exact getElem?_set_true_self _ _ hopen
  have step1 : ∀ w : World, WellFormed w →
      w.goroutines[j]? = some [Instr.release snapshots, Instr.close allDone] →
      ∃ w', Reachable env w w' ∧ w'.isClosed allDone = true := by
    intro w hwf hj
    obtain ⟨w', hs, hgs, _⟩ := step_pop env w j _ _ hwf.1 hj (Or.inr (Or.inr ⟨snapshots, rfl⟩))
    have hj' : w'.goroutines[j]? = some [Instr.close allDone] := by
      rw [hgs]; exact getElem?_set_self _ _ _ _ hj
    obtain ⟨w'', hr, hc⟩ := step2 w' (wellFormed_step env w w' hs hwf) hj'
    exact ⟨w'', Reachable.trans env w w' w'' (Reachable.single env w w' hs) hr, hc⟩
  have step0 : ∀ w : World, WellFormed w →
      w.goroutines[j]? = some (diagnoseGoroutine snapshots onDisk allDone) →
      ∃ w', Reachable env w w' ∧ w'.isClosed allDone = true := by
    intro w hwf hj
    obtain ⟨w', hs, hgs, _⟩ := step_pop env w j _ _ hwf.1 hj
      (Or.inr (Or.inl ⟨snapshots, onDisk, rfl⟩))
    have hj' : w'.goroutines[j]? = some [Instr.release snapshots, Instr.close allDone] := by
      rw [hgs]; exact getElem?_set_self _ _ _ _ hj
    obtain ⟨w'', hr, hc⟩ := step1 w' (wellFormed_step env w w' hs hwf) hj'
    exact ⟨w'', Reachable.trans env w w' w'' (Reachable.single env w w' hs) hr, hc⟩
  obtain ⟨n, hj, hclosed⟩ := hd
  match n, hj, hclosed with
  | 0, hj, _ => exact step0 w hwf hj
  | 1, hj, _ => exact step1 w hwf hj
  | 2, hj, _ => exact step2 w hwf hj
  | n + 3, _, hclosed => exact ⟨w, Reachable.refl w, hclosed (by omega)⟩

/-- With `allDone` closed and the first `n` signals closed, goroutine `i` can close the
remaining signals one after the other. -/
theorem closes_complete (env : Env) (dones : List Chan) (i : Nat) (rest : Goroutine) :
    ∀ (t n : Nat) (w : World), t = dones.length - n → WellFormed w →
      w.goroutines[i]? = some ((dones.drop n).map Instr.close ++ rest) →
      (∀ (m : Nat) (d : Chan), m < n → dones[m]? = some d → w.isClosed d = true) →
      ∃ w', Reachable env w w' ∧ ∀ d ∈ dones, w'.isClosed d = true := by
  intro t
  induction t with
  | zero =>
    intro n w ht _ _ hn
    refine ⟨w, Reachable.refl w, fun d hd => ?_⟩
    obtain ⟨m, hm, hmd⟩ := List.getElem_of_mem hd
    exact hn m d (by omega) (by rw [List.getElem?_eq_getElem hm, hmd])
  | succ t ih =>
    intro n w ht hwf hi hn
    have hlt : n < dones.length := by omega
    have hdrop : dones.drop n = dones[n] :: dones.drop (n + 1) := List.drop_eq_getElem_cons hlt
    rw [hdrop] at hi
    simp only [List.map_cons, List.cons_append] at hi
    have hopen := not_closed_of_close_ahead w i _ dones[n] hwf hi (List.mem_cons_self _ _)
    obtain ⟨w', hs, hgs, hch⟩ := step_close env w i dones[n] _ hwf.1 hi hopen
    have hwf' := wellFormed_step env w w' hs hwf
    have hi' : w'.goroutines[i]? = some ((dones.drop (n + 1)).map Instr.close ++ rest) := by
      rw [hgs]; exact getElem?_set_self _ _ _ _ hi
    have hn' : ∀ (m : Nat) (d : Chan), m < n + 1 → dones[m]? = some d →
        w'.isClosed d = true := by
      intro m d hm hd
      rw [isClosed_iff, hch]
      by_cases hmn : m = n
      · subst hmn
        rw [List.getElem?_eq_getElem hlt] at hd
        simp only [Option.some.injEq] at hd
        subst hd
        exact getElem?_set_true_self _ _ hopen
      · exact getElem?_set_true_of_closed _ _ _ ((isClosed_iff w d).mp (hn m d (by omega) hd))
    obtain ⟨w'', hr, hall⟩ := ih (n + 1) w' (by omega) hwf' hi' hn'
    exact ⟨w'', Reachable.trans env w w' w'' (Reachable.single env w w' hs) hr, hall⟩

/-- Once `allDone` is closed, goroutine `i` can go on to close every signal. -/
theorem flush_completes (env : Env) (allDone : Chan) (dones : List Chan) (i : Nat)
    (rest : Goroutine) (w : World) (hwf : WellFormed w)
    (hf : FlushPhase allDone dones i rest w) (ha : w.isClosed allDone = true) :
    ∃ w', Reachable env w w' ∧ ∀ d ∈ dones, w'.isClosed d = true := by
  rcases hf with hi | ⟨_, n, hn, hi | hlen⟩
  · obtain ⟨w', hs, hgs, _⟩ := step_pop env w i _ _ hwf.1 hi (Or.inl ⟨allDone, rfl, ha⟩)
    have hwf' := wellFormed_step env w w' hs hwf
    have hi' : w'.goroutines[i]? = some ((dones.drop 0).map Instr.close ++ rest) := by
      rw [hgs]; exact getElem?_set_self _ _ _ _ hi
    obtain ⟨w'', hr, hall⟩ := closes_complete env dones i rest (dones.length - 0) 0 w' rfl hwf'
      hi' (fun m d hm _ => by omega)
    exact ⟨w'', Reachable.trans env w w' w'' (Reachable.single env w w' hs) hr, hall⟩
  · exact closes_complete env dones i rest (dones.length - n) n w rfl hwf hi hn
  · refine ⟨w, Reachable.refl w, fun d hd => ?_⟩
    obtain ⟨m, hm, hmd⟩ := List.getElem_of_mem hd
    exact hn m d (by omega) (by rw [List.getElem?_eq_getElem hm, hmd])

/-- C9. Let goroutine `i` run the debounced function in a well-formed world `w`
(every world reached from a start world is well-formed), making `allDone` for
the batches pending in `w`. Then, in the world `w1` after that step and in
every world `w2` reached from it by any steps of any goroutines and handlers:
no signal of a pending batch is closed in `w1`; a closed signal of a pending
batch means that `allDone` is closed; `allDone` is closed only if the
combined batch was rejected (it is closed already in `w1`) or the goroutine
that `processModifications` started for the combined batch has run all its
statements (diagnoseSnapshots, release, close); and from `w2` the execution
can always go on to a world in which the signal of every pending batch is
closed. -/
theorem flush_closes_signals_after_allDone (env : Env) (w w1 : World) (i okc : Nat)
    (onDisk : Bool) (rest : Goroutine) (hwf : WellFormed w)
    (hi : w.goroutines[i]? = some (.flush okc onDisk :: rest))
    (hstep : stepGoroutine env i true w = some w1) :
    (∀ d ∈ w.server.pendingOnDiskChanges.map (fun p => p.diagnoseDone), w1.isClosed d = false) ∧
    (w1.isClosed w.chans.length = true ∨
      ∃ snapshots, w1.goroutines[w.goroutines.length]?
        = some (diagnoseGoroutine snapshots onDisk w.chans.length)) ∧
    (∀ w2, Reachable env w1 w2 →
      ∀ d ∈ w.server.pendingOnDiskChanges.map (fun p => p.diagnoseDone),
        w2.isClosed d = true → w2.isClosed w.chans.length = true) ∧
    (∀ w2, Reachable env w1 w2 → w2.isClosed w.chans.length = true →
      w1.isClosed w.chans.length = true ∨ w2.goroutines[w.goroutines.length]? = some []) ∧
    (∀ w2, Reachable env w1 w2 → ∃ w3, Reachable env w2 w3 ∧
      ∀ d ∈ w.server.pendingOnDiskChanges.map (fun p => p.diagnoseDone),
        w3.isClosed d = true) := by
  obtain ⟨b, G, hch, hgs, hG⟩ := stepGoroutine_flush env w w1 i okc onDisk rest hwf.1 hi hstep
  have hwf1 : WellFormed w1 := wellFormed_step env w w1 (Step.goroutine i true w w1 hstep) hwf
  have hi1 : w1.goroutines[i]? = some (Instr.recv w.chans.length ::
      ((w.server.pendingOnDiskChanges.map (fun p => p.diagnoseDone)).map Instr.close
        ++ rest)) := by
    rw [hgs]
    exact getElem?_set_self _ _ _ _ (getElem?_append_frame _ G _ _ hi)
  have hf1 : FlushPhase w.chans.length
      (w.server.pendingOnDiskChanges.map (fun p => p.diagnoseDone)) i rest w1 := Or.inl hi1
  have hopen1 : ∀ d ∈ w.server.pendingOnDiskChanges.map (fun p => p.diagnoseDone),
      w1.isClosed d = false := by
    intro d hd
    have hopen := not_closed_of_close_ahead w1 i _ d hwf1 hi1
      (List.mem_cons_of_mem _ (List.mem_append_left _ (List.mem_map_of_mem _ hd)))
    cases hc : w1.isClosed d with
    | false => rfl
    | true => rw [isClosed_iff, hopen] at hc; cases hc
  have hsafe : ∀ w2, Reachable env w1 w2 →
      ∀ d ∈ w.server.pendingOnDiskChanges.map (fun p => p.diagnoseDone),
        w2.isClosed d = true → w2.isClosed w.chans.length = true := by
    intro w2 hr d hd hc
    obtain ⟨hwf2, hf2⟩ := flush_invariant env w1 w2 _ _ i rest hr hwf1 hf1
    exact flushPhase_safety w2 _ _ i rest hwf2 hf2 d hd hc
  rcases hG with ⟨hb, _⟩ | ⟨hb, snaps, hGe⟩
  · subst hb
    have ha1 : w1.isClosed w.chans.length = true := by
      rw [isClosed_iff, hch]
      simp
    refine ⟨hopen1, Or.inl ha1, hsafe, fun _ _ _ => Or.inl ha1, fun w2 hr => ?_⟩
    obtain ⟨hwf2, hf2⟩ := flush_invariant env w1 w2 _ _ i rest hr hwf1 hf1
    exact flush_completes env _ _ i rest w2 hwf2 hf2
      (closed_reachable env w1 w2 _ hr hwf1 ha1)
  · subst hGe
    have hlt : i < w.goroutines.length := by
      rcases Nat.lt_or_ge i w.goroutines.length with h' | h'
      · exact h'
      · rw [List.getElem?_eq_none h'] at hi; cases hi
    have hj1 : w1.goroutines[w.goroutines.length]?
        = some (diagnoseGoroutine snaps onDisk w.chans.length) := by
      rw [hgs, List.getElem?_set_ne (Nat.ne_of_lt hlt)]
      simp
    have hd1 : DiagPhase w.chans.length w.goroutines.length snaps onDisk w1 :=
      ⟨0, by simpa using hj1, fun h3 => by omega⟩
    refine ⟨hopen1, Or.inr ⟨snaps, hj1⟩, hsafe, fun w2 hr hc => Or.inr ?_, fun w2 hr => ?_⟩
    · exact diagPhase_finished w2 _ _ snaps onDisk
        (wellFormed_reachable env w1 w2 hr hwf1)
        (diag_invariant env w1 w2 _ _ snaps onDisk hr hwf1 hd1) hc
    · have hwf2 := wellFormed_reachable env w1 w2 hr hwf1
      obtain ⟨w2', hr', ha⟩ := diag_completes env _ _ snaps onDisk w2 hwf2
        (diag_invariant env w1 w2 _ _ snaps onDisk hr hwf1 hd1)
      obtain ⟨hwf2', hf2'⟩ := flush_invariant env w1 w2' _ _ i rest
        (Reachable.trans env w1 w2 w2' hr hr') hwf1 hf1
      obtain ⟨w3, hr3, hall⟩ := flush_completes env _ _ i rest w2' hwf2' hf2' ha
      exact ⟨w3, Reachable.trans env w2 w2' w3 hr' hr3, hall⟩

/-- C9 on the two batches of `pendingWorld` (signals 0 and 1), flushed by its
second goroutine into `flushedWorld` with `allDone` 2: the signals are open
after the flush, and in every later world a closed signal means `allDone` is
closed. -/
theorem flush_closes_signals_after_allDone_witness :
    WellFormed pendingWorld ∧
    pendingWorld.goroutines[1]? = some [.flush 1 true] ∧
    stepGoroutine exampleEnv 1 true pendingWorld = some flushedWorld ∧
    pendingWorld.server.pendingOnDiskChanges.map (fun p => p.diagnoseDone) = [0, 1] ∧
    pendingWorld.chans.length = 2 ∧
    (∀ d ∈ [0, 1], flushedWorld.isClosed d = false) ∧
    (∀ w2, Reachable exampleEnv flushedWorld w2 →
      ∀ d ∈ [0, 1], w2.isClosed d = true → w2.isClosed 2 = true) :=
  ⟨by decide, by decide, by decide, by decide, by decide,
    (flush_closes_signals_after_allDone exampleEnv pendingWorld flushedWorld 1 1 true []
      (by decide) (by decide) (by decide)).1,
    (flush_closes_signals_after_allDone exampleEnv pendingWorld flushedWorld 1 1 true []
      (by decide) (by decide) (by decide)).2.2.1⟩

/-! ## Theorems: submissions after shutdown and the source of a batch -/

/-- C20. With no content changes `changedText` returns the error "no content
changes provided" and no text, for every URI and every state of the server,
and leaves the world as it was: no file is looked up or read. Consequently a
`didChange` with no content changes leaves the world as it was too: nothing
is submitted, and for a file URI the error is returned. -/
theorem changedText_empty_rejected (env : Env) (uri : URI) (version : Int) (w : World) :
    changedText env uri [] w = (.err (.internal "no content changes provided"), w) ∧
    (didChange env uri version [] w).2 = w ∧
    (env.isFile uri = true →
      (didChange env uri version [] w).1 = .err (.internal "no content changes provided")) := by
  refine ⟨rfl, ?_, ?_⟩
  · unfold didChange
    cases env.isFile uri <;> simp [changedText]
  · intro hf
    simp [didChange, hf, changedText]

/-- The debounced function in a server that is shut down: the combined batch is rejected,
the error is logged, and `allDone` is closed. -/
theorem flushPending_shut_down (env : Env) (onDisk : Bool) (w : World)
    (hstate : env.serverShutDown ≤ w.server.state) :
    flushPending env onDisk w =
      (.ok (w.chans.length, w.server.pendingOnDiskChanges.map (fun p => p.diagnoseDone)),
        { w with
          server := { w.server with pendingOnDiskChanges := [] }
          chans := w.chans ++ [true]
          log := w.log ++ [.lock .fileChangeMu, .make w.chans.length,
            .processModifications
              (w.server.pendingOnDiskChanges.map (fun p => p.changes)).flatten onDisk
              w.chans.length,
            .lock .stateMu, .unlock .stateMu, .close w.chans.length,
            .eventError "processing delayed file changes" (.new "server is shut down"),
            .unlock .fileChangeMu] }) := by
  have hopen : (w.chans ++ [false])[w.chans.length]? = some false := by simp
  have hpm := processModifications_terminal_eq env
    (w.server.pendingOnDiskChanges.map (fun p => p.changes)).flatten onDisk w.chans.length
    { w with chans := w.chans ++ [false],
             log := w.log ++ [Event.lock .fileChangeMu] ++ [Event.make w.chans.length] }
    hstate hopen
  simp only [flushPending, World.emit, makeChan, collectPending_eq, hpm]
  simp

/-- C11 as stated fails: an on-disk batch submitted with a delay that is not zero
to a server that is shut down returns nil to its caller, not the terminal
error; the batch is queued. -/
theorem didModifyFiles_shut_down_counterexample :
    exampleEnv.serverShutDown ≤ shutDownDebounceWorld.server.state ∧
    (didModifyFiles exampleEnv batchA .FromDidChangeWatchedFiles shutDownDebounceWorld).1
      = .ok () ∧
    (didModifyFiles exampleEnv batchA .FromDidChangeWatchedFiles shutDownDebounceWorld).1
      ≠ .err (.new "server is shut down") ∧
    (didModifyFiles exampleEnv batchA .FromDidChangeWatchedFiles
        shutDownDebounceWorld).2.server.pendingOnDiskChanges
      = [{ diagnoseDone := 0, changes := batchA }] := by
  decide

/-- C11, amended. After the server is shut down, `didModifyFiles` returns the
terminal error "server is shut down" to the submitting caller for every
modification list, for every source other than `FromDidChangeWatchedFiles`
and, for `FromDidChangeWatchedFiles`, when the delay is zero; the completion
signal is closed and the server is unchanged. An on-disk batch submitted with
a delay that is not zero returns nil to its caller and is queued; the
terminal error is met later by the debounced function, which logs it and
closes `allDone`. -/
theorem didModifyFiles_shut_down (env : Env) (modifications : List FileModification)
    (cause : ModificationSource) (w : World) (hstate : env.serverShutDown ≤ w.server.state) :
    ((cause ≠ .FromDidChangeWatchedFiles ∨
        w.server.session.options.experimentalWatchedFileDelay = 0) →
      (didModifyFiles env modifications cause w).1 = .err (.new "server is shut down") ∧
      (didModifyFiles env modifications cause w).2.server = w.server ∧
      (didModifyFiles env modifications cause w).2.chans = w.chans ++ [true]) ∧
    ((cause = .FromDidChangeWatchedFiles ∧
        w.server.session.options.experimentalWatchedFileDelay ≠ 0) →
      (didModifyFiles env modifications cause w).1 = .ok () ∧
      (didModifyFiles env modifications cause w).2.server.pendingOnDiskChanges
        = w.server.pendingOnDiskChanges
            ++ [{ diagnoseDone := w.chans.length, changes := modifications }] ∧
      ∀ w' : World, env.serverShutDown ≤ w'.server.state →
        Event.eventError "processing delayed file changes" (.new "server is shut down")
          ∈ (flushPending env true w').2.log ∧
        (flushPending env true w').2.chans = w'.chans ++ [true]) := by
  constructor
  · intro hcond
    have hc : (!decide (cause = .FromDidChangeWatchedFiles) ||
        w.server.session.options.experimentalWatchedFileDelay == 0) = true := by
      rcases hcond with h | h
      · simp [h]
      · simp [h]
    have hopen : (w.chans ++ [false])[w.chans.length]? = some false := by simp
    cases hv : w.server.session.options.verboseWorkDoneProgress with
    | false =>
      have hpm := processModifications_terminal_eq env modifications
        (decide (cause = .FromDidChangeWatchedFiles)) w.chans.length
        { w with chans := w.chans ++ [false],
                 log := w.log ++ [Event.didModifyFiles modifications cause] ++
                    [Event.make w.chans.length] ++ [Event.lock .fileChangeMu] } hstate hopen
      simp only [didModifyFiles, makeChan, World.emit, World.spawn, hv, hc, if_true,
        Bool.false_eq_true, if_false, hpm]
      simp
    | true =>
      have hpm := processModifications_terminal_eq env modifications
        (decide (cause = .FromDidChangeWatchedFiles)) w.chans.length
        { w with chans := w.chans ++ [false],
                 log := w.log ++ [Event.didModifyFiles modifications cause] ++
                    [Event.make w.chans.length] ++
                    [Event.progressStart (DiagnosticWorkTitle cause)
                      "Calculating file diagnostics..."] ++ [Event.lock .fileChangeMu] }
        hstate hopen
      simp only [didModifyFiles, makeChan, World.emit, World.spawn, hv, hc, if_true, hpm]
      simp
  · rintro ⟨hcause, hdelay⟩
    subst hcause
    obtain ⟨h1, h2, _⟩ := didModifyFiles_debounced env modifications w hdelay
    refine ⟨h1, by rw [h2], fun w' hstate' => ?_⟩
    rw [flushPending_shut_down env true w' hstate']
    simp

/-- C11, amended, on the example server after shutdown: a `didChange` batch gets
the terminal error. -/
theorem didModifyFiles_shut_down_witness :
    exampleEnv.serverShutDown ≤ shutDownWorld.server.state ∧
    (didModifyFiles exampleEnv batchA .FromDidChange shutDownWorld).1
      = .err (.new "server is shut down") :=
  ⟨by decide,
    ((didModifyFiles_shut_down exampleEnv batchA .FromDidChange shutDownWorld (by decide)).1
      (Or.inl (by decide))).1⟩

/-- Run from two worlds that differ in labels only, `processModifications` returns the same
and leaves worlds that differ in labels only. -/
theorem processModifications_withoutLabel (env : Env) (modifications : List FileModification)
    (onDisk : Bool) (d : Chan) (w w' : World) (h : w.withoutLabel = w'.withoutLabel) :
    (processModifications env modifications onDisk d w).1
      = (processModifications env modifications onDisk d w').1 ∧
    (processModifications env modifications onDisk d w).2.withoutLabel
      = (processModifications env modifications onDisk d w').2.withoutLabel := by
  have hs : w.server = w'.server := by
    have := congrArg World.server h; exact this
  have hc : w.chans = w'.chans := by
    have := congrArg World.chans h; exact this
  have ho : w.okcs = w'.okcs := by
    have := congrArg World.okcs h; exact this
  have hp : w.panicked = w'.panicked := by
    have := congrArg World.panicked h; exact this
  have hg : w.goroutines.map (fun g => g.map Instr.withoutLabel)
      = w'.goroutines.map (fun g => g.map Instr.withoutLabel) := by
    have := congrArg World.goroutines h; exact this
  have hl : w.log.map Event.withoutLabel = w'.log.map Event.withoutLabel := by
    have := congrArg World.log h; exact this
  by_cases hstate : env.serverShutDown ≤ w'.server.state
  · rcases hch : w'.chans[d]? with _ | _ | _ <;>
      simp [processModifications, closeChan, World.emit, World.spawn, World.withoutLabel,
        Event.withoutLabel, Instr.withoutLabel, hs, hc, ho, hp, hg, hl, hstate, hch]
  · cases hsess : env.sessionDidModifyFiles w'.server.session
        (env.expandModificationsToDirectories w'.server.session modifications) with
    | error e =>
      rcases hch : w'.chans[d]? with _ | _ | _ <;>
        simp [processModifications, closeChan, World.emit, World.spawn, World.withoutLabel,
          Event.withoutLabel, Instr.withoutLabel, hs, hc, ho, hp, hg, hl, hstate, hch, hsess]
    | ok r =>
      cases hupd : env.updateWatchedDirectories r.2 <;>
        simp [processModifications, closeChan, World.emit, World.spawn, World.withoutLabel,
          Event.withoutLabel, Instr.withoutLabel, hs, hc, ho, hp, hg, hl, hstate, hsess, hupd]

/-- C12 as stated fails: the source decides the `onDisk` flag handed to
`processModifications`, and with a delay that is not zero it decides whether
the batch is applied at once or queued. -/
theorem didModifyFiles_source_counterexample :
    Event.processModifications batchA false 0
      ∈ (didModifyFiles exampleEnv batchA .FromDidChange exampleWorld).2.log ∧
    Event.processModifications batchA true 0
      ∈ (didModifyFiles exampleEnv batchA .FromDidChangeWatchedFiles exampleWorld).2.log ∧
    Event.processModifications batchA false 0
      ∉ (didModifyFiles exampleEnv batchA .FromDidChangeWatchedFiles exampleWorld).2.log ∧
    (didModifyFiles exampleEnv batchA .FromDidChange debounceWorld).2.server.pendingOnDiskChanges
      = [] ∧
    (didModifyFiles exampleEnv batchA .FromDidChangeWatchedFiles
        debounceWorld).2.server.pendingOnDiskChanges
      = [{ diagnoseDone := 0, changes := batchA }] := by
  decide

/-- C12, amended. For any two sources that are both `FromDidChangeWatchedFiles`
or both different from it, `didModifyFiles` returns the same and leaves
worlds that differ in labels only: the same server state and pending batches,
the same channels, and, up to the progress title (and the source recorded at
the entry of `didModifyFiles`), the same goroutines and the same events, in
particular the same call of `processModifications` with the same `onDisk`
flag. -/
theorem didModifyFiles_source_labels_only (env : Env) (modifications : List FileModification)
    (c1 c2 : ModificationSource) (w : World)
    (h : c1 = .FromDidChangeWatchedFiles ↔ c2 = .FromDidChangeWatchedFiles) :
    (didModifyFiles env modifications c1 w).1 = (didModifyFiles env modifications c2 w).1 ∧
    (didModifyFiles env modifications c1 w).2.withoutLabel
      = (didModifyFiles env modifications c2 w).2.withoutLabel := by
  by_cases h1 : c1 = .FromDidChangeWatchedFiles
  · have h2 := h.mp h1
    subst h1 h2
    exact ⟨rfl, rfl⟩
  · have h2 : c2 ≠ .FromDidChangeWatchedFiles := fun h2 => h1 (h.mpr h2)
    cases hv : w.server.session.options.verboseWorkDoneProgress with
    | false =>
      obtain ⟨hr, hw⟩ := processModifications_withoutLabel env modifications false w.chans.length
        { w with chans := w.chans ++ [false],
                 log := w.log ++ [Event.didModifyFiles modifications c1] ++
                    [Event.make w.chans.length] ++ [Event.lock .fileChangeMu] }
        { w with chans := w.chans ++ [false],
                 log := w.log ++ [Event.didModifyFiles modifications c2] ++
                    [Event.make w.chans.length] ++ [Event.lock .fileChangeMu] }
        (by simp [World.withoutLabel, Event.withoutLabel])
      have hsrv := congrArg World.server hw
      have hch := congrArg World.chans hw
      have hok := congrArg World.okcs hw
      have hpn := congrArg World.panicked hw
      have hgs := congrArg World.goroutines hw
      have hlg := congrArg World.log hw
      simp only [World.withoutLabel] at hsrv hch hok hpn hgs hlg
      simp only [didModifyFiles, makeChan, World.emit, hv, h1, h2, decide_False, Bool.not_false,
        Bool.true_or, if_true, Bool.false_eq_true, if_false]
      refine ⟨hr, ?_⟩
      simp only [World.withoutLabel, List.map_append, hsrv, hch, hok, hpn, hgs, hlg]
    | true =>
      obtain ⟨hr, hw⟩ := processModifications_withoutLabel env modifications false w.chans.length
        { w with chans := w.chans ++ [false],
                 log := w.log ++ [Event.didModifyFiles modifications c1] ++
                    [Event.make w.chans.length] ++
                    [Event.progressStart (DiagnosticWorkTitle c1)
                      "Calculating file diagnostics..."] ++ [Event.lock .fileChangeMu] }
        { w with chans := w.chans ++ [false],
                 log := w.log ++ [Event.didModifyFiles modifications c2] ++
                    [Event.make w.chans.length] ++
                    [Event.progressStart (DiagnosticWorkTitle c2)
                      "Calculating file diagnostics..."] ++ [Event.lock .fileChangeMu] }
        (by simp [World.withoutLabel, Event.withoutLabel])
      have hsrv := congrArg World.server hw
      have hch := congrArg World.chans hw
      have hok := congrArg World.okcs hw
      have hpn := congrArg World.panicked hw
      have hgs := congrArg World.goroutines hw
      have hlg := congrArg World.log hw
      simp only [World.withoutLabel] at hsrv hch hok hpn hgs hlg
      simp only [didModifyFiles, makeChan, World.emit, hv, h1, h2, decide_False, Bool.not_false,
        Bool.true_or, if_true]
      refine ⟨hr, ?_⟩
      simp only [World.withoutLabel, World.spawn, List.map_append, hsrv, hch, hok, hpn, hgs, hlg]
      simp [Event.withoutLabel, Instr.withoutLabel]

/-- C12, amended, on a batch submitted once as opened files and once as saved files. -/
theorem didModifyFiles_source_labels_only_witness :
    (ModificationSource.FromDidOpen = .FromDidChangeWatchedFiles
      ↔ ModificationSource.FromDidSave = .FromDidChangeWatchedFiles) ∧
    (didModifyFiles exampleEnv batchA .FromDidOpen exampleWorld).1
      = (didModifyFiles exampleEnv batchA .FromDidSave exampleWorld).1 ∧
    (didModifyFiles exampleEnv batchA .FromDidOpen exampleWorld).2.withoutLabel
      = (didModifyFiles exampleEnv batchA .FromDidSave exampleWorld).2.withoutLabel :=
  ⟨by decide,
    didModifyFiles_source_labels_only exampleEnv batchA .FromDidOpen .FromDidSave exampleWorld
      (by decide)⟩

/-! ## Theorems: notifications and their modifications -/

/-- The loop of `didChangeWatchedFiles` appends, in order, one modification for every
change whose URI is a file. -/
theorem watchedModifications_eq (env : Env) (changes : List FileEvent)
    (modifications : List FileModification) :
    watchedModifications env modifications changes
      = modifications ++ (changes.filter (fun c => env.isFile c.uri)).map watchedModification := by
  unfold watchedModifications
  induction changes generalizing modifications with
  | nil => simp
  | cons c cs ih =>
    rw [List.foldl_cons, ih]
    cases hf : env.isFile c.uri <;> simp [hf, List.filter_cons, watchedModification]

/-- C14 as stated fails: a change whose URI is not a file gets no modification,
so the submitted list is shorter than the list of changes. -/
theorem didChangeWatchedFiles_counterexample :
    mixedChanges.length = 2 ∧
    watchedModifications exampleEnv [] mixedChanges
      = [onDiskModification "file:///a.go" .Create] ∧
    Event.didModifyFiles [onDiskModification "file:///a.go" .Create] .FromDidChangeWatchedFiles
      ∈ (didChangeWatchedFiles exampleEnv mixedChanges exampleWorld).2.log := by
  decide

/-- C14, amended. For every `didChangeWatchedFiles` notification the list
submitted to `didModifyFiles`, with source `FromDidChangeWatchedFiles`,
contains, in the order of the notification's changes, exactly one
modification for every change whose URI is a file, and none for the others;
each has `OnDisk = true`, the change's URI and the action given by
`changeTypeToFileAction`: Created gives Create, Changed gives Change, Deleted
gives Delete, any other change type gives UnknownFileAction. When every URI
is a file there is exactly one modification per change. -/
theorem didChangeWatchedFiles_modifications (env : Env) (changes : List FileEvent)
    (w : World) :
    didChangeWatchedFiles env changes w
      = didModifyFiles env ((changes.filter (fun c => env.isFile c.uri)).map watchedModification)
          .FromDidChangeWatchedFiles w ∧
    (∀ c : FileEvent, (watchedModification c).uri = c.uri ∧
      (watchedModification c).onDisk = true ∧
      (watchedModification c).action = changeTypeToFileAction c.type) ∧
    changeTypeToFileAction FileChangeType.Created = .Create ∧
    changeTypeToFileAction FileChangeType.Changed = .Change ∧
    changeTypeToFileAction FileChangeType.Deleted = .Delete ∧
    (∀ ct : FileChangeType, ct ≠ FileChangeType.Created → ct ≠ FileChangeType.Changed →
      ct ≠ FileChangeType.Deleted → changeTypeToFileAction ct = .UnknownFileAction) ∧
    ((∀ c ∈ changes, env.isFile c.uri = true) →
      (changes.filter (fun c => env.isFile c.uri)).map watchedModification
        = changes.map watchedModification) := by
  refine ⟨?_, fun c => ⟨rfl, rfl, rfl⟩, rfl, rfl, rfl, ?_, ?_⟩
  · unfold didChangeWatchedFiles
    rw [watchedModifications_eq]
    simp
  · intro ct h1 h2 h3
    simp [changeTypeToFileAction, h1, h2, h3]
  · intro hall
    rw [List.filter_eq_self.mpr]
    intro c hc
    simpa using hall c hc

/-- The events of `processModifications` hold no entry of `didModifyFiles`. -/
theorem processModifications_log_no_entry (env : Env) (modifications : List FileModification)
    (onDisk : Bool) (d : Chan) (w : World) :
    ∃ evs : List Event,
      (processModifications env modifications onDisk d w).2.log = w.log ++ evs ∧
      ∀ ev ∈ evs, ev.isDidModifyFiles = false := by
  rcases hc : w.chans[d]? with _ | _ | _
  all_goals
    simp only [processModifications, closeChan, World.emit, World.spawn, hc]
    repeat' split
    all_goals simp [Event.isDidModifyFiles]

/-- The events of `didModifyFiles` start with its entry and hold no other entry. -/
theorem didModifyFiles_log_entry (env : Env) (modifications : List FileModification)
    (cause : ModificationSource) (w : World) :
    ∃ evs : List Event,
      (didModifyFiles env modifications cause w).2.log
        = w.log ++ Event.didModifyFiles modifications cause :: evs ∧
      ∀ ev ∈ evs, ev.isDidModifyFiles = false := by
  by_cases hcond : (!decide (cause = .FromDidChangeWatchedFiles) ||
      w.server.session.options.experimentalWatchedFileDelay == 0) = true
  · cases hv : w.server.session.options.verboseWorkDoneProgress with
    | false =>
      obtain ⟨evs, hlog, hevs⟩ := processModifications_log_no_entry env modifications
        (decide (cause = .FromDidChangeWatchedFiles)) w.chans.length
        { w with chans := w.chans ++ [false],
                 log := w.log ++ [Event.didModifyFiles modifications cause] ++
                    [Event.make w.chans.length] ++ [Event.lock .fileChangeMu] }
      refine ⟨[Event.make w.chans.length, Event.lock .fileChangeMu] ++ evs
        ++ [Event.unlock .fileChangeMu], ?_, ?_⟩
      · simp only [didModifyFiles, makeChan, World.emit, hv, hcond, if_true,
          Bool.false_eq_true, if_false, hlog]
        simp
      · intro ev hev
        simp only [List.mem_append, List.mem_cons, List.mem_singleton, List.not_mem_nil,
          or_false] at hev
        rcases hev with ((hev | hev) | hev) | hev
        · subst hev; rfl
        · subst hev; rfl
        · exact hevs ev hev
        · subst hev; rfl
    | true =>
      obtain ⟨evs, hlog, hevs⟩ := processModifications_log_no_entry env modifications
        (decide (cause = .FromDidChangeWatchedFiles)) w.chans.length
        { w with chans := w.chans ++ [false],
                 log := w.log ++ [Event.didModifyFiles modifications cause] ++
                    [Event.make w.chans.length] ++
                    [Event.progressStart (DiagnosticWorkTitle cause)
                      "Calculating file diagnostics..."] ++ [Event.lock .fileChangeMu] }
      refine ⟨[Event.make w.chans.length, Event.progressStart (DiagnosticWorkTitle cause)
          "Calculating file diagnostics...", Event.lock .fileChangeMu] ++ evs
        ++ [Event.unlock .fileChangeMu,
            Event.go [Instr.recv w.chans.length,
              Instr.workEnd (DiagnosticWorkTitle cause) "Done."]], ?_, ?_⟩
      · simp only [didModifyFiles, makeChan, World.emit, World.spawn, hv, hcond, if_true, hlog]
        simp
      · intro ev hev
        simp only [List.mem_append, List.mem_cons, List.mem_singleton, List.not_mem_nil,
          or_false] at hev
        rcases hev with ((hev | hev | hev) | hev) | hev | hev
        · subst hev; rfl
        · subst hev; rfl
        · subst hev; rfl
        · exact hevs ev hev
        · subst hev; rfl
        · subst hev; rfl
  · have hcond' : (!decide (cause = .FromDidChangeWatchedFiles) ||
        w.server.session.options.experimentalWatchedFileDelay == 0) = false := by
      simpa using hcond
    cases hv : w.server.session.options.verboseWorkDoneProgress with
    | false =>
      simp only [didModifyFiles, makeChan, debounce, World.emit, World.spawn, hv, hcond',
        Bool.false_eq_true, if_false]
      simp [Event.isDidModifyFiles]
    | true =>
      simp only [didModifyFiles, makeChan, debounce, World.emit, World.spawn, hv, hcond',
        Bool.false_eq_true, if_false, if_true]
      simp [Event.isDidModifyFiles]

/-- The events of `warnAboutModifyingGeneratedFiles` hold no entry of `didModifyFiles`. -/
theorem warn_log_no_entry (env : Env) (uri : URI) (w : World) :
    ∃ evs : List Event,
      (warnAboutModifyingGeneratedFiles env uri w).2.log = w.log ++ evs ∧
      ∀ ev ∈ evs, ev.isDidModifyFiles = false := by
  simp only [warnAboutModifyingGeneratedFiles, World.emit]
  repeat' split
  all_goals simp [Event.isDidModifyFiles]

/-- A log that grew by events holding exactly one entry of `didModifyFiles`. -/
theorem entriesSince_single (w w' : World) (before after : List Event) (entry : Event)
    (hlog : w'.log = w.log ++ before ++ entry :: after)
    (hentry : entry.isDidModifyFiles = true)
    (hbefore : ∀ ev ∈ before, ev.isDidModifyFiles = false)
    (hafter : ∀ ev ∈ after, ev.isDidModifyFiles = false) :
    entriesSince w w' = [entry] := by
  unfold entriesSince
  rw [hlog, List.append_assoc, List.drop_left, List.filter_append, List.filter_cons, hentry]
  have h1 : before.filter Event.isDidModifyFiles = [] := by
    rw [List.filter_eq_nil_iff]
    intro ev hev
    simp [hbefore ev hev]
  have h2 : after.filter Event.isDidModifyFiles = [] := by
    rw [List.filter_eq_nil_iff]
    intro ev hev
    simp [hafter ev hev]
  simp [h1, h2]

/-- A `didChange` for a file URI on which `changedText` yields the bytes `text` submits
exactly one modification, whose text is the slice `changedText` returned. -/
theorem didChange_entries (env : Env) (uri : URI) (version : Int)
    (changes : List TextDocumentContentChangeEvent) (w : World) (text : Bytes)
    (hfile : env.isFile uri = true) (hct : (changedText env uri changes w).1 = .ok text) :
    entriesSince w (didChange env uri version changes w).2
      = [Event.didModifyFiles
          [{ uri := uri, action := .Change, onDisk := false, version := version,
             text := changedTextSlice changes text, languageID := "" }] .FromDidChange] := by
  have hworld := changedText_world env uri changes w
  cases hc : changedText env uri changes w with
  | mk r w1 =>
    rw [hc] at hct hworld
    simp only at hct hworld
    subst hct
    obtain ⟨evs, hlog, hevs⟩ := didModifyFiles_log_entry env
      [{ uri := uri, action := .Change, onDisk := false, version := version,
         text := changedTextSlice changes text, languageID := "" }] .FromDidChange w1
    have hpre : ∃ before : List Event, w1.log = w.log ++ before ∧
        ∀ ev ∈ before, ev.isDidModifyFiles = false := by
      rcases hworld with h | h | h
      · exact ⟨[], by rw [h]; simp, by simp⟩
      · exact ⟨[.getFile uri], by rw [h]; rfl, by simp [Event.isDidModifyFiles]⟩
      · exact ⟨[.getFile uri, .read uri], by rw [h]; simp [World.emit],
          by simp [Event.isDidModifyFiles]⟩
    obtain ⟨before, hb, hbefore⟩ := hpre
    have hdc : didChange env uri version changes w
        = didChangeSubmit env uri version (changedTextSlice changes text) w1 := by
      simp [didChange, hfile, hc]
    rw [hdc]
    cases hd : didModifyFiles env
      [{ uri := uri, action := .Change, onDisk := false, version := version,
         text := changedTextSlice changes text, languageID := "" }] .FromDidChange w1 with
    | mk r2 w2 =>
      rw [hd] at hlog
      simp only at hlog
      cases r2 with
      | err e =>
        refine entriesSince_single w _ before evs _ ?_ rfl hbefore hevs
        simp only [didChangeSubmit, hd]
        rw [hlog, hb]
      | panic p =>
        refine entriesSince_single w _ before evs _ ?_ rfl hbefore hevs
        simp only [didChangeSubmit, hd]
        rw [hlog, hb]
      | ok u =>
        obtain ⟨evs', hlog', hevs'⟩ := warn_log_no_entry env uri w2
        refine entriesSince_single w _ before (evs ++ evs') _ ?_ rfl hbefore ?_
        · simp only [didChangeSubmit, hd]
          rw [hlog', hlog, hb]
          simp
        · intro ev hev
          rcases List.mem_append.mp hev with h | h
          · exact hevs ev h
          · exact hevs' ev h

/-- C2 as stated fails: on `"abc\ndef\n"` the range edit deleting all of it
makes `changedText` succeed with the empty text, and its `didChange` submits
a modification with a nil text, while the `didChange` of the whole-document
replacement carrying the empty text submits one with an empty text that is
not nil. -/
theorem changedText_fullReplacement_counterexample :
    (changedText exampleEnv "file:///a.go" [editDeleteAll] exampleWorld).1 = .ok [] ∧
    entriesSince exampleWorld
        (didChange exampleEnv "file:///a.go" 2 [editDeleteAll] exampleWorld).2
      = [Event.didModifyFiles
          [{ uri := "file:///a.go", action := .Change, onDisk := false, version := 2,
             text := none, languageID := "" }] .FromDidChange] ∧
    entriesSince exampleWorld
        (didChange exampleEnv "file:///a.go" 2 [fullReplacement []] exampleWorld).2
      = [Event.didModifyFiles
          [{ uri := "file:///a.go", action := .Change, onDisk := false, version := 2,
             text := some [], languageID := "" }] .FromDidChange] := by
  decide

/-- C2, amended. Whenever `changedText` succeeds with the bytes `T` on a list
of changes, `changedText` on the single whole-document replacement carrying
`T` returns exactly `T`, from any state of the server and without touching
it. For a file URI each of the two `didChange` notifications submits to
`didModifyFiles` exactly once, a list of exactly one modification with action
Change and the notification's version: the one of the given changes carries
the slice `changedText` returned, the one of the replacement carries `T` as
a slice that is not nil. The two texts hold the same bytes; they are the
same slice, and the two modifications equal, when `T` is not empty; when `T`
is empty and every change has a range, the first is nil and the second is
not. -/
theorem changedText_fullReplacement_same_bytes (env : Env) (uri : URI)
    (changes : List TextDocumentContentChangeEvent) (w : World) (T : Bytes)
    (h : (changedText env uri changes w).1 = .ok T) :
    (∀ w' : World, changedText env uri [fullReplacement T] w' = (.ok T, w')) ∧
    (env.isFile uri = true → ∀ (version : Int) (w' : World),
      entriesSince w (didChange env uri version changes w).2
        = [Event.didModifyFiles
            [{ uri := uri, action := .Change, onDisk := false, version := version,
               text := changedTextSlice changes T, languageID := "" }] .FromDidChange] ∧
      entriesSince w' (didChange env uri version [fullReplacement T] w').2
        = [Event.didModifyFiles
            [{ uri := uri, action := .Change, onDisk := false, version := version,
               text := some T, languageID := "" }] .FromDidChange]) ∧
    (changedTextSlice changes T).getD [] = T ∧
    (T ≠ [] → changedTextSlice changes T = some T) ∧
    ((∀ c ∈ changes, c.range ≠ none) → T = [] → changedTextSlice changes T = none) := by
  have hfull : ∀ w' : World, changedText env uri [fullReplacement T] w' = (.ok T, w') :=
    fun w' => by simp [changedText, fullReplacement]
  refine ⟨hfull, fun hfile version w' => ⟨?_, ?_⟩, ?_, fun hT => ?_, fun hrange hT => ?_⟩
  · exact didChange_entries env uri version changes w T hfile h
  · have h2 := didChange_entries env uri version [fullReplacement T] w' T hfile
      (by rw [hfull w'])
    simpa [changedTextSlice, fullReplacement] using h2
  · unfold changedTextSlice bufferBytes
    repeat' split
    all_goals simp_all
  · unfold changedTextSlice bufferBytes
    repeat' split
    all_goals simp_all
  · subst hT
    unfold changedTextSlice bufferBytes
    split
    · rename_i c
      have hc := hrange c (by simp)
      simp [hc]
    · simp

/-- The example of §8 through C2: on `"abc\ndef\n"`, the edit replacing line 0,
characters 0..3 by `"xyz"` yields `"xyz\ndef\n"`, so does the whole-document
replacement carrying that text, and both notifications submit the same
modification. -/
theorem changedText_fullReplacement_same_bytes_witness :
    (changedText exampleEnv "file:///a.go" [editAbc] exampleWorld).1 = .ok xyzdef ∧
    changedText exampleEnv "file:///a.go" [fullReplacement xyzdef] exampleWorld
      = (.ok xyzdef, exampleWorld) ∧
    entriesSince exampleWorld
        (didChange exampleEnv "file:///a.go" 2 [editAbc] exampleWorld).2
      = [Event.didModifyFiles
          [{ uri := "file:///a.go", action := .Change, onDisk := false, version := 2,
             text := some xyzdef, languageID := "" }] .FromDidChange] ∧
    entriesSince exampleWorld
        (didChange exampleEnv "file:///a.go" 2 [fullReplacement xyzdef] exampleWorld).2
      = [Event.didModifyFiles
          [{ uri := "file:///a.go", action := .Change, onDisk := false, version := 2,
             text := some xyzdef, languageID := "" }] .FromDidChange] :=
  ⟨by decide,
    (changedText_fullReplacement_same_bytes exampleEnv "file:///a.go" [editAbc] exampleWorld
      xyzdef (by decide)).1 exampleWorld,
    ((changedText_fullReplacement_same_bytes exampleEnv "file:///a.go" [editAbc] exampleWorld
      xyzdef (by decide)).2.1 (by decide) 2 exampleWorld).1,
    ((changedText_fullReplacement_same_bytes exampleEnv "file:///a.go" [editAbc] exampleWorld
      xyzdef (by decide)).2.1 (by decide) 2 exampleWorld).2⟩

/-- C13 as stated fails: a notification for a document whose URI is not a file
submits nothing; the handler returns nil at once. -/
theorem notification_not_file_counterexample :
    exampleEnv.isFile "untitled:b" = false ∧
    didClose exampleEnv "untitled:b" exampleWorld = (.ok (), exampleWorld) ∧
    entriesSince exampleWorld (didClose exampleEnv "untitled:b" exampleWorld).2 = [] ∧
    entriesSince exampleWorld (didOpen exampleEnv "untitled:b" 1 abcdef "go" exampleWorld).2
      = [] ∧
    entriesSince exampleWorld (didSave exampleEnv "untitled:b" (some abcdef) exampleWorld).2
      = [] ∧
    entriesSince exampleWorld
        (didChange exampleEnv "untitled:b" 2 [fullReplacement xyzdef] exampleWorld).2
      = [] := by
  decide

/-- C13, amended. For a URI that is a file, every `didOpen` (when the session has
a view for the file, or the folder of the file can be added), every
`didChange` (when `changedText` yields a text), every `didSave` and every
`didClose` submits to `didModifyFiles` exactly once, a list of exactly one
modification for the notification's URI, with action Open, Change, Save or
Close and the matching source: that of a `didClose` carries version -1 and
nil text, that of a `didOpen` the notification's version, text and language
id, that of a `didChange` the notification's version and the slice that
`changedText` returned (nil when range edits leave no byte), that of a
`didSave` the text of the notification if it has one. For a URI that is not
a file, every `didOpen`, `didChange`, `didSave` and `didClose` returns nil
and leaves the server and the log as they are: it submits nothing. -/
theorem notification_submits_one_modification (env : Env) (uri : URI) (w : World) :
    (env.isFile uri = true →
      entriesSince w (didClose env uri w).2
        = [Event.didModifyFiles
            [{ uri := uri, action := .Close, onDisk := false, version := -1, text := none,
               languageID := "" }] .FromDidClose] ∧
      (∀ text : Option Bytes, entriesSince w (didSave env uri text w).2
        = [Event.didModifyFiles
            [{ uri := uri, action := .Save, onDisk := false, version := 0, text := text,
               languageID := "" }] .FromDidSave]) ∧
      (∀ (version : Int) (text : Bytes) (languageID : String),
        ((∃ v, env.viewOf w.server.session uri = .ok v) ∨
          (∃ session, env.addFolders w.server.session [folderOf env uri] = .ok session)) →
        entriesSince w (didOpen env uri version text languageID w).2
          = [Event.didModifyFiles
              [{ uri := uri, action := .Open, onDisk := false, version := version,
                 text := some text, languageID := languageID }] .FromDidOpen]) ∧
      (∀ (version : Int) (changes : List TextDocumentContentChangeEvent) (text : Bytes),
        (changedText env uri changes w).1 = .ok text →
        entriesSince w (didChange env uri version changes w).2
          = [Event.didModifyFiles
              [{ uri := uri, action := .Change, onDisk := false, version := version,
                 text := changedTextSlice changes text, languageID := "" }]
              .FromDidChange])) ∧
    (env.isFile uri = false →
      didClose env uri w = (.ok (), w) ∧
      (∀ text : Option Bytes, didSave env uri text w = (.ok (), w)) ∧
      (∀ (version : Int) (text : Bytes) (languageID : String),
        didOpen env uri version text languageID w = (.ok (), w)) ∧
      (∀ (version : Int) (changes : List TextDocumentContentChangeEvent),
        didChange env uri version changes w = (.ok (), w))) := by
  refine ⟨fun hfile => ?_, fun hfile => ?_⟩
  · refine ⟨?_, fun text => ?_, fun version text languageID hview => ?_,
      fun version changes text hct =>
        didChange_entries env uri version changes w text hfile hct⟩
    · obtain ⟨evs, hlog, hevs⟩ := didModifyFiles_log_entry env
        [{ uri := uri, action := .Close, onDisk := false, version := -1, text := none,
           languageID := "" }] .FromDidClose w
      refine entriesSince_single w _ [] evs _ ?_ rfl (by simp) hevs
      simp only [didClose, hfile, Bool.not_true, Bool.false_eq_true, if_false, hlog]
      simp
    · obtain ⟨evs, hlog, hevs⟩ := didModifyFiles_log_entry env
        [{ uri := uri, action := .Save, onDisk := false, version := 0, text := text,
           languageID := "" }] .FromDidSave w
      refine entriesSince_single w _ [] evs _ ?_ rfl (by simp) hevs
      cases text with
      | none =>
        simp only [didSave, hfile, Bool.not_true, Bool.false_eq_true, if_false]
        rw [hlog]; simp
      | some t =>
        simp only [didSave, hfile, Bool.not_true, Bool.false_eq_true, if_false]
        rw [hlog]; simp
    · cases hv : env.viewOf w.server.session uri with
      | ok v =>
        obtain ⟨evs, hlog, hevs⟩ := didModifyFiles_log_entry env
          [{ uri := uri, action := .Open, onDisk := false, version := version,
             text := some text, languageID := languageID }] .FromDidOpen (w.emit (.viewOf uri))
        refine entriesSince_single w _ [Event.viewOf uri] evs _ ?_ rfl
          (by simp [Event.isDidModifyFiles]) hevs
        have hv' : env.viewOf (w.emit (.viewOf uri)).server.session uri = .ok v := hv
        simp only [didOpen, hfile, Bool.not_true, Bool.false_eq_true, if_false, hv']
        rw [hlog]; simp [World.emit]
      | error e =>
        rcases hview with ⟨v, hv2⟩ | ⟨session, hadd⟩
        · rw [hv] at hv2; cases hv2
        · obtain ⟨evs, hlog, hevs⟩ := didModifyFiles_log_entry env
            [{ uri := uri, action := .Open, onDisk := false, version := version,
               text := some text, languageID := languageID }] .FromDidOpen
            { (w.emit (.viewOf uri)).emit (.addFolders [folderOf env uri]) with
              server := { w.server with session := session } }
          refine entriesSince_single w _ [Event.viewOf uri, Event.addFolders [folderOf env uri]]
            evs _ ?_ rfl (by simp [Event.isDidModifyFiles]) hevs
          have hv' : env.viewOf (w.emit (.viewOf uri)).server.session uri = .error e := hv
          have hadd' : env.addFolders
              ((w.emit (.viewOf uri)).emit (.addFolders
                [{ uri := env.uriFromPath (env.dir (env.filename uri)),
                   name := env.base (env.dir (env.filename uri)) }])).server.session
              [{ uri := env.uriFromPath (env.dir (env.filename uri)),
                 name := env.base (env.dir (env.filename uri)) }] = .ok session := hadd
          simp only [didOpen, hfile, Bool.not_true, Bool.false_eq_true, if_false, hv', hadd']
          rw [show ({ (w.emit (.viewOf uri)).emit (.addFolders
                [{ uri := env.uriFromPath (env.dir (env.filename uri)),
                   name := env.base (env.dir (env.filename uri)) }]) with
              server := { ((w.emit (.viewOf uri)).emit (.addFolders
                [{ uri := env.uriFromPath (env.dir (env.filename uri)),
                   name := env.base (env.dir (env.filename uri)) }])).server with
                session := session } } : World)
            = { (w.emit (.viewOf uri)).emit (.addFolders [folderOf env uri]) with
              server := { w.server with session := session } } from rfl]
          rw [hlog]; simp [World.emit]
  · refine ⟨?_, fun text => ?_, fun version text languageID => ?_, fun version changes => ?_⟩
    · simp [didClose, hfile]
    · simp [didSave, hfile]
    · simp [didOpen, hfile]
    · simp [didChange, hfile]

/-- C13, amended, on the example server: a `didClose` of `a.go` submits one
modification, and a `didClose` of a document that is not a file submits
nothing. -/
theorem notification_submits_one_modification_witness :
    exampleEnv.isFile "file:///a.go" = true ∧
    entriesSince exampleWorld (didClose exampleEnv "file:///a.go" exampleWorld).2
      = [Event.didModifyFiles
          [{ uri := "file:///a.go", action := .Close, onDisk := false, version := -1,
             text := none, languageID := "" }] .FromDidClose] ∧
    exampleEnv.isFile "untitled:b" = false ∧
    didClose exampleEnv "untitled:b" exampleWorld = (.ok (), exampleWorld) :=
  ⟨by decide,
    ((notification_submits_one_modification exampleEnv "file:///a.go" exampleWorld).1
      (by decide)).1,
    by decide,
    ((notification_submits_one_modification exampleEnv "untitled:b" exampleWorld).2
      (by decide)).1⟩

/-! ## Theorems: the warning about generated files -/

/-- A call for a URI that was edited before only locks and unlocks `changedFilesMu`. -/
theorem warn_known_uri (env : Env) (uri : URI) (w : World)
    (hmem : uri ∈ w.server.changedFiles) :
    warnAboutModifyingGeneratedFiles env uri w
      = (.ok (), { w with log := w.log ++ [.lock .changedFilesMu, .unlock .changedFilesMu] }) := by
  simp [warnAboutModifyingGeneratedFiles, World.emit, hmem]

/-- A call keeps every entry of `changedFiles` and adds its URI. -/
theorem warn_changedFiles (env : Env) (uri : URI) (w : World) :
    (∀ u ∈ w.server.changedFiles,
      u ∈ (warnAboutModifyingGeneratedFiles env uri w).2.server.changedFiles) ∧
    uri ∈ (warnAboutModifyingGeneratedFiles env uri w).2.server.changedFiles := by
  by_cases hmem : uri ∈ w.server.changedFiles
  · rw [warn_known_uri env uri w hmem]
    exact ⟨fun u hu => hu, hmem⟩
  · simp only [warnAboutModifyingGeneratedFiles, World.emit, hmem, decide_False, Bool.not_false,
      if_true, Bool.false_eq_true, if_false]
    repeat' split
    all_goals simp_all

/-- A sequence of calls keeps every entry of `changedFiles`. -/
theorem warnAll_changedFiles (env : Env) (uris : List URI) (w : World) :
    ∀ u ∈ w.server.changedFiles, u ∈ (warnAll env uris w).server.changedFiles := by
  induction uris generalizing w with
  | nil => intro u hu; exact hu
  | cons x xs ih =>
    intro u hu
    simp only [warnAll, List.foldl_cons]
    exact ih _ u ((warn_changedFiles env x w).1 u hu)

/-- The events of one call: a message is shown at most once, and only for a URI not edited
before, with a view, whose file is generated. -/
theorem warn_showMessage (env : Env) (uri : URI) (w : World) :
    ∃ evs : List Event,
      (warnAboutModifyingGeneratedFiles env uri w).2.log = w.log ++ evs ∧
      (evs.filter Event.isShowMessage).length ≤ 1 ∧
      (∀ ev ∈ evs, ev.isShowMessage = true →
        uri ∉ w.server.changedFiles ∧
        ∃ v, env.viewOf w.server.session uri = .ok v ∧ env.isGenerated v.snapshot uri = true) := by
  by_cases hmem : uri ∈ w.server.changedFiles
  · rw [warn_known_uri env uri w hmem]
    exact ⟨_, rfl, by simp [Event.isShowMessage], by simp [Event.isShowMessage]⟩
  · cases hv : env.viewOf w.server.session uri with
    | error e =>
      refine ⟨[.lock .changedFilesMu, .unlock .changedFilesMu, .viewOf uri], ?_,
        by simp [Event.isShowMessage], by simp [Event.isShowMessage]⟩
      simp [warnAboutModifyingGeneratedFiles, World.emit, hmem, hv]
    | ok v =>
      cases hg : env.isGenerated v.snapshot uri with
      | false =>
        refine ⟨[.lock .changedFilesMu, .unlock .changedFilesMu, .viewOf uri,
          .release [v.snapshot]], ?_, by simp [Event.isShowMessage],
          by simp [Event.isShowMessage]⟩
        simp [warnAboutModifyingGeneratedFiles, World.emit, hmem, hv, hg]
      | true =>
        refine ⟨[.lock .changedFilesMu, .unlock .changedFilesMu, .viewOf uri,
          .release [v.snapshot],
          .showMessage ("Do not edit this file! " ++ env.filename uri
            ++ " is a generated file.")], ?_, by simp [Event.isShowMessage], ?_⟩
        · simp only [warnAboutModifyingGeneratedFiles, World.emit, hmem, decide_False,
            Bool.not_false, if_true, Bool.false_eq_true, if_false, hv, hg, Bool.not_true]
          cases env.showMessage ("Do not edit this file! " ++ env.filename uri
            ++ " is a generated file.") <;> simp
        · intro ev _ _
          exact ⟨hmem, v, rfl, hg⟩

/-- C16. The warning is shown only when a generated file is edited for the first
time. One call of `warnAboutModifyingGeneratedFiles` invokes `ShowMessage` at
most once, and only if the URI was not edited before, has a view and its file
is generated; after it the URI is in `changedFiles`; through any further
calls, for any URIs, `changedFiles` never loses an entry; and every later
call for the same URI returns nil having only locked and unlocked
`changedFilesMu`: no view is consulted and no message is shown. -/
theorem warn_only_on_first_edit (env : Env) (uri : URI) (between : List URI) (w : World) :
    (∃ evs : List Event,
      (warnAboutModifyingGeneratedFiles env uri w).2.log = w.log ++ evs ∧
      (evs.filter Event.isShowMessage).length ≤ 1 ∧
      (∀ ev ∈ evs, ev.isShowMessage = true →
        uri ∉ w.server.changedFiles ∧
        ∃ v, env.viewOf w.server.session uri = .ok v ∧
          env.isGenerated v.snapshot uri = true)) ∧
    uri ∈ (warnAboutModifyingGeneratedFiles env uri w).2.server.changedFiles ∧
    (∀ (uris : List URI) (w0 : World), ∀ u ∈ w0.server.changedFiles,
      u ∈ (warnAll env uris w0).server.changedFiles) ∧
    warnAboutModifyingGeneratedFiles env uri
        (warnAll env between (warnAboutModifyingGeneratedFiles env uri w).2)
      = (.ok (),
          { warnAll env between (warnAboutModifyingGeneratedFiles env uri w).2 with
            log := (warnAll env between (warnAboutModifyingGeneratedFiles env uri w).2).log
              ++ [.lock .changedFilesMu, .unlock .changedFilesMu] }) := by
  refine ⟨warn_showMessage env uri w, (warn_changedFiles env uri w).2,
    fun uris w0 => warnAll_changedFiles env uris w0, ?_⟩
  exact warn_known_uri env uri _
    (warnAll_changedFiles env between _ uri (warn_changedFiles env uri w).2)

/-! ## Theorems: the log of closes -/

/-- Nothing logged, nothing closed. -/
theorem loggedCloses_refl (w : World) : LoggedCloses w w :=
  ⟨[], by simp, fun c => by simp⟩

/-- The closes logged over two stretches of an execution add up. -/
theorem loggedCloses_trans (w1 w2 w3 : World) (h12 : LoggedCloses w1 w2)
    (h23 : LoggedCloses w2 w3) : LoggedCloses w1 w3 := by
  obtain ⟨e1, hl1, hc1⟩ := h12
  obtain ⟨e2, hl2, hc2⟩ := h23
  refine ⟨e1 ++ e2, by rw [hl2, hl1, List.append_assoc], fun c => ?_⟩
  have h1 := hc1 c
  have h2 := hc2 c
  rw [List.count_append]
  omega

/-- Events other than closes, with the channels left as they are. -/
theorem loggedCloses_of_same (w w' : World)
    (hlog : ∃ evs, w'.log = w.log ++ evs ∧ ∀ c, Event.close c ∉ evs)
    (hch : w'.chans = w.chans) : LoggedCloses w w' := by
  obtain ⟨evs, hlog, hev⟩ := hlog
  exact ⟨evs, hlog, fun c => by rw [hch, List.count_eq_zero_of_not_mem (hev c)]; simp⟩

/-- Events other than closes, with one new open channel. -/
theorem loggedCloses_make (w w' : World)
    (hlog : ∃ evs, w'.log = w.log ++ evs ∧ ∀ c, Event.close c ∉ evs)
    (hch : w'.chans = w.chans ++ [false]) :
    LoggedCloses w w' := by
  obtain ⟨evs, hlog, hev⟩ := hlog
  refine ⟨evs, hlog, fun c => ?_⟩
  rw [hch, List.count_eq_zero_of_not_mem (hev c)]
  by_cases hlt : c < w.chans.length
  · rw [List.getElem?_append_left hlt]; simp
  · have hle : w.chans.length ≤ c := Nat.le_of_not_lt hlt
    have h1 : w.chans[c]? = none := List.getElem?_eq_none hle
    have h2 : (w.chans ++ [false])[c]? ≠ some true := by
      rw [List.getElem?_append_right hle]
      intro h
      cases hk : c - w.chans.length with
      | zero => rw [hk] at h; simp at h
      | succ k => rw [hk] at h; simp at h
    simp [h1, h2]

/-- Events holding one close, of an open channel that is closed by them. -/
theorem loggedCloses_close (w w' : World) (d : Chan)
    (hopen : w.chans[d]? = some false)
    (hlog : ∃ evs, w'.log = w.log ++ evs ∧
      ∀ c, evs.count (Event.close c) = if d = c then 1 else 0)
    (hch : w'.chans = w.chans.set d true) :
    LoggedCloses w w' := by
  obtain ⟨evs, hlog, hev⟩ := hlog
  refine ⟨_, hlog, fun c => ?_⟩
  rw [hch, hev c]
  by_cases hcd : d = c
  · subst hcd
    rw [getElem?_set_true_self _ _ hopen, hopen]
    simp
  · have h1 : (w.chans.set d true)[c]? = w.chans[c]? := by
      rw [List.getElem?_set_ne hcd]
    rw [h1]
    simp [hcd]

/-- The log of `processModifications` holds a close of the signal exactly when the call
closes it. -/
theorem processModifications_loggedCloses (env : Env) (modifications : List FileModification)
    (onDisk : Bool) (d : Chan) (w : World) :
    LoggedCloses w (processModifications env modifications onDisk d w).2 := by
  rcases hc : w.chans[d]? with _ | _ | _
  all_goals
    simp only [processModifications, closeChan, World.emit, World.spawn, hc]
    repeat' split
  all_goals
    first
    | exact loggedCloses_of_same _ _ (by simp) rfl
    | exact loggedCloses_close _ _ d hc (by simp [List.count_cons]) rfl

/-- Only the log and the channels matter. -/
theorem loggedCloses_congr (w w1 w' : World) (h : LoggedCloses w w1) (hlog : w'.log = w1.log)
    (hch : w'.chans = w1.chans) : LoggedCloses w w' := by
  obtain ⟨evs, hl, hc⟩ := h
  exact ⟨evs, by rw [hlog, hl], fun c => by rw [hch]; exact hc c⟩

/-- The log of the debounced function holds a close exactly for what it closes. -/
theorem flushPending_loggedCloses (env : Env) (onDisk : Bool) (w : World) :
    LoggedCloses w (flushPending env onDisk w).2 := by
  have h0 : LoggedCloses w
      { w with chans := w.chans ++ [false],
               log := w.log ++ [Event.lock .fileChangeMu] ++ [Event.make w.chans.length] } :=
    loggedCloses_make _ _ (by simp) rfl
  have h1 := processModifications_loggedCloses env
    (w.server.pendingOnDiskChanges.map (fun p => p.changes)).flatten onDisk w.chans.length
    { w with chans := w.chans ++ [false],
             log := w.log ++ [Event.lock .fileChangeMu] ++ [Event.make w.chans.length] }
  have h01 := loggedCloses_trans _ _ _ h0 h1
  simp only [flushPending, World.emit, makeChan, collectPending_eq]
  cases hpm : processModifications env
    (w.server.pendingOnDiskChanges.map (fun p => p.changes)).flatten onDisk w.chans.length
    { w with chans := w.chans ++ [false],
             log := w.log ++ [Event.lock .fileChangeMu] ++ [Event.make w.chans.length] } with
  | mk r w2 =>
    rw [hpm] at h01
    simp only at h01
    cases r with
    | panic p => exact h01
    | ok u =>
      exact loggedCloses_trans _ _ _ h01 (loggedCloses_of_same _ _ (by simp) rfl)
    | err e =>
      exact loggedCloses_trans _ _ _ h01 (loggedCloses_of_same _ _ (by simp) rfl)

/-- The log of `didModifyFiles` holds a close exactly for what it closes. -/
theorem didModifyFiles_loggedCloses (env : Env) (modifications : List FileModification)
    (cause : ModificationSource) (w : World) :
    LoggedCloses w (didModifyFiles env modifications cause w).2 := by
  by_cases hcond : (!decide (cause = .FromDidChangeWatchedFiles) ||
      w.server.session.options.experimentalWatchedFileDelay == 0) = true
  · cases hv : w.server.session.options.verboseWorkDoneProgress with
    | false =>
      have h0 : LoggedCloses w
          { w with chans := w.chans ++ [false],
                   log := w.log ++ [Event.didModifyFiles modifications cause] ++
                      [Event.make w.chans.length] ++ [Event.lock .fileChangeMu] } :=
        loggedCloses_make _ _ (by simp) rfl
      have h1 := processModifications_loggedCloses env modifications
        (decide (cause = .FromDidChangeWatchedFiles)) w.chans.length
        { w with chans := w.chans ++ [false],
                 log := w.log ++ [Event.didModifyFiles modifications cause] ++
                    [Event.make w.chans.length] ++ [Event.lock .fileChangeMu] }
      have h01 := loggedCloses_trans _ _ _ h0 h1
      simp only [didModifyFiles, makeChan, World.emit, hv, hcond, if_true,
        Bool.false_eq_true, if_false]
      exact loggedCloses_trans _ _ _ h01 (loggedCloses_of_same _ _ (by simp) rfl)
    | true =>
      have h0 : LoggedCloses w
          { w with chans := w.chans ++ [false],
                   log := w.log ++ [Event.didModifyFiles modifications cause] ++
                      [Event.make w.chans.length] ++
                      [Event.progressStart (DiagnosticWorkTitle cause)
                        "Calculating file diagnostics..."] ++ [Event.lock .fileChangeMu] } :=
        loggedCloses_make _ _ (by simp) rfl
      have h1 := processModifications_loggedCloses env modifications
        (decide (cause = .FromDidChangeWatchedFiles)) w.chans.length
        { w with chans := w.chans ++ [false],
                 log := w.log ++ [Event.didModifyFiles modifications cause] ++
                    [Event.make w.chans.length] ++
                    [Event.progressStart (DiagnosticWorkTitle cause)
                      "Calculating file diagnostics..."] ++ [Event.lock .fileChangeMu] }
      have h01 := loggedCloses_trans _ _ _ h0 h1
      simp only [didModifyFiles, makeChan, World.emit, World.spawn, hv, hcond, if_true]
      exact loggedCloses_trans _ _ _ h01 (loggedCloses_of_same _ _ (by simp) rfl)
  · have hcond' : (!decide (cause = .FromDidChangeWatchedFiles) ||
        w.server.session.options.experimentalWatchedFileDelay == 0) = false := by
      simpa using hcond
    cases hv : w.server.session.options.verboseWorkDoneProgress with
    | false =>
      simp only [didModifyFiles, makeChan, debounce, World.emit, World.spawn, hv, hcond',
        Bool.false_eq_true, if_false]
      exact loggedCloses_make _ _ (by simp) rfl
    | true =>
      simp only [didModifyFiles, makeChan, debounce, World.emit, World.spawn, hv, hcond',
        Bool.false_eq_true, if_false, if_true]
      exact loggedCloses_make _ _ (by simp) rfl

/-- The log of one statement of a goroutine holds a close exactly for what it closes. -/
theorem runInstr_loggedCloses (env : Env) (ins : Instr) (answer : Bool) (rest g : Goroutine)
    (w w' : World) (h : runInstr env ins answer rest w = some (g, w')) : LoggedCloses w w' := by
  cases ins with
  | recv c =>
    simp only [runInstr] at h
    split at h
    · cases h; exact loggedCloses_refl w
    · cases h
  | close c =>
    simp only [runInstr, closeChan] at h
    rcases hc : w.chans[c]? with _ | _ | _
    all_goals
      rw [hc] at h
      simp only [Option.some.injEq, Prod.mk.injEq] at h
      obtain ⟨_, h⟩ := h
      subst h
    · exact loggedCloses_of_same _ _ (by simp) rfl
    · exact loggedCloses_close _ _ c hc (by simp [List.count_cons]) rfl
    · exact loggedCloses_of_same _ _ (by simp) rfl
  | workEnd title msg =>
    simp only [runInstr, World.emit, Option.some.injEq, Prod.mk.injEq] at h
    obtain ⟨_, h⟩ := h
    subst h
    exact loggedCloses_of_same _ _ (by simp) rfl
  | diagnoseSnapshots snapshots onDisk =>
    simp only [runInstr, World.emit, Option.some.injEq, Prod.mk.injEq] at h
    obtain ⟨_, h⟩ := h
    subst h
    exact loggedCloses_of_same _ _ (by simp) rfl
  | release snapshots =>
    simp only [runInstr, World.emit, Option.some.injEq, Prod.mk.injEq] at h
    obtain ⟨_, h⟩ := h
    subst h
    exact loggedCloses_of_same _ _ (by simp) rfl
  | flush okc onDisk =>
    have h0 : LoggedCloses w (w.emit (.okAnswer okc answer)) :=
      loggedCloses_of_same _ _ (by simp [World.emit]) rfl
    have h1 := flushPending_loggedCloses env onDisk (w.emit (.okAnswer okc answer))
    have h01 := loggedCloses_trans _ _ _ h0 h1
    simp only [runInstr] at h
    cases answer with
    | false =>
      simp only [Bool.not_false, if_true, Option.some.injEq, Prod.mk.injEq] at h
      obtain ⟨_, h⟩ := h
      subst h
      exact h0
    | true =>
      simp only [Bool.not_true, Bool.false_eq_true, if_false] at h
      cases hf : flushPending env onDisk (w.emit (.okAnswer okc true)) with
      | mk r wf =>
        rw [hf] at h h01
        simp only at h01
        cases r with
        | ok v =>
          obtain ⟨allDone, dones⟩ := v
          simp only [Option.some.injEq, Prod.mk.injEq] at h
          obtain ⟨_, h⟩ := h
          subst h
          exact h01
        | err e =>
          simp only [Option.some.injEq, Prod.mk.injEq] at h
          obtain ⟨_, h⟩ := h
          subst h
          exact h01
        | panic p =>
          simp only [Option.some.injEq, Prod.mk.injEq] at h
          obtain ⟨_, h⟩ := h
          subst h
          exact loggedCloses_congr _ _ _ h01 rfl rfl

/-- The log of one step holds a close exactly for what the step closes. -/
theorem step_loggedCloses (env : Env) (w w' : World) (hstep : Step env w w') :
    LoggedCloses w w' := by
  cases hstep with
  | goroutine i answer _ _ h =>
    unfold stepGoroutine at h
    split at h
    · cases h
    · cases hg : w.goroutines[i]? with
      | none => rw [hg] at h; cases h
      | some g =>
        rw [hg] at h
        cases g with
        | nil => cases h
        | cons ins rest =>
          simp only at h
          cases hr : runInstr env ins answer rest w with
          | none => rw [hr] at h; cases h
          | some v =>
            obtain ⟨g', w1⟩ := v
            rw [hr] at h
            simp only [Option.some.injEq] at h
            subst h
            exact loggedCloses_congr _ _ _ (runInstr_loggedCloses env ins answer rest g' w w1 hr)
              rfl rfl
  | submit modifications cause _ hp =>
    have h := didModifyFiles_loggedCloses env modifications cause w
    cases hd : didModifyFiles env modifications cause w with
    | mk r w1 =>
      rw [hd] at h
      cases r <;> exact loggedCloses_congr _ _ _ h rfl rfl
  | outside _ state session changedFiles =>
    exact loggedCloses_of_same _ _ ⟨[], by simp, by simp⟩ rfl

/-- Along every execution the log grows, and holds a close exactly for what was closed. -/
theorem reachable_loggedCloses (env : Env) (w w' : World) (hr : Reachable env w w') :
    LoggedCloses w w' := by
  induction hr with
  | refl => exact loggedCloses_refl w
  | tail w1 w2 _ hs ih => exact loggedCloses_trans _ _ _ ih (step_loggedCloses env w1 w2 hs)

/-! ## Theorems: the diagnosis goroutine and the log -/

/-- A statement of a goroutine starts goroutines at the end of the list, if any. -/
theorem runInstr_goroutines (env : Env) (ins : Instr) (answer : Bool) (rest g : Goroutine)
    (w w' : World) (h : runInstr env ins answer rest w = some (g, w')) :
    ∃ G, w'.goroutines = w.goroutines ++ G := by
  cases ins with
  | recv c =>
    simp only [runInstr] at h
    split at h
    · cases h; exact ⟨[], by simp⟩
    · cases h
  | close c =>
    simp only [runInstr, closeChan] at h
    rcases hc : w.chans[c]? with _ | _ | _
    all_goals
      rw [hc] at h
      simp only [Option.some.injEq, Prod.mk.injEq] at h
      obtain ⟨_, h⟩ := h
      subst h
      exact ⟨[], by simp⟩
  | workEnd title msg =>
    simp only [runInstr, World.emit, Option.some.injEq, Prod.mk.injEq] at h
    obtain ⟨_, h⟩ := h
    subst h
    exact ⟨[], by simp⟩
  | diagnoseSnapshots snapshots onDisk =>
    simp only [runInstr, World.emit, Option.some.injEq, Prod.mk.injEq] at h
    obtain ⟨_, h⟩ := h
    subst h
    exact ⟨[], by simp⟩
  | release snapshots =>
    simp only [runInstr, World.emit, Option.some.injEq, Prod.mk.injEq] at h
    obtain ⟨_, h⟩ := h
    subst h
    exact ⟨[], by simp⟩
  | flush okc onDisk =>
    simp only [runInstr] at h
    cases answer with
    | false =>
      simp only [Bool.not_false, if_true, Option.some.injEq, Prod.mk.injEq, World.emit] at h
      obtain ⟨_, h⟩ := h
      subst h
      exact ⟨[], by simp⟩
    | true =>
      simp only [Bool.not_true, Bool.false_eq_true, if_false] at h
      obtain ⟨_, _, _, h4⟩ := flushPending_effect env onDisk (w.emit (.okAnswer okc true))
      have hG : ∃ G, (flushPending env onDisk (w.emit (.okAnswer okc true))).2.goroutines
          = w.goroutines ++ G := by
        rcases h4 with ⟨_, hgs⟩ | ⟨_, snaps, hgs⟩
        · exact ⟨[], by rw [hgs]; simp [World.emit]⟩
        · exact ⟨_, by rw [hgs]; rfl⟩
      cases hf : flushPending env onDisk (w.emit (.okAnswer okc true)) with
      | mk r wf =>
        rw [hf] at h hG
        simp only at hG
        cases r with
        | ok v =>
          obtain ⟨allDone, dones⟩ := v
          simp only [Option.some.injEq, Prod.mk.injEq] at h
          obtain ⟨_, h⟩ := h
          subst h
          exact hG
        | err e =>
          simp only [Option.some.injEq, Prod.mk.injEq] at h
          obtain ⟨_, h⟩ := h
          subst h
          exact hG
        | panic p =>
          simp only [Option.some.injEq, Prod.mk.injEq] at h
          obtain ⟨_, h⟩ := h
          subst h
          exact hG

/-- A step of goroutine `i` leaves the statements of every other goroutine as they are. -/
theorem stepGoroutine_other (env : Env) (i j : Nat) (answer : Bool) (w w' : World)
    (gj : Goroutine) (h : stepGoroutine env i answer w = some w') (hne : i ≠ j)
    (hj : w.goroutines[j]? = some gj) : w'.goroutines[j]? = some gj := by
  unfold stepGoroutine at h
  split at h
  · cases h
  · cases hg : w.goroutines[i]? with
    | none => rw [hg] at h; cases h
    | some g =>
      rw [hg] at h
      cases g with
      | nil => cases h
      | cons ins rest =>
        simp only at h
        cases hr : runInstr env ins answer rest w with
        | none => rw [hr] at h; cases h
        | some v =>
          obtain ⟨g', w1⟩ := v
          rw [hr] at h
          simp only [Option.some.injEq] at h
          subst h
          obtain ⟨G, hG⟩ := runInstr_goroutines env ins answer rest g' w w1 hr
          simp only [hG]
          exact getElem?_set_append_frame _ _ _ _ _ _ hne hj

/-- A step of the diagnosis goroutine runs its next statement and logs the event of that
statement, and nothing else. -/
theorem stepGoroutine_diagnose (env : Env) (j : Nat) (answer : Bool) (w w' : World)
    (snapshots : List Snapshot) (onDisk : Bool) (d : Chan) (n : Nat) (hwf : WellFormed w)
    (hj : w.goroutines[j]? = some ((diagnoseGoroutine snapshots onDisk d).drop n))
    (h : stepGoroutine env j answer w = some w') :
    n < 3 ∧ w'.goroutines[j]? = some ((diagnoseGoroutine snapshots onDisk d).drop (n + 1)) ∧
      w'.log = w.log ++ ((diagnoseEvents snapshots onDisk d).drop n).take 1 := by
  unfold stepGoroutine at h
  have hpan : w.panicked.isSome = false := by rw [hwf.1]; rfl
  rw [hpan, hj] at h
  simp only [Bool.false_eq_true, if_false] at h
  match n, hj, h with
  | 0, hj, h =>
    simp only [diagnoseGoroutine, List.drop, runInstr, World.emit, Option.some.injEq] at h
    subst h
    exact ⟨by omega, getElem?_set_self _ _ _ _ hj, rfl⟩
  | 1, hj, h =>
    simp only [diagnoseGoroutine, List.drop, runInstr, World.emit, Option.some.injEq] at h
    subst h
    exact ⟨by omega, getElem?_set_self _ _ _ _ hj, rfl⟩
  | 2, hj, h =>
    have hopen := not_closed_of_close_ahead w j _ d hwf hj (by simp [diagnoseGoroutine])
    simp only [diagnoseGoroutine, List.drop, runInstr, closeChan, hopen,
      Option.some.injEq] at h
    subst h
    exact ⟨by omega, getElem?_set_self _ _ _ _ hj, rfl⟩
  | n + 3, hj, h =>
    simp [diagnoseGoroutine] at h

/-- What a step does to the diagnosis goroutine: nothing, or it runs its next statement
and logs the event of that statement, and nothing else. -/
theorem step_diagnose (env : Env) (w w' : World) (j : Nat) (snapshots : List Snapshot)
    (onDisk : Bool) (d : Chan) (n : Nat) (hs : Step env w w') (hwf : WellFormed w)
    (hj : w.goroutines[j]? = some ((diagnoseGoroutine snapshots onDisk d).drop n)) :
    w'.goroutines[j]? = some ((diagnoseGoroutine snapshots onDisk d).drop n) ∨
    (n < 3 ∧ w'.goroutines[j]? = some ((diagnoseGoroutine snapshots onDisk d).drop (n + 1)) ∧
      w'.log = w.log ++ ((diagnoseEvents snapshots onDisk d).drop n).take 1) := by
  cases hs with
  | goroutine i answer _ _ h =>
    by_cases hij : i = j
    · subst hij
      exact Or.inr (stepGoroutine_diagnose env i answer w w' snapshots onDisk d n hwf hj h)
    · exact Or.inl (stepGoroutine_other env i j answer w w' _ h hij hj)
  | submit modifications cause _ hp =>
    left
    obtain ⟨_, _, G, _, hG⟩ := didModifyFiles_effect env modifications cause w
    have hgs : ∃ G', (didModifyFiles env modifications cause w).2.goroutines
        = w.goroutines ++ G' := by
      rcases hG with ⟨_, h, _⟩ | ⟨_, ⟨s, o, h⟩, _⟩ | ⟨_, h, _⟩
      · exact ⟨_, h⟩
      · exact ⟨_, h⟩
      · exact ⟨_, h⟩
    obtain ⟨G', hG'⟩ := hgs
    cases hd : didModifyFiles env modifications cause w with
    | mk r w1 =>
      rw [hd] at hG'
      simp only at hG'
      cases r <;> simp only [hG'] <;> exact getElem?_append_frame _ _ _ _ hj
  | outside _ state session changedFiles => exact Or.inl hj

/-- A step keeps the trace of the diagnosis goroutine. -/
theorem diagTrace_step (env : Env) (w w' : World) (d : Chan) (j : Nat)
    (snapshots : List Snapshot) (onDisk : Bool) (base : List Event) (hs : Step env w w')
    (hwf : WellFormed w) (ht : DiagTrace d j snapshots onDisk base w) :
    DiagTrace d j snapshots onDisk base w' := by
  have hwf' := wellFormed_step env w w' hs hwf
  obtain ⟨n, evs, hj, hlog, hsub, hcount, hclosed⟩ := ht
  obtain ⟨evs', hlog', hc'⟩ := step_loggedCloses env w w' hs
  have hcd := hc' d
  rcases step_diagnose env w w' j snapshots onDisk d n hs hwf hj with hj' | ⟨hn, hj', hown⟩
  · -- another goroutine, a handler or outside code took the step
    have hsame : w'.isClosed d = w.isClosed d := by
      by_cases hn : 3 ≤ n
      · have h1 := hclosed.mpr hn
        have h2 := effect_closed_mono w w' (step_effect env w w' hs hwf) d h1
        rw [h1, h2]
      · have hmem : Instr.close d ∈ (diagnoseGoroutine snapshots onDisk d).drop n := by
          match n, hn with
          | 0, _ => simp [diagnoseGoroutine]
          | 1, _ => simp [diagnoseGoroutine]
          | 2, _ => simp [diagnoseGoroutine]
          | n + 3, hn => omega
        have h1 := not_closed_of_close_ahead w j _ d hwf hj hmem
        have h2 := not_closed_of_close_ahead w' j _ d hwf' hj' hmem
        simp [World.isClosed, List.getD, h1, h2]
    have hzero : evs'.count (Event.close d) = 0 := by
      by_cases h1 : w.chans[d]? = some true
      · have h2 : w'.chans[d]? = some true := by
          rw [← isClosed_iff, hsame, isClosed_iff]; exact h1
        rw [if_pos h1, if_pos h2] at hcd
        omega
      · have h2 : ¬ w'.chans[d]? = some true := by
          rw [← isClosed_iff, hsame, isClosed_iff]; exact h1
        rw [if_neg h1, if_neg h2] at hcd
        omega
    refine ⟨n, evs ++ evs', hj', by rw [hlog', hlog, List.append_assoc],
      hsub.trans (List.sublist_append_left _ _), ?_, by rw [hsame]; exact hclosed⟩
    rw [List.count_append, hzero, hcount]
    rfl
  · -- the diagnosis goroutine ran its next statement
    have hevs' : evs' = ((diagnoseEvents snapshots onDisk d).drop n).take 1 :=
      List.append_cancel_left (hlog'.symm.trans hown)
    have hopen : w.chans[d]? ≠ some true := by
      intro h
      have h3 := hclosed.mp ((isClosed_iff w d).mpr h)
      omega
    refine ⟨n + 1, evs ++ evs', hj', by rw [hlog', hlog, List.append_assoc], ?_, ?_, ?_⟩
    · have htake : (diagnoseEvents snapshots onDisk d).take (n + 1)
          = (diagnoseEvents snapshots onDisk d).take n ++ evs' := by
        rw [hevs']
        match n, hn with
        | 0, _ => rfl
        | 1, _ => rfl
        | 2, _ => rfl
      rw [htake]
      exact List.Sublist.append hsub (List.Sublist.refl _)
    · rw [List.count_append, hcount, hevs']
      match n, hn with
      | 0, _ => simp [diagnoseEvents]
      | 1, _ => simp [diagnoseEvents]
      | 2, _ => simp [diagnoseEvents]
    · rw [isClosed_iff]
      rw [hevs', if_neg hopen] at hcd
      match n, hn, hcd with
      | 0, _, hcd =>
        simp only [diagnoseEvents, List.drop, List.take] at hcd
        constructor
        · intro h; rw [if_pos h] at hcd; simp at hcd
        · intro h; omega
      | 1, _, hcd =>
        simp only [diagnoseEvents, List.drop, List.take] at hcd
        constructor
        · intro h; rw [if_pos h] at hcd; simp at hcd
        · intro h; omega
      | 2, _, hcd =>
        simp only [diagnoseEvents, List.drop, List.take] at hcd
        constructor
        · intro _; omega
        · intro _
          by_contra h
          rw [if_neg h] at hcd
          simp at hcd

/-- Along every execution the trace of the diagnosis goroutine is kept. -/
theorem diagTrace_reachable (env : Env) (w1 w2 : World) (d : Chan) (j : Nat)
    (snapshots : List Snapshot) (onDisk : Bool) (base : List Event)
    (hr : Reachable env w1 w2) (hwf : WellFormed w1)
    (ht : DiagTrace d j snapshots onDisk base w1) :
    DiagTrace d j snapshots onDisk base w2 := by
  induction hr with
  | refl => exact ht
  | tail w w' hr' hs ih =>
    exact diagTrace_step env w w' d j snapshots onDisk base hs
      (wellFormed_reachable env w1 w hr' hwf) ih

/-! ## Theorems: the release of the snapshots -/

/-- When `Session.DidModifyFiles` succeeds, `processModifications` stores the new session,
starts the diagnosis goroutine and updates the watched directories. -/
theorem processModifications_success_eq (env : Env) (modifications : List FileModification)
    (onDisk : Bool) (d : Chan) (w : World) (snapshots : List Snapshot) (session : Session)
    (hstate : ¬ env.serverShutDown ≤ w.server.state)
    (hok : env.sessionDidModifyFiles w.server.session
      (env.expandModificationsToDirectories w.server.session modifications)
        = .ok (snapshots, session)) :
    (processModifications env modifications onDisk d w).2 =
      { w with
        server := { w.server with session := session }
        goroutines := w.goroutines ++ [diagnoseGoroutine snapshots onDisk d]
        log := w.log ++ [.processModifications modifications onDisk d,
          .lock .stateMu, .unlock .stateMu,
          .expandModificationsToDirectories modifications,
          .sessionDidModifyFiles
            (env.expandModificationsToDirectories w.server.session modifications),
          .go (diagnoseGoroutine snapshots onDisk d), .updateWatchedDirectories] } := by
  simp only [processModifications, World.emit, World.spawn, hstate, if_false, hok,
    diagnoseGoroutine]
  split <;> simp

/-- When `Session.DidModifyFiles` fails, `processModifications`, given an open completion
signal, closes that signal and returns the error. -/
theorem processModifications_failure_eq (env : Env) (modifications : List FileModification)
    (onDisk : Bool) (d : Chan) (w : World) (e : GoError)
    (hstate : ¬ env.serverShutDown ≤ w.server.state)
    (hopen : w.chans[d]? = some false)
    (herr : env.sessionDidModifyFiles w.server.session
      (env.expandModificationsToDirectories w.server.session modifications) = .error e) :
    processModifications env modifications onDisk d w =
      (.err e,
        { w with
          chans := w.chans.set d true
          log := w.log ++ [.processModifications modifications onDisk d,
            .lock .stateMu, .unlock .stateMu,
            .expandModificationsToDirectories modifications,
            .sessionDidModifyFiles
              (env.expandModificationsToDirectories w.server.session modifications),
            .close d] }) := by
  simp [processModifications, World.emit, closeChan, hstate, hopen, herr]

/-- A well-formed world stays well-formed when a diagnosis goroutine is started for an
open signal that nothing else is to close. -/
theorem wellFormed_spawn_diagnose (w w' : World) (snapshots : List Snapshot) (onDisk : Bool)
    (d : Chan) (hwf : WellFormed w) (hopen : w.chans[d]? = some false)
    (hfresh : d ∉ w.closers)
    (hgs : w'.goroutines = w.goroutines ++ [diagnoseGoroutine snapshots onDisk d])
    (hch : w'.chans = w.chans)
    (hpend : w'.server.pendingOnDiskChanges = w.server.pendingOnDiskChanges)
    (hpan : w'.panicked = w.panicked) : WellFormed w' := by
  rw [wellFormed_iff_count] at hwf ⊢
  refine ⟨by rw [hpan]; exact hwf.1, fun c => ?_⟩
  have hcl : w'.closers.count c = w.closers.count c + (if d = c then 1 else 0) := by
    simp only [World.closers, hgs, hpend, List.flatMap_append, List.flatMap_cons,
      List.flatMap_nil, closes_diagnoseGoroutine, List.count_append, List.append_nil,
      List.count_cons, List.count_nil, beq_iff_eq]
    omega
  rw [hcl, hch]
  by_cases hdc : d = c
  · subst hdc
    rw [List.count_eq_zero_of_not_mem hfresh, if_pos rfl, if_pos hopen]
  · rw [if_neg hdc]
    exact hwf.2 c

/-- Right after it is started the diagnosis goroutine has run nothing. -/
theorem diagTrace_start (w : World) (d : Chan) (snapshots : List Snapshot) (onDisk : Bool)
    (j : Nat) (hwf : WellFormed w)
    (hj : w.goroutines[j]? = some (diagnoseGoroutine snapshots onDisk d)) :
    DiagTrace d j snapshots onDisk w.log w := by
  have hopen := not_closed_of_close_ahead w j _ d hwf hj (by simp [diagnoseGoroutine])
  refine ⟨0, [], hj, by simp, by simp, by simp, ?_⟩
  rw [isClosed_iff, hopen]
  simp

/-- C15. The release function is called exactly once, after the diagnosis and
before the completion signal is closed. Let `processModifications` be called
in a well-formed world, the server not shut down, with an open completion
signal that nothing else is to close. When `Session.DidModifyFiles` succeeds
with `snapshots`, the call itself logs no diagnosis and no release; it starts
one goroutine with the statements `diagnoseSnapshots(snapshots, onDisk)`,
`release()`, `close(diagnoseDone)`; in every later world that goroutine has
run its first `n` statements, each once and in that order, their events are
in the log in that order, a `close` of the signal is in the log exactly when
all three have run, and the signal is closed exactly then; and the goroutine
can always run to its end. When `Session.DidModifyFiles` fails, the call
closes the signal itself and returns the error: no goroutine is started, and
its log holds no diagnosis and no release. -/
theorem processModifications_release_once (env : Env) (modifications : List FileModification)
    (onDisk : Bool) (d : Chan) (w : World) (hwf : WellFormed w)
    (hopen : w.chans[d]? = some false) (hfresh : d ∉ w.closers)
    (hstate : ¬ env.serverShutDown ≤ w.server.state) :
    (∀ (snapshots : List Snapshot) (session : Session),
      env.sessionDidModifyFiles w.server.session
          (env.expandModificationsToDirectories w.server.session modifications)
        = .ok (snapshots, session) →
      (processModifications env modifications onDisk d w).2.goroutines
        = w.goroutines ++
            [[.diagnoseSnapshots snapshots onDisk, .release snapshots, .close d]] ∧
      (processModifications env modifications onDisk d w).2.log
        = w.log ++ [.processModifications modifications onDisk d,
            .lock .stateMu, .unlock .stateMu,
            .expandModificationsToDirectories modifications,
            .sessionDidModifyFiles
              (env.expandModificationsToDirectories w.server.session modifications),
            .go [.diagnoseSnapshots snapshots onDisk, .release snapshots, .close d],
            .updateWatchedDirectories] ∧
      (processModifications env modifications onDisk d w).2.isClosed d = false ∧
      ∀ w2, Reachable env (processModifications env modifications onDisk d w).2 w2 →
        (∃ (n : Nat) (evs : List Event),
          w2.goroutines[w.goroutines.length]?
            = some (([.diagnoseSnapshots snapshots onDisk, .release snapshots, .close d]
                : Goroutine).drop n) ∧
          w2.log = (processModifications env modifications onDisk d w).2.log ++ evs ∧
          (([.diagnoseSnapshots snapshots onDisk, .release snapshots, .close d]
              : List Event).take n).Sublist evs ∧
          evs.count (Event.close d) = (if 3 ≤ n then 1 else 0) ∧
          (w2.isClosed d = true ↔ 3 ≤ n)) ∧
        ∃ w3, Reachable env w2 w3 ∧ w3.isClosed d = true) ∧
    (∀ e : GoError,
      env.sessionDidModifyFiles w.server.session
          (env.expandModificationsToDirectories w.server.session modifications) = .error e →
      processModifications env modifications onDisk d w =
        (.err e,
          { w with
            chans := w.chans.set d true
            log := w.log ++ [.processModifications modifications onDisk d,
              .lock .stateMu, .unlock .stateMu,
              .expandModificationsToDirectories modifications,
              .sessionDidModifyFiles
                (env.expandModificationsToDirectories w.server.session modifications),
              .close d] })) := by
  refine ⟨fun snapshots session hok => ?_, fun e herr =>
    processModifications_failure_eq env modifications onDisk d w e hstate hopen herr⟩
  have heq := processModifications_success_eq env modifications onDisk d w snapshots session
    hstate hok
  have hwf1 : WellFormed (processModifications env modifications onDisk d w).2 :=
    wellFormed_spawn_diagnose w _ snapshots onDisk d hwf hopen hfresh
      (by rw [heq]) (by rw [heq]) (by rw [heq]) (by rw [heq])
  have hj : (processModifications env modifications onDisk d w).2.goroutines[w.goroutines.length]?
      = some (diagnoseGoroutine snapshots onDisk d) := by
    rw [heq]
    simp
  have hstart := diagTrace_start _ d snapshots onDisk w.goroutines.length hwf1 hj
  refine ⟨by rw [heq]; rfl, by rw [heq]; rfl, ?_, fun w2 hr => ?_⟩
  · rw [heq]
    simp [World.isClosed, List.getD, hopen]
  · have ht := diagTrace_reachable env _ w2 d w.goroutines.length snapshots onDisk _ hr hwf1
      hstart
    refine ⟨ht, ?_⟩
    obtain ⟨n, _, hj2, _, _, _, hcl⟩ := ht
    exact diag_completes env d w.goroutines.length snapshots onDisk w2
      (wellFormed_reachable env _ w2 hr hwf1) ⟨n, hj2, fun h => hcl.mpr h⟩

/-- C15 on the example server with the open signal `0`: the diagnosis of the
snapshot of the one view is started, and after the three steps of its
goroutine the log holds the diagnosis, the release and the close in that
order; with a failing session nothing is started. -/
theorem processModifications_release_once_witness :
    WellFormed signalWorld ∧ signalWorld.chans[0]? = some false ∧
    (processModifications exampleEnv batchA false 0 signalWorld).2.goroutines
      = [[.diagnoseSnapshots [{ view := "/w", generation := 1, files := [] }] false,
          .release [{ view := "/w", generation := 1, files := [] }], .close 0]] ∧
    processModifications failingEnv batchA false 0 signalWorld =
      (.err (.ext "no such file"),
        { signalWorld with
          chans := [true]
          log := [.make 0, .processModifications batchA false 0, .lock .stateMu,
            .unlock .stateMu, .expandModificationsToDirectories batchA,
            .sessionDidModifyFiles batchA, .close 0] }) :=
  ⟨by decide, by decide,
    ((processModifications_release_once exampleEnv batchA false 0 signalWorld (by decide)
      (by decide) (by decide) (by decide)).1 _ _ rfl).1,
    (processModifications_release_once failingEnv batchA false 0 signalWorld (by decide)
      (by decide) (by decide) (by decide)).2 _ rfl⟩

/-! ## Theorems: the completion signal is closed once -/

/-- A well-formed world stays well-formed when an open signal that nothing else is to
close is closed. -/
theorem wellFormed_close_fresh (w w' : World) (d : Chan) (hwf : WellFormed w)
    (hfresh : d ∉ w.closers) (hgs : w'.goroutines = w.goroutines)
    (hch : w'.chans = w.chans.set d true)
    (hpend : w'.server.pendingOnDiskChanges = w.server.pendingOnDiskChanges)
    (hpan : w'.panicked = w.panicked) : WellFormed w' := by
  have hcl : w'.closers = w.closers := by
    simp only [World.closers, hgs, hpend]
  refine ⟨by rw [hpan]; exact hwf.1, by rw [hcl]; exact hwf.2.1, fun c hc => ?_⟩
  rw [hcl] at hc
  rw [hch, getElem?_set_true_eq_false]
  exact ⟨hwf.2.2 c hc, fun h => hfresh (h ▸ hc)⟩

/-- Called with an open completion signal that nothing else is to close,
`processModifications` leaves a well-formed world well-formed. -/
theorem processModifications_wellFormed (env : Env) (modifications : List FileModification)
    (onDisk : Bool) (d : Chan) (w : World) (hwf : WellFormed w)
    (hopen : w.chans[d]? = some false) (hfresh : d ∉ w.closers) :
    WellFormed (processModifications env modifications onDisk d w).2 := by
  obtain ⟨hpend, _, _, hpan, _⟩ := processModifications_frame env modifications onDisk d w
  rcases processModifications_effect env modifications onDisk d w hopen with
    ⟨hch, hgs, _⟩ | ⟨hch, snapshots, hgs⟩
  · exact wellFormed_close_fresh w _ d hwf hfresh hgs hch hpend hpan
  · exact wellFormed_spawn_diagnose w _ snapshots onDisk d hwf hopen hfresh hgs hch hpend hpan

/-- From the start of a server on, the log holds one `close` for each closed channel and
none for any other. -/
theorem init_closes_logged (env : Env) (server : Server) (w : World)
    (hr : Reachable env (World.init server) w) (c : Chan) :
    w.log.count (Event.close c) = (if w.isClosed c = true then 1 else 0) := by
  obtain ⟨evs, hlog, hc⟩ := reachable_loggedCloses env _ w hr
  have h := hc c
  have hevs : w.log = evs := by rw [hlog]; simp [World.init]
  have h0 : ¬ (World.init server).chans[c]? = some true := by simp [World.init]
  rw [if_neg h0, ← hevs] at h
  simp only [isClosed_iff]
  omega

/-- C19. The completion signal is closed exactly once. Let
`processModifications` be called in a well-formed world with an open
completion signal that nothing else is to close, as both callers do. On the
shut-down path and on the failure path of `Session.DidModifyFiles` the signal
is closed when the call returns, and no goroutine is started. Otherwise the
signal is open when the call returns, one diagnosis goroutine is started, in
every later world in which the signal is closed that goroutine has ended and
the log holds the diagnosis, the release and the close in that order, and the
goroutine can always run to its end. On every path and in every later world
nothing has panicked, so no closed channel was closed again, and the log
since the call holds one `close` of the signal if it is closed and none if it
is open. In every world reached from the start of a server, whatever was
submitted to `didModifyFiles` on the immediate and the debounced path,
nothing has panicked, every channel still to be closed is open and has one
closer, and the log holds one `close` for each closed channel and none for
any other. -/
theorem diagnoseDone_closed_exactly_once (env : Env) (modifications : List FileModification)
    (onDisk : Bool) (d : Chan) (w : World) (hwf : WellFormed w)
    (hopen : w.chans[d]? = some false) (hfresh : d ∉ w.closers) :
    (env.serverShutDown ≤ w.server.state →
      (processModifications env modifications onDisk d w).2.isClosed d = true ∧
      (processModifications env modifications onDisk d w).2.goroutines = w.goroutines) ∧
    (¬ env.serverShutDown ≤ w.server.state → ∀ e : GoError,
      env.sessionDidModifyFiles w.server.session
          (env.expandModificationsToDirectories w.server.session modifications) = .error e →
      (processModifications env modifications onDisk d w).2.isClosed d = true ∧
      (processModifications env modifications onDisk d w).2.goroutines = w.goroutines) ∧
    (¬ env.serverShutDown ≤ w.server.state →
      ∀ (snapshots : List Snapshot) (session : Session),
      env.sessionDidModifyFiles w.server.session
          (env.expandModificationsToDirectories w.server.session modifications)
        = .ok (snapshots, session) →
      (processModifications env modifications onDisk d w).2.isClosed d = false ∧
      (processModifications env modifications onDisk d w).2.goroutines
        = w.goroutines ++
            [[.diagnoseSnapshots snapshots onDisk, .release snapshots, .close d]] ∧
      ∀ w2, Reachable env (processModifications env modifications onDisk d w).2 w2 →
        (w2.isClosed d = true →
          w2.goroutines[w.goroutines.length]? = some [] ∧
          ∃ evs, w2.log = (processModifications env modifications onDisk d w).2.log ++ evs ∧
            ([.diagnoseSnapshots snapshots onDisk, .release snapshots, .close d]
              : List Event).Sublist evs) ∧
        ∃ w3, Reachable env w2 w3 ∧ w3.isClosed d = true) ∧
    (∀ w2, Reachable env (processModifications env modifications onDisk d w).2 w2 →
      w2.panicked = none ∧
      ∃ evs, w2.log = w.log ++ evs ∧
        evs.count (Event.close d) = (if w2.isClosed d = true then 1 else 0)) ∧
    (∀ (server : Server) (w2 : World), Reachable env (World.init server) w2 →
      w2.panicked = none ∧ w2.closers.Nodup ∧ (∀ c ∈ w2.closers, w2.chans[c]? = some false) ∧
      ∀ c : Chan, w2.log.count (Event.close c) = (if w2.isClosed c = true then 1 else 0)) := by
  have hlt : d < w.chans.length := by
    rcases Nat.lt_or_ge d w.chans.length with h | h
    · exact h
    · rw [List.getElem?_eq_none h] at hopen; cases hopen
  have hwf1 := processModifications_wellFormed env modifications onDisk d w hwf hopen hfresh
  refine ⟨fun hstate => ?_, fun hstate e herr => ?_, fun hstate snapshots session hok => ?_,
    fun w2 hr => ?_, fun server w2 hr => ?_⟩
  · rw [processModifications_terminal_eq env modifications onDisk d w hstate hopen]
    exact ⟨by simp [World.isClosed, List.getD_eq_getElem?_getD, List.getElem?_set, hlt], rfl⟩
  · rw [processModifications_failure_eq env modifications onDisk d w e hstate hopen herr]
    exact ⟨by simp [World.isClosed, List.getD_eq_getElem?_getD, List.getElem?_set, hlt], rfl⟩
  · have heq := processModifications_success_eq env modifications onDisk d w snapshots
      session hstate hok
    have hj : (processModifications env modifications onDisk d w).2.goroutines[
        w.goroutines.length]? = some (diagnoseGoroutine snapshots onDisk d) := by
      rw [heq]
      simp
    have hstart := diagTrace_start _ d snapshots onDisk w.goroutines.length hwf1 hj
    refine ⟨?_, by rw [heq]; rfl, fun w2 hr => ?_⟩
    · rw [heq]
      simp [World.isClosed, List.getD, hopen]
    · obtain ⟨n, evs, hj2, hlog, hsub, _, hcl⟩ :=
        diagTrace_reachable env _ w2 d w.goroutines.length snapshots onDisk _ hr hwf1 hstart
      refine ⟨fun hc => ?_, ?_⟩
      · have hn := hcl.mp hc
        refine ⟨?_, evs, hlog, ?_⟩
        · rw [hj2]
          congr 1
          apply List.drop_eq_nil_of_le
          simpa [diagnoseGoroutine] using hn
        · have ht : (diagnoseEvents snapshots onDisk d).take n
              = diagnoseEvents snapshots onDisk d :=
            List.take_of_length_le (by simpa [diagnoseEvents] using hn)
          rw [ht] at hsub
          exact hsub
      · exact diag_completes env d w.goroutines.length snapshots onDisk w2
          (wellFormed_reachable env _ w2 hr hwf1) ⟨n, hj2, fun h => hcl.mpr h⟩
  · refine ⟨(wellFormed_reachable env _ w2 hr hwf1).1, ?_⟩
    obtain ⟨evs, hlog, hc⟩ := loggedCloses_trans _ _ _
      (processModifications_loggedCloses env modifications onDisk d w)
      (reachable_loggedCloses env _ w2 hr)
    refine ⟨evs, hlog, ?_⟩
    have h := hc d
    have h0 : ¬ w.chans[d]? = some true := by rw [hopen]; simp
    rw [if_neg h0] at h
    simp only [isClosed_iff]
    omega
  · have hwf2 := wellFormed_reachable env _ w2 hr (wellFormed_init server)
    exact ⟨hwf2.1, hwf2.2.1, hwf2.2.2, fun c => init_closes_logged env server w2 hr c⟩

/-- C19 on the example server: with the open signal `0`, the call leaves the
signal open and starts the diagnosis goroutine; after shutdown the call
closes the signal itself and starts nothing. -/
theorem diagnoseDone_closed_exactly_once_witness :
    WellFormed signalWorld ∧ signalWorld.chans[0]? = some false ∧
    0 ∉ signalWorld.closers ∧
    (processModifications exampleEnv batchA false 0 signalWorld).2.isClosed 0 = false ∧
    WellFormed shutDownWorld ∧ exampleEnv.serverShutDown ≤ shutDownWorld.server.state ∧
    (processModifications exampleEnv batchA true 0 shutDownWorld).2.isClosed 0 = true ∧
    (processModifications exampleEnv batchA true 0 shutDownWorld).2.goroutines = [] :=
  ⟨by decide, by decide, by decide,
    ((diagnoseDone_closed_exactly_once exampleEnv batchA false 0 signalWorld (by decide)
      (by decide) (by decide)).2.2.1 (by decide) _ _ rfl).1,
    by decide, by decide,
    ((diagnoseDone_closed_exactly_once exampleEnv batchA true 0 shutDownWorld (by decide)
      (by decide) (by decide)).1 (by decide)).1,
    ((diagnoseDone_closed_exactly_once exampleEnv batchA true 0 shutDownWorld (by decide)
      (by decide) (by decide)).1 (by decide)).2⟩

/-! ## Theorems: the separate-process backend of the test runner -/

/-- A call of `getRemoteSocket` on a runner that has a socket directory only locks and
unlocks `r.mu` and returns the socket in that directory. -/
theorem getRemoteSocket_known (os : RunnerEnv) (w : RunnerWorld)
    (h : w.runner.socketDir ≠ "") :
    getRemoteSocket os w
      = (.ok (os.join w.runner.socketDir daemonFile),
          { w with log := w.log ++ [.lock, .unlock] }) := by
  simp [getRemoteSocket, RunnerWorld.emit, h]

/-- Any number of calls on a runner that has a socket directory leave the runner and the
directories as they are and start no process. -/
theorem remoteSocketCalls_known (os : RunnerEnv) (n : Nat) (w : RunnerWorld)
    (h : w.runner.socketDir ≠ "") :
    (remoteSocketCalls os n w).runner = w.runner ∧ (remoteSocketCalls os n w).dirs = w.dirs ∧
    spawned (remoteSocketCalls os n w).log = spawned w.log := by
  induction n generalizing w with
  | zero => exact ⟨rfl, rfl, rfl⟩
  | succ n ih =>
    simp only [remoteSocketCalls]
    rw [getRemoteSocket_known os w h]
    obtain ⟨h1, h2, h3⟩ := ih { w with log := w.log ++ [.lock, .unlock] } h
    refine ⟨h1, h2, ?_⟩
    rw [h3]
    simp [spawned, List.filter_append, RunnerEvent.isGoRun]

/-- The first call of `getRemoteSocket` on a runner with a configured gopls binary, when
the directory can be made. -/
theorem getRemoteSocket_first (os : RunnerEnv) (w : RunnerWorld) (dir : String)
    (hpath : w.runner.GoplsPath ≠ "") (hfirst : w.runner.socketDir = "")
    (htemp : os.tempDir w.dirs w.runner.TempDir "gopls-regtest-socket" = .ok dir) :
    getRemoteSocket os w
      = (.ok (os.join dir daemonFile),
          { runner := { w.runner with socketDir := dir }
            dirs := w.dirs ++ [dir]
            log := w.log ++ [.lock, .tempDir w.runner.TempDir "gopls-regtest-socket",
              .goRun { name := w.runner.GoplsPath,
                       args := ["serve", "-listen", "unix;" ++ os.join dir daemonFile,
                         "-listen.timeout", "10s"],
                       env := os.environ ++ ["_GOPLS_TEST_BINARY_RUN_AS_GOPLS=true"] },
              .unlock] }) := by
  simp [getRemoteSocket, RunnerWorld.emit, hpath, hfirst, htemp, runTestAsGoplsEnvvar]

/-- One call of `getRemoteSocket` on a runner without a socket directory either ends the
test, leaving the runner without one, or makes one directory and starts one process. -/
theorem getRemoteSocket_step (os : RunnerEnv) (w : RunnerWorld)
    (hfirst : w.runner.socketDir = "") :
    ((getRemoteSocket os w).2.runner.socketDir = "" ∧
      (getRemoteSocket os w).2.dirs = w.dirs ∧
      spawned (getRemoteSocket os w).2.log = spawned w.log) ∨
    (∃ dir, os.tempDir w.dirs w.runner.TempDir "gopls-regtest-socket" = .ok dir ∧
      (getRemoteSocket os w).2.runner.socketDir = dir ∧
      (getRemoteSocket os w).2.dirs = w.dirs ++ [dir] ∧
      spawned (getRemoteSocket os w).2.log = spawned w.log + 1) := by
  by_cases hpath : w.runner.GoplsPath = ""
  · left
    simp [getRemoteSocket, RunnerWorld.emit, hpath, hfirst, spawned, List.filter_append,
      RunnerEvent.isGoRun]
  · cases htemp : os.tempDir w.dirs w.runner.TempDir "gopls-regtest-socket" with
    | error e =>
      left
      simp [getRemoteSocket, RunnerWorld.emit, hpath, hfirst, htemp, spawned,
        List.filter_append, RunnerEvent.isGoRun]
    | ok dir =>
      right
      refine ⟨dir, rfl, ?_⟩
      rw [getRemoteSocket_first os w dir hpath hfirst htemp]
      simp [spawned, List.filter_append, RunnerEvent.isGoRun]

/-- Over any number of calls at most one directory is made and at most one process is
started, when `ioutil.TempDir` never gives the empty name. -/
theorem remoteSocketCalls_at_most_once (os : RunnerEnv)
    (hname : ∀ dirs dir pattern name, os.tempDir dirs dir pattern = .ok name → name ≠ "")
    (n : Nat) (w : RunnerWorld) (hfirst : w.runner.socketDir = "") :
    spawned (remoteSocketCalls os n w).log ≤ spawned w.log + 1 ∧
    (remoteSocketCalls os n w).dirs.length ≤ w.dirs.length + 1 := by
  induction n generalizing w with
  | zero => exact ⟨Nat.le_succ _, Nat.le_succ _⟩
  | succ n ih =>
    simp only [remoteSocketCalls]
    rcases getRemoteSocket_step os w hfirst with ⟨h1, h2, h3⟩ | ⟨dir, htemp, h1, h2, h3⟩
    · have := ih (getRemoteSocket os w).2 h1
      rw [h2, h3] at this
      exact this
    · have hne : (getRemoteSocket os w).2.runner.socketDir ≠ "" := by
        rw [h1]; exact hname _ _ _ _ htemp
      obtain ⟨_, k2, k3⟩ := remoteSocketCalls_known os n (getRemoteSocket os w).2 hne
      rw [k2, k3, h2, h3]
      simp

/-- C17. The separate-process backend is spawned lazily and at most once. For
a `Runner` with a configured `GoplsPath` that has no socket directory yet,
when `ioutil.TempDir` makes the directory `dir`, the first `getRemoteSocket`
call stores `dir` in `socketDir`, starts exactly one process, the gopls
binary with the arguments `serve -listen unix;socket -listen.timeout 10s` and
the environment of the test followed by `_GOPLS_TEST_BINARY_RUN_AS_GOPLS=true`,
and returns the socket `dir/gopls-test-daemon`. After it and any number of
further calls, a call returns the same socket, only locks and unlocks `r.mu`,
and leaves the `Runner` and the directories as they are, with no process
started; `separateProcessServer` then hands `unix;socket` to the forwarder
and starts nothing. Whatever `ioutil.TempDir` answers, any number of calls
make at most one directory and start at most one process. -/
theorem getRemoteSocket_spawns_once (os : RunnerEnv) (w : RunnerWorld) (dir : String)
    (hname : ∀ dirs dir pattern name, os.tempDir dirs dir pattern = .ok name → name ≠ "")
    (hpath : w.runner.GoplsPath ≠ "") (hfirst : w.runner.socketDir = "")
    (htemp : os.tempDir w.dirs w.runner.TempDir "gopls-regtest-socket" = .ok dir) :
    getRemoteSocket os w
      = (.ok (os.join dir "gopls-test-daemon"),
          { runner := { w.runner with socketDir := dir }
            dirs := w.dirs ++ [dir]
            log := w.log ++ [.lock, .tempDir w.runner.TempDir "gopls-regtest-socket",
              .goRun { name := w.runner.GoplsPath,
                       args := ["serve", "-listen", "unix;" ++ os.join dir "gopls-test-daemon",
                         "-listen.timeout", "10s"],
                       env := os.environ ++ ["_GOPLS_TEST_BINARY_RUN_AS_GOPLS=true"] },
              .unlock] }) ∧
    (∀ n : Nat,
      getRemoteSocket os (remoteSocketCalls os n (getRemoteSocket os w).2)
        = (.ok (os.join dir "gopls-test-daemon"),
            { remoteSocketCalls os n (getRemoteSocket os w).2 with
              log := (remoteSocketCalls os n (getRemoteSocket os w).2).log
                ++ [.lock, .unlock] }) ∧
      separateProcessServer os (remoteSocketCalls os n (getRemoteSocket os w).2)
        = ((match os.newForwarder ("unix;" ++ os.join dir "gopls-test-daemon") with
            | some _ => .panic "internal error: unable to create forwarder: %v"
            | none => .ok ("unix;" ++ os.join dir "gopls-test-daemon")),
            { remoteSocketCalls os n (getRemoteSocket os w).2 with
              log := (remoteSocketCalls os n (getRemoteSocket os w).2).log
                ++ [.lock, .unlock,
                    .newForwarder ("unix;" ++ os.join dir "gopls-test-daemon")] }) ∧
      (remoteSocketCalls os n (getRemoteSocket os w).2).runner
        = { w.runner with socketDir := dir } ∧
      (remoteSocketCalls os n (getRemoteSocket os w).2).dirs = w.dirs ++ [dir] ∧
      spawned (remoteSocketCalls os n (getRemoteSocket os w).2).log = spawned w.log + 1) ∧
    (∀ (n : Nat) (w0 : RunnerWorld), w0.runner.socketDir = "" →
      spawned (remoteSocketCalls os n w0).log ≤ spawned w0.log + 1 ∧
      (remoteSocketCalls os n w0).dirs.length ≤ w0.dirs.length + 1) := by
  have hfst := getRemoteSocket_first os w dir hpath hfirst htemp
  have hdir : dir ≠ "" := hname _ _ _ _ htemp
  refine ⟨hfst, fun n => ?_, fun n w0 h0 => remoteSocketCalls_at_most_once os hname n w0 h0⟩
  have hne : (getRemoteSocket os w).2.runner.socketDir ≠ "" := by rw [hfst]; exact hdir
  obtain ⟨k1, k2, k3⟩ := remoteSocketCalls_known os n (getRemoteSocket os w).2 hne
  have hne' : (remoteSocketCalls os n (getRemoteSocket os w).2).runner.socketDir ≠ "" := by
    rw [k1]; exact hne
  have hsock : (remoteSocketCalls os n (getRemoteSocket os w).2).runner.socketDir = dir := by
    rw [k1, hfst]
  have hcall := getRemoteSocket_known os _ hne'
  rw [hsock] at hcall
  refine ⟨hcall, ?_, by rw [k1, hfst], by rw [k2, hfst], ?_⟩
  · simp only [separateProcessServer, hcall, newForwarder, RunnerWorld.emit, daemonFile]
    have happ : "unix" ++ ";" ++ os.join dir "gopls-test-daemon"
        = "unix;" ++ os.join dir "gopls-test-daemon" := by
      rw [String.append_assoc]
      rfl
    rw [happ]
    cases os.newForwarder ("unix;" ++ os.join dir "gopls-test-daemon") <;> simp
  · rw [k3, hfst]
    simp [spawned, List.filter_append, RunnerEvent.isGoRun]

/-- C17 on the example runner: the first call makes `/tmp/gopls-regtest-socket`
and starts `/bin/gopls`; the second call returns the same socket and starts
nothing. -/
theorem getRemoteSocket_spawns_once_witness :
    exampleRunnerWorld.runner.GoplsPath ≠ "" ∧ exampleRunnerWorld.runner.socketDir = "" ∧
    getRemoteSocket exampleRunnerEnv exampleRunnerWorld
      = (.ok "/tmp/gopls-regtest-socket/gopls-test-daemon",
          { runner := { GoplsPath := "/bin/gopls", TempDir := "/tmp",
                        socketDir := "/tmp/gopls-regtest-socket" }
            dirs := ["/tmp/gopls-regtest-socket"]
            log := [.lock, .tempDir "/tmp" "gopls-regtest-socket",
              .goRun { name := "/bin/gopls",
                       args := ["serve", "-listen",
                         "unix;/tmp/gopls-regtest-socket/gopls-test-daemon",
                         "-listen.timeout", "10s"],
                       env := ["HOME=/root", "_GOPLS_TEST_BINARY_RUN_AS_GOPLS=true"] },
              .unlock] }) ∧
    spawned (remoteSocketCalls exampleRunnerEnv 1
      (getRemoteSocket exampleRunnerEnv exampleRunnerWorld).2).log = 1 :=
  ⟨by decide, by decide,
    (getRemoteSocket_spawns_once exampleRunnerEnv exampleRunnerWorld
      "/tmp/gopls-regtest-socket"
      (fun _ dir pattern name h => by
        simp only [exampleRunnerEnv, Except.ok.injEq] at h
        subst h
        intro h0
        have := congrArg String.length h0
        simp only [String.length_append] at this
        have h1 : "/".length = 1 := rfl
        have h2 : "".length = 0 := rfl
        omega)
      (by decide) (by decide) rfl).1,
    ((getRemoteSocket_spawns_once exampleRunnerEnv exampleRunnerWorld
      "/tmp/gopls-regtest-socket"
      (fun _ dir pattern name h => by
        simp only [exampleRunnerEnv, Except.ok.injEq] at h
        subst h
        intro h0
        have := congrArg String.length h0
        simp only [String.length_append] at this
        have h1 : "/".length = 1 := rfl
        have h2 : "".length = 0 := rfl
        omega)
      (by decide) (by decide) rfl).2.1 1).2.2.2.2⟩

/-! ## Theorems: the publication of diagnostics -/

/-- The consumer keeps what it applied in order. -/
theorem receive_inOrder (applied : List Diagnostics) (d : Diagnostics) (h : InOrder applied) :
    InOrder (receive applied d) := by
  unfold receive
  split
  · exact h
  · rename_i hany
    unfold InOrder
    rw [List.pairwise_append]
    refine ⟨h, List.pairwise_singleton _ _, fun a ha b hb huri => ?_⟩
    rw [List.mem_singleton] at hb
    subst hb
    by_contra hlt
    apply hany
    rw [List.any_eq_true]
    exact ⟨a, ha, by simpa using ⟨huri, Nat.lt_of_not_le hlt⟩⟩

/-- The consumer only adds to what it applied. -/
theorem receive_extends (applied : List Diagnostics) (d : Diagnostics) :
    applied <+: receive applied d := by
  unfold receive
  split
  · exact List.prefix_refl _
  · exact List.prefix_append _ _

/-- Receiving several diagnostics keeps what was applied in order. -/
theorem foldl_receive_inOrder (ds applied : List Diagnostics) (h : InOrder applied) :
    InOrder (ds.foldl receive applied) := by
  induction ds generalizing applied with
  | nil => exact h
  | cons d ds ih => exact ih _ (receive_inOrder applied d h)

/-- Receiving several diagnostics only adds to what was applied. -/
theorem foldl_receive_extends (ds applied : List Diagnostics) :
    applied <+: ds.foldl receive applied := by
  induction ds generalizing applied with
  | nil => exact List.prefix_refl _
  | cons d ds ih => exact (receive_extends applied d).trans (ih _)

/-- One event of the log keeps what was applied in order. -/
theorem publishEvent_inOrder (applied : List Diagnostics) (ev : Event) (h : InOrder applied) :
    InOrder (publishEvent applied ev) := by
  cases ev <;> first | exact h | exact foldl_receive_inOrder _ _ h

/-- One event of the log only adds to what was applied. -/
theorem publishEvent_extends (applied : List Diagnostics) (ev : Event) :
    applied <+: publishEvent applied ev := by
  cases ev <;> first | exact List.prefix_refl _ | exact foldl_receive_extends _ _

/-- A log keeps what was applied in order. -/
theorem foldl_publishEvent_inOrder (log : List Event) (applied : List Diagnostics)
    (h : InOrder applied) : InOrder (log.foldl publishEvent applied) := by
  induction log generalizing applied with
  | nil => exact h
  | cons ev log ih => exact ih _ (publishEvent_inOrder applied ev h)

/-- A log only adds to what was applied. -/
theorem foldl_publishEvent_extends (log : List Event) (applied : List Diagnostics) :
    applied <+: log.foldl publishEvent applied := by
  induction log generalizing applied with
  | nil => exact List.prefix_refl _
  | cons ev log ih => exact (publishEvent_extends applied ev).trans (ih _)

/-- The code of this file alone sets no order between the diagnoses of two batches: the
diagnosis of the older snapshot may run after that of the newer one. -/
theorem staleDiagnosedWorld_reachable :
    Reachable bumpingEnv exampleWorld staleDiagnosedWorld ∧
    staleDiagnosedWorld.log.filter
        (fun ev => match ev with | .diagnoseSnapshots _ _ => true | _ => false)
      = [.diagnoseSnapshots
            [{ view := "/w", generation := 3, files := [("file:///a.go", xyzdef)] }] false,
         .diagnoseSnapshots
            [{ view := "/w", generation := 2, files := [("file:///a.go", abcdef)] }] false] := by
  refine ⟨?_, by decide⟩
  have s1 : Step bumpingEnv exampleWorld changedOnceWorld :=
    Step.submit [changeOfA abcdef] .FromDidChange exampleWorld (by decide)
  have s2 : Step bumpingEnv changedOnceWorld changedTwiceWorld :=
    Step.submit [changeOfA xyzdef] .FromDidChange changedOnceWorld (by decide)
  have s3 : Step bumpingEnv changedTwiceWorld newerDiagnosedWorld :=
    Step.goroutine 1 false _ _ (by decide)
  have s4 : Step bumpingEnv newerDiagnosedWorld staleDiagnosedWorld :=
    Step.goroutine 0 false _ _ (by decide)
  exact Reachable.tail _ _ _ (Reachable.tail _ _ _ (Reachable.tail _ _ _
    (Reachable.single _ _ _ s1) s2) s3) s4

/-- C18. Stale diagnostics are never published after newer ones. With the
consumer of §4.3, which discards diagnostics older than what it applied for
the same URI, in every world, of any two diagnostics published for the same
URI the earlier one has no higher generation than the later one, whatever
the order in which the detached diagnosis goroutines of the batches ran; and
what is published stays published, in that order, in every later world. -/
theorem stale_diagnostics_never_published (env : Env) (w : World) :
    (published w.log).Pairwise (fun earlier later =>
      earlier.uri = later.uri → earlier.generation ≤ later.generation) ∧
    ∀ w', Reachable env w w' → published w.log <+: published w'.log := by
  refine ⟨foldl_publishEvent_inOrder w.log [] List.Pairwise.nil, fun w' hr' => ?_⟩
  obtain ⟨evs, hlog, _⟩ := reachable_loggedCloses env w w' hr'
  unfold published
  rw [hlog, List.foldl_append]
  exact foldl_publishEvent_extends _ _

/-- C18 on the example server: two changes of `a.go` are submitted, the
diagnosis of the second (generation 3) runs before that of the first
(generation 2), and only the diagnostics of generation 3 are published. -/
theorem stale_diagnostics_never_published_witness :
    Reachable bumpingEnv (World.init exampleServer) staleDiagnosedWorld ∧
    published staleDiagnosedWorld.log = [{ uri := "file:///a.go", generation := 3 }] ∧
    (published staleDiagnosedWorld.log).Pairwise (fun earlier later =>
      earlier.uri = later.uri → earlier.generation ≤ later.generation) :=
  ⟨staleDiagnosedWorld_reachable.1, by decide,
    (stale_diagnostics_never_published bumpingEnv staleDiagnosedWorld).1⟩

end Lsp
